import Mathlib

/-!
# Physics processor (`src/js/processors/game/physics.js`)

A shallow embedding of `PhysicsProcessor`: the per-frame `update`, the tile-map
conversion `loadMap`, the collision resolution `checkCollision` and `activateFx`.

Conventions of the embedding.

* JavaScript numbers are exact rationals (`ℚ`); tile indices and map sizes are naturals.
* A component table of the entity store is an association list from entity identifier to
  the component record, held in the order in which `for (id in table)` visits it.
* A lookup of a component that an entity does not have makes the JavaScript throw; the
  embedding returns `none` for the whole call.
* The collision library (`lib/sat`) and the input constants are not part of the sources;
  the library is a parameter (`SatLib`).
-/

namespace Physics

/-! ## Constants -/

/-- Source: `var GRAVITY = 10;` -/
def GRAVITY : ℚ := 10

/-- Source: `var DECELERATION = 1000;` in pixels per second. -/
def DECELERATION : ℚ := 1000

/-! ## Tile merging (`loadMap`, lines 128-162) -/

/-- The test `platformTiles[j] === 0`. An index past the end of the array reads
`undefined`, which is not `=== 0`. -/
def tileIsZero (platformTiles : List Nat) (j : Nat) : Bool :=
  platformTiles[j]? == some 0

/-- The test `markedTiles[j]`: `markedTiles` is a sparse array that only ever receives
`true`; it is kept as the list of indices that were set. -/
def isMarked (markedTiles : List Nat) (j : Nat) : Bool :=
  markedTiles.contains j

/-- The loop `for (var j = i + 1; j <= rowEnd; j++)` (lines 142-149); `count` is the number
of values of `j` left to visit, `rowEnd + 1 - j`. Returns `markedTiles` and `combinedBox`. -/
def rowLoop (platformTiles : List Nat) :
    Nat → Nat → List Nat → List Nat → List Nat × List Nat
  | 0, _, markedTiles, combinedBox => (markedTiles, combinedBox)
  | count + 1, j, markedTiles, combinedBox =>
    if tileIsZero platformTiles j || isMarked markedTiles j then
      (markedTiles, combinedBox)
    else
      rowLoop platformTiles count (j + 1) (j :: markedTiles) (combinedBox ++ [j])

/-- The loop `for (var k = i + mapWidth; k <= columnEnd; k += mapWidth)` (lines 153-161);
`count` is the number of values of `k` left to visit. Returns `markedTiles`, `combinedBox`
and `horizontalBox`. -/
def columnLoop (platformTiles : List Nat) (mapWidth : Nat) :
    Nat → Nat → List Nat → List Nat → Bool → List Nat × List Nat × Bool
  | 0, _, markedTiles, combinedBox, horizontalBox => (markedTiles, combinedBox, horizontalBox)
  | count + 1, k, markedTiles, combinedBox, horizontalBox =>
    if tileIsZero platformTiles k || isMarked markedTiles k then
      (markedTiles, combinedBox, horizontalBox)
    else
      columnLoop platformTiles mapWidth count (k + mapWidth) (k :: markedTiles)
        (combinedBox ++ [k]) false

/-- One group of merged tiles: the seed index `i`, the indices in `combinedBox` and the
flag `horizontalBox`, as they stand at line 164. -/
structure TileGroup where
  i : Nat
  combinedBox : List Nat
  horizontalBox : Bool
  deriving DecidableEq, Repr

/-- Line 137: `rowEnd = (Math.floor(i / mapWidth) + 1) * mapWidth - 1` . -/
def rowEnd (mapWidth i : Nat) : Nat := (i / mapWidth + 1) * mapWidth - 1

/-- Line 138: `columnEnd = mapWidth * mapHeight - 1`. -/
def columnEnd (mapWidth mapHeight : Nat) : Nat := mapWidth * mapHeight - 1

/-- The body of the outer loop for a seed `i` that is neither zero nor marked
(lines 134-162): marks the seed, runs the row loop and, when the row gave nothing,
the column loop. Returns `markedTiles` and the group.

The row loop visits `rowEnd - i` indices and the column loop
`(columnEnd - i) / mapWidth` indices. For `mapWidth = 0` the JavaScript bounds are
`NaN` and `-1` and both loops are empty, as they are here. -/
def mergeFrom (platformTiles : List Nat) (mapWidth mapHeight : Nat) (i : Nat)
    (markedTiles : List Nat) : List Nat × TileGroup :=
  let r := rowLoop platformTiles (rowEnd mapWidth i - i) (i + 1) (i :: markedTiles) [i]
  if r.2.length = 1 then
    let c := columnLoop platformTiles mapWidth ((columnEnd mapWidth mapHeight - i) / mapWidth)
      (i + mapWidth) r.1 r.2 true
    (c.1, ⟨i, c.2.1, c.2.2⟩)
  else
    (r.1, ⟨i, r.2, true⟩)

/-- The outer loop `for (var i = 0; i < platformTiles.length; i++)` (lines 129-181);
`count` is the number of indices left, `platformTiles.length - i`. Returns the groups in
the order in which their entities are created. -/
def scanLoop (platformTiles : List Nat) (mapWidth mapHeight : Nat) :
    Nat → Nat → List Nat → List TileGroup
  | 0, _, _ => []
  | count + 1, i, markedTiles =>
    if tileIsZero platformTiles i || isMarked markedTiles i then
      scanLoop platformTiles mapWidth mapHeight count (i + 1) markedTiles
    else
      let m := mergeFrom platformTiles mapWidth mapHeight i markedTiles
      m.2 :: scanLoop platformTiles mapWidth mapHeight count (i + 1) m.1

/-- The groups of tiles for which `loadMap` creates one entity each. -/
def mergeTiles (platformTiles : List Nat) (mapWidth mapHeight : Nat) : List TileGroup :=
  scanLoop platformTiles mapWidth mapHeight platformTiles.length 0 []

/-! ## Data model -/

/-- A component table: entity identifier and record, in `for ... in` order. -/
abbrev Table (α : Type) := List (Nat × α)

/-- The call `manager.entityHasComponent(id, kind)` for the table of that kind. -/
def Table.has {α : Type} (t : Table α) (id : Nat) : Bool :=
  (t.lookup id).isSome

/-- Writes the fields of the record of entity `id`, which the caller has looked up. -/
def Table.set {α : Type} (t : Table α) (id : Nat) (v : α) : Table α :=
  t.map fun e => if e.1 = id then (e.1, v) else e

/-- The assignment `obj[id] = v` on an object used as a dictionary: replaces the value of an
existing key and adds a missing key at the end. -/
def Table.put {α : Type} (t : Table α) (id : Nat) (v : α) : Table α :=
  if t.has id then t.set id v else t ++ [(id, v)]

/-- The keys of a table, in `for ... in` order. -/
def Table.keys {α : Type} (t : Table α) : List Nat :=
  t.map Prod.fst

/-- Component `Position`. -/
structure PositionData where
  x : ℚ
  y : ℚ
  deriving DecidableEq

/-- Component `Movable`. -/
structure MovableData where
  speed : ℚ
  dx : ℚ
  dy : ℚ
  speedY : ℚ
  gravityScale : ℚ
  jumpAllowed : Bool
  lastJump : ℚ
  goingRight : Bool
  deriving DecidableEq

/-- Component `Player`. -/
structure PlayerData where
  number : Nat
  deriving DecidableEq

/-- Component `BoundingBox`: offsets from the owner's position, and the size. -/
structure BoundingBoxData where
  x : ℚ
  y : ℚ
  width : ℚ
  height : ℚ
  deriving DecidableEq

/-- Component `Displayable`, the field that `activateFx` writes. -/
structure DisplayableData where
  deleted : Bool
  deriving DecidableEq

/-- Component `Animated`, the fields that `activateFx` writes. -/
structure AnimatedData where
  current : String
  started : Bool
  deriving DecidableEq

/-- A layer of a tile map. -/
structure Layer where
  name : String
  tileIds : List Nat
  deriving DecidableEq

/-- The tile map held by a `Map` component: `size.x`, `size.y`, `layers`, `tileWidth`,
`tileHeight`. -/
structure TileMap where
  sizeX : Nat
  sizeY : Nat
  layers : List Layer
  tileWidth : ℚ
  tileHeight : ℚ
  deriving DecidableEq

/-- Component `Map`; `_map` is `null` until the map is available. -/
structure MapData where
  _map : Option TileMap
  deriving DecidableEq

/-- The actions of `Const.inputs` that `update` switches on; any other action is `other`. -/
inductive Action where
  | JUMP
  | LEFT
  | RIGHT
  | other
  deriving DecidableEq

/-- Component `Input` of the global manager. -/
structure InputData where
  active : Bool
  player : Nat
  action : Action
  deriving DecidableEq

/-- The entity store `this.manager`: one table per component kind, and the identifier that
`createEntity` hands out next. -/
structure Manager where
  Player : Table PlayerData
  Movable : Table MovableData
  Position : Table PositionData
  BoundingBox : Table BoundingBoxData
  Map : Table MapData
  Displayable : Table DisplayableData
  Animated : Table AnimatedData
  nextId : Nat
  deriving DecidableEq

/-- The polygon of `new SAT.Box(pos, w, h).toPolygon()`: kept as the box it was made from. -/
structure Polygon where
  x : ℚ
  y : ℚ
  w : ℚ
  h : ℚ
  deriving DecidableEq

/-- The collision library `lib/sat`, a parameter: responses of type `R`,
`new SAT.Response()`, `response.clear()`, `response.overlapV` as the pair `(x, y)`, and
`SAT.testPolygonPolygon(a, b, response)`, which returns whether the polygons collide and
leaves its findings in the response. -/
structure SatLib (R : Type) where
  newResponse : R
  clear : R → R
  overlapV : R → ℚ × ℚ
  testPolygonPolygon : Polygon → Polygon → R → Bool × R

/-- The state of a `PhysicsProcessor`. -/
structure PhysicsProcessor where
  manager : Manager
  _boxes : Table Polygon
  mapIsLoaded : Bool
  deriving DecidableEq

/-- The polygon `new SAT.Box((new SAT.V(box.x, box.y)).add(new SAT.V(pos.x, pos.y)), box.width,
box.height).toPolygon()`. -/
def toPolygon (box : BoundingBoxData) (pos : PositionData) : Polygon :=
  ⟨box.x + pos.x, box.y + pos.y, box.width, box.height⟩

/-! ## `loadMap` -/

/-- Lines 119-126: the tiles of the first layer named `collision`, or `[]`. -/
def collisionTiles (layers : List Layer) : List Nat :=
  match layers.find? (fun layer => layer.name == "collision") with
  | some layer => layer.tileIds
  | none => []

/-- Lines 165-180: creates the entity of one group of tiles. `createEntity` returns a new
identifier; the entity gets a `BoundingBox` and a `Position`, every field of which is
assigned. (For `mapWidth = 0` the JavaScript position is `NaN`; the embedding is used for
`mapWidth >= 1`.) -/
def createBox (map : TileMap) (m : Manager) (g : TileGroup) : Manager :=
  let boxId := m.nextId
  let boxData : BoundingBoxData :=
    if g.horizontalBox then
      ⟨0, 0, map.tileWidth * g.combinedBox.length, map.tileHeight⟩
    else
      ⟨0, 0, map.tileWidth, map.tileHeight * g.combinedBox.length⟩
  let posData : PositionData :=
    ⟨((g.i % map.sizeX : Nat) : ℚ) * map.tileWidth, ((g.i / map.sizeX : Nat) : ℚ) * map.tileHeight⟩
  { m with
    nextId := m.nextId + 1
    BoundingBox := m.BoundingBox ++ [(boxId, boxData)]
    Position := m.Position ++ [(boxId, posData)] }

/-- The body of `for (var i in maps)` (lines 110-183). -/
def loadOneMap (p : PhysicsProcessor) (mapData : MapData) : PhysicsProcessor :=
  match mapData._map with
  | none => p
  | some map =>
    let groups := mergeTiles (collisionTiles map.layers) map.sizeX map.sizeY
    { p with manager := groups.foldl (createBox map) p.manager, mapIsLoaded := true }

/-- Method `PhysicsProcessor.prototype.loadMap`. -/
def loadMap (p : PhysicsProcessor) : PhysicsProcessor :=
  (p.manager.Map.map Prod.snd).foldl loadOneMap p

/-! ## `checkCollision` -/

/-- The variables of the loop of `checkCollision`. -/
structure CollisionState (R : Type) where
  proc : PhysicsProcessor
  satElement : Polygon
  collisionResponse : R

/-- Lines 211-222 for an entry `id` other than the movable: builds or reuses the polygon of
`id` and tests it against `satElement`. Returns the cache `_boxes`, `areColliding` and the
response after the test. -/
def probe {R : Type} (sat : SatLib R) (st : CollisionState R)
    (entry : Nat × BoundingBoxData) : Option (Table Polygon × Bool × R) := do
  let id := entry.1
  let boxData := entry.2
  let posData ← st.proc.manager.Position.lookup id
  let fresh := toPolygon boxData posData
  let (poly, boxes) :=
    match st.proc._boxes.lookup id with
    | some cached =>
      if st.proc.manager.Movable.has id then (fresh, st.proc._boxes.put id fresh)
      else (cached, st.proc._boxes)
    | none => (fresh, st.proc._boxes.put id fresh)
  let t := sat.testPolygonPolygon st.satElement poly st.collisionResponse
  pure (boxes, t.1, t.2)

/-- Lines 225-243: the response to a detected overlap `overlapV`. -/
def resolve {R : Type} (sat : SatLib R) (movableId : Nat) (movableBoxData : BoundingBoxData)
    (st : CollisionState R) (boxes : Table Polygon) (response : R) :
    Option (CollisionState R) := do
  let movablePosData ← st.proc.manager.Position.lookup movableId
  let overlapV := sat.overlapV response
  let newPos : PositionData :=
    ⟨movablePosData.x - overlapV.1, movablePosData.y - (overlapV.2 + 1)⟩
  let m1 := { st.proc.manager with
    Position := st.proc.manager.Position.set movableId newPos }
  let m2 ←
    if overlapV.2 ≠ 0 then do
      let moveData ← m1.Movable.lookup movableId
      let moveData1 := { moveData with speedY := 100 }
      let moveData2 :=
        if overlapV.2 > 0 then { moveData1 with jumpAllowed := true } else moveData1
      pure { m1 with Movable := m1.Movable.set movableId moveData2 }
    else pure m1
  pure
    { proc := { st.proc with manager := m2, _boxes := boxes }
      satElement := toPolygon movableBoxData newPos
      collisionResponse := sat.clear response }

/-- The body of `for (var id in boundingBoxes)` (lines 207-244). -/
def collisionStep {R : Type} (sat : SatLib R) (movableId : Nat)
    (movableBoxData : BoundingBoxData) (st : CollisionState R)
    (entry : Nat × BoundingBoxData) : Option (CollisionState R) :=
  if entry.1 = movableId then some st else do
    let r ← probe sat st entry
    if r.2.1 then resolve sat movableId movableBoxData st r.1 r.2.2
    else pure { st with proc := { st.proc with _boxes := r.1 }, collisionResponse := r.2.2 }

/-- The loop of lines 206-245 over the entries `boundingBoxes`, from the state in which
`checkCollision` enters it. -/
def collisionLoop {R : Type} (sat : SatLib R) (p : PhysicsProcessor) (movableId : Nat)
    (movableBoxData : BoundingBoxData) (movablePosData : PositionData)
    (boundingBoxes : Table BoundingBoxData) : Option (CollisionState R) :=
  boundingBoxes.foldlM (collisionStep sat movableId movableBoxData)
    ⟨p, toPolygon movableBoxData movablePosData, sat.newResponse⟩

/-- Method `PhysicsProcessor.prototype.checkCollision`. -/
def checkCollision {R : Type} (sat : SatLib R) (p : PhysicsProcessor) (movableId : Nat) :
    Option PhysicsProcessor :=
  if !p.manager.Player.has movableId then some p else do
    let movableBoxData ← p.manager.BoundingBox.lookup movableId
    let movablePosData ← p.manager.Position.lookup movableId
    let st ← collisionLoop sat p movableId movableBoxData movablePosData p.manager.BoundingBox
    pure st.proc

/-! ## `activateFx` -/

/-- The loop `for (fxMov in movables)` of lines 251-256: its body only continues, so
`fxMov` ends as the last key of `movables` (`null` when there is none). -/
def fxEntity (movables : Table MovableData) : Option Nat :=
  movables.keys.getLast?

/-- Method `PhysicsProcessor.prototype.activateFx`. -/
def activateFx (m : Manager) (player : Nat) : Option Manager := do
  let fxMov ← fxEntity m.Movable
  let playerPos ← m.Position.lookup player
  let playerMovable ← m.Movable.lookup player
  let fxPos ← m.Position.lookup fxMov
  let m1 := { m with Position := m.Position.set fxMov { fxPos with x := playerPos.x } }
  let fxPos1 ← m1.Position.lookup fxMov
  let m2 := { m1 with Position := m1.Position.set fxMov { fxPos1 with y := playerPos.y } }
  let fxDisp ← m2.Displayable.lookup fxMov
  let m3 := { m2 with Displayable := m2.Displayable.set fxMov { fxDisp with deleted := false } }
  let fxAnim ← m3.Animated.lookup fxMov
  let m4 := { m3 with
    Animated := m3.Animated.set fxMov { fxAnim with current := "jumpFx", started := false } }
  let fxMove ← m4.Movable.lookup fxMov
  pure { m4 with
    Movable := m4.Movable.set fxMov { fxMove with goingRight := playerMovable.goingRight } }

/-! ## `update` -/

/-- Lines 27-30: `moveData.dx = 0` for every movable. -/
def resetDx (movables : Table MovableData) : Table MovableData :=
  movables.map fun e => (e.1, { e.2 with dx := 0 })

/-- Lines 35-43: the entity of the first player whose number is that of the input, when
that entity has a `Movable` component. -/
def inputTarget (m : Manager) (input : InputData) : Option Nat :=
  match m.Player.find? (fun e => e.2.number == input.player) with
  | some e => if m.Movable.has e.1 then some e.1 else none
  | none => none

/-- Case `Const.inputs.JUMP` (lines 47-54) on the movable of `playerId`. -/
def handleJump (m : Manager) (playerId : Nat) (moveData : MovableData) : Option Manager :=
  if moveData.jumpAllowed && decide (moveData.lastJump > 3 / 10) then
    activateFx
      { m with
        Movable := m.Movable.set playerId
          { moveData with speedY := -600, jumpAllowed := false, lastJump := 0 } }
      playerId
  else some m

/-- Case `Const.inputs.LEFT` (lines 55-58). -/
def handleLeft (dt : ℚ) (moveData : MovableData) : MovableData :=
  { moveData with dx := -(dt / 1000) * moveData.speed, goingRight := false }

/-- Case `Const.inputs.RIGHT` (lines 59-62). -/
def handleRight (dt : ℚ) (moveData : MovableData) : MovableData :=
  { moveData with dx := (dt / 1000) * moveData.speed, goingRight := true }

/-- The body of `for (var inputId in inputs)` (lines 34-65). -/
def handleInput (dt : ℚ) (m : Manager) (input : InputData) : Option Manager :=
  if input.active then
    match inputTarget m input with
    | none => some m
    | some playerId => do
      let moveData ← m.Movable.lookup playerId
      match input.action with
      | Action.JUMP => handleJump m playerId moveData
      | Action.LEFT => pure { m with Movable := m.Movable.set playerId (handleLeft dt moveData) }
      | Action.RIGHT =>
        pure { m with Movable := m.Movable.set playerId (handleRight dt moveData) }
      | Action.other => pure m
  else some m

/-- Lines 73-84: the gravity step on the movable of an entity that has a `Player`. -/
def gravityStep (dt : ℚ) (moveData : MovableData) : MovableData :=
  let speedY := moveData.speedY + DECELERATION * moveData.gravityScale * (dt / 1000)
  let dy := speedY * (dt / 1000)
  let dy := if dy > GRAVITY then GRAVITY else dy
  let lastJump := moveData.lastJump + dt / 1000
  { moveData with
    speedY := speedY
    dy := dy
    lastJump := lastJump
    jumpAllowed := if lastJump < 1 then false else moveData.jumpAllowed }

/-- Lines 69-85: the gravity loop; entities without a `Player` are skipped. -/
def applyGravity (dt : ℚ) (m : Manager) : Manager :=
  { m with
    Movable := m.Movable.map fun e =>
      if m.Player.has e.1 then (e.1, gravityStep dt e.2) else e }

/-- The body of the loop of lines 88-98 for the movable `id`. -/
def moveEntity {R : Type} (sat : SatLib R) (p : PhysicsProcessor) (id : Nat) :
    Option PhysicsProcessor :=
  if !p.manager.Player.has id then some p else do
    let moveData ← p.manager.Movable.lookup id
    let posData ← p.manager.Position.lookup id
    let p1 := { p with manager := { p.manager with
      Position := p.manager.Position.set id { posData with x := posData.x + moveData.dx } } }
    let p2 ← checkCollision sat p1 id
    let moveData2 ← p2.manager.Movable.lookup id
    let posData2 ← p2.manager.Position.lookup id
    let p3 := { p2 with manager := { p2.manager with
      Position := p2.manager.Position.set id { posData2 with y := posData2.y + moveData2.dy } } }
    checkCollision sat p3 id

/-- The state of `update` after the input loop (lines 22-66). -/
def afterInputs (inputs : List InputData) (p : PhysicsProcessor) (dt : ℚ) : Option Manager :=
  inputs.foldlM (handleInput dt) { p.manager with Movable := resetDx p.manager.Movable }

/-- Lines 19-98 of `update`: everything before the map is looked for. -/
def updateMovables {R : Type} (sat : SatLib R) (inputs : List InputData)
    (p : PhysicsProcessor) (dt : ℚ) : Option PhysicsProcessor := do
  let m1 ← afterInputs inputs p dt
  let m2 := applyGravity dt m1
  m2.Movable.keys.foldlM (moveEntity sat) { p with manager := m2 }

/-- Method `PhysicsProcessor.prototype.update`; `inputs` are the `Input` components of the
global manager, in `for ... in` order. -/
def update {R : Type} (sat : SatLib R) (inputs : List InputData) (p : PhysicsProcessor)
    (dt : ℚ) : Option PhysicsProcessor := do
  let p3 ← updateMovables sat inputs p dt
  pure (if !p3.mapIsLoaded then loadMap p3 else p3)

/-! ## Predicates used in the statements -/

/-- The lookups of `activateFx` that must succeed for it not to throw. -/
def fxReady (m : Manager) (player : Nat) : Bool :=
  match fxEntity m.Movable with
  | some fxMov =>
    m.Position.has player && m.Movable.has player && m.Position.has fxMov &&
      m.Displayable.has fxMov && m.Animated.has fxMov
  | none => false

/-- No entity was created or removed and no component was attached or detached between
`m` and `m'`: the component tables have the same keys, the tables that `update` never
writes before `loadMap` are equal, and `createEntity` was not called. -/
def SameEntities (m m' : Manager) : Prop :=
  m'.Player = m.Player ∧ m'.BoundingBox = m.BoundingBox ∧ m'.Map = m.Map ∧
  m'.nextId = m.nextId ∧ m'.Movable.keys = m.Movable.keys ∧
  m'.Position.keys = m.Position.keys ∧ m'.Displayable.keys = m.Displayable.keys ∧
  m'.Animated.keys = m.Animated.keys

/-! ## Sample data for the concrete instances -/

/-- A store with one player (entity 1, number 1), the effect entity 2 and a static box
(entity 5); the player's `jumpAllowed` and `lastJump` are parameters. -/
def sampleManager (jumpAllowed : Bool) (lastJump : ℚ) : Manager where
  Player := [(1, ⟨1⟩)]
  Movable := [(1, ⟨200, 0, 0, 0, 1, jumpAllowed, lastJump, true⟩),
    (2, ⟨0, 0, 0, 0, 0, false, 0, true⟩)]
  Position := [(1, ⟨10, 10⟩), (2, ⟨0, 0⟩), (5, ⟨0, 32⟩)]
  BoundingBox := [(1, ⟨0, 0, 10, 10⟩), (5, ⟨0, 0, 96, 32⟩)]
  Map := []
  Displayable := [(2, ⟨true⟩)]
  Animated := [(2, ⟨"", true⟩)]
  nextId := 6

/-- An active input of player 1. -/
def sampleInput (action : Action) : InputData := ⟨true, 1, action⟩

/-- The movable of `id` stands on the ground: `jumpAllowed` is true and `speedY` is 100. -/
def Grounded (m : Manager) (id : Nat) : Prop :=
  ∃ mv, m.Movable.lookup id = some mv ∧ mv.jumpAllowed = true ∧ mv.speedY = 100

/-- A collision library for the concrete instances: two boxes collide when they overlap on
both axes, and the overlap vector is the vertical penetration of the first into the
second. -/
def sampleSat : SatLib (ℚ × ℚ) where
  newResponse := (0, 0)
  clear := fun _ => (0, 0)
  overlapV := fun r => r
  testPolygonPolygon := fun a b _ =>
    if a.x < b.x + b.w ∧ b.x < a.x + a.w ∧ a.y < b.y + b.h ∧ b.y < a.y + a.h then
      (true, (0, a.y + a.h - b.y))
    else (false, (0, 0))

/-- A processor on `sampleManager` with the player at height `y`, after the map was
loaded. -/
def sampleProc (y : ℚ) : PhysicsProcessor :=
  ⟨{ sampleManager true 1 with Position := [(1, ⟨10, y⟩), (2, ⟨0, 0⟩), (5, ⟨0, 32⟩)] }, [], true⟩

/-- Every movable of a player has `dy` at most `GRAVITY`. -/
def DyBounded (m : Manager) : Prop :=
  ∀ e ∈ m.Movable, m.Player.has e.1 = true → e.2.dy ≤ GRAVITY

/-- The calling convention under which `update` does not throw: every movable of a player
has a position and a bounding box, every bounding box has a position, and the entity that
`activateFx` writes to has the three components it needs. -/
def Ready (m : Manager) : Bool :=
  m.Movable.keys.all (fun k => !m.Player.has k || (m.Position.has k && m.BoundingBox.has k)) &&
  m.BoundingBox.keys.all (fun k => m.Position.has k) &&
  (match fxEntity m.Movable with
    | some fxMov => m.Position.has fxMov && m.Displayable.has fxMov && m.Animated.has fxMov
    | none => true)

/-- The group `g` is a horizontal run that is maximal among the tiles not merged before it:
its tiles are `n` consecutive non-zero tiles of one row from the seed, and the tile left of
the first and the tile right of the last, when in the same row, are zero or in a group of
`earlier`. -/
def MaximalUnmergedRun (platformTiles : List Nat) (mapWidth : Nat)
    (earlier : List TileGroup) (g : TileGroup) : Prop :=
  ∃ n, 1 ≤ n ∧ g.combinedBox = List.range' g.i n ∧ g.i % mapWidth + n ≤ mapWidth ∧
    (∀ t ∈ g.combinedBox, tileIsZero platformTiles t = false) ∧
    (g.i % mapWidth ≠ 0 →
      tileIsZero platformTiles (g.i - 1) = true ∨
        ∃ g' ∈ earlier, (g.i - 1) ∈ g'.combinedBox) ∧
    (g.i % mapWidth + n < mapWidth →
      tileIsZero platformTiles (g.i + n) = true ∨
        ∃ g' ∈ earlier, (g.i + n) ∈ g'.combinedBox)

/-- A 3 x 2 map whose collision layer has the two tiles 4 and 5 of row 1. -/
def sampleMap : TileMap :=
  ⟨3, 2, [⟨"background", [7, 7, 7, 7, 7, 7]⟩, ⟨"collision", [0, 0, 0, 0, 1, 1]⟩], 32, 16⟩

/-- A processor that holds `sampleMap` and has not loaded it. -/
def sampleUnloaded : PhysicsProcessor :=
  ⟨{ sampleManager true 1 with Map := [(3, ⟨some sampleMap⟩)] }, [], false⟩

/-- A store in which the effect entity (1, no `Player`) was created before the two players
(entities 2 and 3, numbers 1 and 2): the last movable is a player. -/
def twoPlayers : Manager where
  Player := [(2, ⟨1⟩), (3, ⟨2⟩)]
  Movable := [(1, ⟨0, 0, 0, 0, 0, false, 0, true⟩), (2, ⟨200, 0, 0, 0, 1, true, 1, false⟩),
    (3, ⟨200, 0, 0, 0, 1, false, 1, true⟩)]
  Position := [(1, ⟨0, 0⟩), (2, ⟨10, 10⟩), (3, ⟨200, 10⟩)]
  BoundingBox := [(2, ⟨0, 0, 10, 10⟩), (3, ⟨0, 0, 10, 10⟩)]
  Map := []
  Displayable := [(1, ⟨true⟩), (2, ⟨false⟩), (3, ⟨false⟩)]
  Animated := [(1, ⟨"", true⟩), (2, ⟨"idle", true⟩), (3, ⟨"idle", true⟩)]
  nextId := 4

/-- A processor on `twoPlayers`, after the map was loaded. -/
def twoPlayersProc : PhysicsProcessor := ⟨twoPlayers, [], true⟩

/-- A processor whose only `Map` component has no map yet. -/
def sampleNoMap : PhysicsProcessor :=
  ⟨{ sampleManager true 1 with Map := [(3, ⟨none⟩)] }, [], false⟩

/-- The fields of a movable that `checkCollision` never writes are equal in `mv` and
`mv'`; only `speedY` and `jumpAllowed` may differ. -/
def CollisionKeeps (mv mv' : MovableData) : Prop :=
  mv'.speed = mv.speed ∧ mv'.dx = mv.dx ∧ mv'.dy = mv.dy ∧
  mv'.gravityScale = mv.gravityScale ∧ mv'.lastJump = mv.lastJump ∧
  mv'.goingRight = mv.goingRight

/-! ## The overlaps that a call resolves

The functions below run the code of this file and record, next to it, the overlap
vectors `overlapV` of the overlaps that are detected and resolved, in order. They are
used to state what happens in a frame with or without a given kind of overlap. -/

/-- The overlap vector that the iteration of the loop of `checkCollision` at `entry`
detects (line 224), if it detects one. -/
def stepOverlap {R : Type} (sat : SatLib R) (movableId : Nat) (st : CollisionState R)
    (entry : Nat × BoundingBoxData) : Option (ℚ × ℚ) :=
  if entry.1 = movableId then none
  else
    match probe sat st entry with
    | some (_, true, r) => some (sat.overlapV r)
    | _ => none

/-- The overlap vectors detected along the loop of `checkCollision` over `entries` from the
state `st`; `none` when the loop throws. -/
def collisionOverlaps {R : Type} (sat : SatLib R) (movableId : Nat)
    (movableBoxData : BoundingBoxData) :
    Table BoundingBoxData → CollisionState R → Option (List (ℚ × ℚ))
  | [], _ => some []
  | entry :: entries, st =>
    match collisionStep sat movableId movableBoxData st entry with
    | none => none
    | some st' =>
      (collisionOverlaps sat movableId movableBoxData entries st').map fun rest =>
        (stepOverlap sat movableId st entry).toList ++ rest

/-- The overlap vectors that the call `checkCollision(movableId)` detects and resolves. -/
def checkOverlaps {R : Type} (sat : SatLib R) (p : PhysicsProcessor) (movableId : Nat) :
    Option (List (ℚ × ℚ)) :=
  if !p.manager.Player.has movableId then some [] else do
    let movableBoxData ← p.manager.BoundingBox.lookup movableId
    let movablePosData ← p.manager.Position.lookup movableId
    collisionOverlaps sat movableId movableBoxData p.manager.BoundingBox
      ⟨p, toPolygon movableBoxData movablePosData, sat.newResponse⟩

/-- The state in which the first `checkCollision` of the move loop is called for `id`
(line 94 done). -/
def movedX (p : PhysicsProcessor) (id : Nat) : Option PhysicsProcessor := do
  let moveData ← p.manager.Movable.lookup id
  let posData ← p.manager.Position.lookup id
  pure { p with manager := { p.manager with
    Position := p.manager.Position.set id { posData with x := posData.x + moveData.dx } } }

/-- The state in which the second `checkCollision` of the move loop is called for `id`
(line 96 done), from the state `p2` that the first call returned. -/
def movedY (p2 : PhysicsProcessor) (id : Nat) : Option PhysicsProcessor := do
  let moveData2 ← p2.manager.Movable.lookup id
  let posData2 ← p2.manager.Position.lookup id
  pure { p2 with manager := { p2.manager with
    Position := p2.manager.Position.set id { posData2 with y := posData2.y + moveData2.dy } } }

/-- The overlap vectors resolved by the two calls of `checkCollision` in the body of the
move loop for `id` (lines 93-97). -/
def moveOverlaps {R : Type} (sat : SatLib R) (p : PhysicsProcessor) (id : Nat) :
    Option (List (ℚ × ℚ)) :=
  if !p.manager.Player.has id then some [] else do
    let p1 ← movedX p id
    let l1 ← checkOverlaps sat p1 id
    let p2 ← checkCollision sat p1 id
    let p3 ← movedY p2 id
    let l2 ← checkOverlaps sat p3 id
    pure (l1 ++ l2)

/-- The overlap vectors resolved for the entity `id` along the move loop over `keys`. -/
def moveLoopOverlaps {R : Type} (sat : SatLib R) (id : Nat) :
    List Nat → PhysicsProcessor → Option (List (ℚ × ℚ))
  | [], _ => some []
  | k :: keys, p =>
    match moveEntity sat p k with
    | none => none
    | some p' =>
      (if k = id then moveOverlaps sat p k else some []).bind fun l =>
        (moveLoopOverlaps sat id keys p').map fun rest => l ++ rest

/-- The overlap vectors resolved for the entity `id` during the call `update(dt)`. -/
def frameOverlaps {R : Type} (sat : SatLib R) (inputs : List InputData)
    (p : PhysicsProcessor) (dt : ℚ) (id : Nat) : Option (List (ℚ × ℚ)) := do
  let m1 ← afterInputs inputs p dt
  let m2 := applyGravity dt m1
  moveLoopOverlaps sat id m2.Movable.keys { p with manager := m2 }

/-- From `mv` to `mv'`, `jumpAllowed` was not turned on without an overlap of `log` whose
vertical component is positive. -/
def NotRaised (log : List (ℚ × ℚ)) (mv mv' : MovableData) : Prop :=
  mv'.jumpAllowed = true → mv.jumpAllowed = true ∨ ∃ v ∈ log, v.2 > 0

/-- A processor on `sampleManager false 5` with the player in the air, at height 10, after
the map was loaded. -/
def sampleAirborne : PhysicsProcessor :=
  ⟨{ sampleManager false 5 with Position := [(1, ⟨10, 10⟩), (2, ⟨0, 0⟩), (5, ⟨0, 32⟩)] },
    [], true⟩

/-- The indices `i, i + mapWidth, ...` of `n` tiles of one column, from `i` downwards. -/
def columnTiles (i mapWidth n : Nat) : List Nat :=
  (List.range n).map fun a => i + a * mapWidth

/-- The `BoundingBox` that lines 166-176 give the entity of the group `g`. -/
def groupBox (map : TileMap) (g : TileGroup) : BoundingBoxData :=
  if g.horizontalBox then
    ⟨0, 0, map.tileWidth * g.combinedBox.length, map.tileHeight⟩
  else
    ⟨0, 0, map.tileWidth, map.tileHeight * g.combinedBox.length⟩

/-- The `Position` that lines 178-180 give the entity of the group `g`. -/
def groupPosition (map : TileMap) (g : TileGroup) : PositionData :=
  ⟨((g.i % map.sizeX : Nat) : ℚ) * map.tileWidth, ((g.i / map.sizeX : Nat) : ℚ) * map.tileHeight⟩

/-- The shape of an emitted group `g`, `earlier` being the groups emitted before it. A
vertical group has at least two tiles, those of its column from the seed downwards, and
its seed has no horizontal run: the seed is the last tile of its row, or the tile on its
right is zero or belongs to a group of `earlier`. A horizontal group is the run of its
tiles from the seed to the right. -/
def ShapedGroup (platformTiles : List Nat) (mapWidth : Nat) (earlier : List TileGroup)
    (g : TileGroup) : Prop :=
  (g.horizontalBox = false →
    2 ≤ g.combinedBox.length ∧
    g.combinedBox = columnTiles g.i mapWidth g.combinedBox.length ∧
    (g.i % mapWidth = mapWidth - 1 ∨ tileIsZero platformTiles (g.i + 1) = true ∨
      ∃ g' ∈ earlier, (g.i + 1) ∈ g'.combinedBox)) ∧
  (g.horizontalBox = true →
    1 ≤ g.combinedBox.length ∧ g.combinedBox = List.range' g.i g.combinedBox.length)

/-- A 3 x 2 map whose collision layer has a column (tiles 0 and 3) and a row run (tiles 4
and 5). -/
def sampleColumnMap : TileMap :=
  ⟨3, 2, [⟨"collision", [1, 0, 0, 1, 1, 1]⟩], 32, 16⟩

/-- A processor that holds `sampleColumnMap` and has not loaded it. -/
def sampleColumnUnloaded : PhysicsProcessor :=
  ⟨{ sampleManager true 1 with Map := [(3, ⟨some sampleColumnMap⟩)] }, [], false⟩

/-- The tile `t` lies inside the box of the group `g`, in tile units: the box starts at
column `i mod mapWidth` of row `floor(i / mapWidth)` and is `run length` tiles wide and one
tile high when horizontal, one tile wide and `run length` tiles high when vertical. -/
def GroupCovers (mapWidth : Nat) (g : TileGroup) (t : Nat) : Prop :=
  if g.horizontalBox then
    t / mapWidth = g.i / mapWidth ∧ g.i % mapWidth ≤ t % mapWidth ∧
      t % mapWidth < g.i % mapWidth + g.combinedBox.length
  else
    t % mapWidth = g.i % mapWidth ∧ g.i / mapWidth ≤ t / mapWidth ∧
      t / mapWidth < g.i / mapWidth + g.combinedBox.length

/-- The box of the group `g` lies inside the map rectangle of `mapWidth x mapHeight`
tiles. -/
def InsideMap (mapWidth mapHeight : Nat) (g : TileGroup) : Prop :=
  if g.horizontalBox then
    g.i % mapWidth + g.combinedBox.length ≤ mapWidth ∧ g.i / mapWidth + 1 ≤ mapHeight
  else
    g.i % mapWidth + 1 ≤ mapWidth ∧ g.i / mapWidth + g.combinedBox.length ≤ mapHeight

/-- What the scan guarantees of a group `g`, `earlier` being the groups emitted before it:
its tiles are tiles of the grid, non-zero and in no earlier group, and they are the run of
its row, or of its column, from the seed, inside the map. -/
def GroupSound (platformTiles : List Nat) (mapWidth mapHeight : Nat)
    (earlier : List TileGroup) (g : TileGroup) : Prop :=
  (∀ t ∈ g.combinedBox, t < mapWidth * mapHeight ∧ tileIsZero platformTiles t = false ∧
    ∀ g' ∈ earlier, t ∉ g'.combinedBox) ∧
  (g.horizontalBox = true →
    g.combinedBox = List.range' g.i g.combinedBox.length ∧ 1 ≤ g.combinedBox.length ∧
      g.i % mapWidth + g.combinedBox.length ≤ mapWidth) ∧
  (g.horizontalBox = false →
    g.combinedBox = columnTiles g.i mapWidth g.combinedBox.length ∧
      1 ≤ g.combinedBox.length ∧ g.i / mapWidth + g.combinedBox.length ≤ mapHeight) ∧
  g.i < mapWidth * mapHeight

/-- The square of the tile `t` lies inside the box of the entity created for the group `g`:
the box is the `BoundingBox` of the entity, offset by its `Position`, and the square of a
tile spans one `tileWidth` and one `tileHeight` from its column and row. -/
def TileInBox (map : TileMap) (g : TileGroup) (t : Nat) : Prop :=
  (groupPosition map g).x + (groupBox map g).x ≤ ((t % map.sizeX : Nat) : ℚ) * map.tileWidth ∧
  (((t % map.sizeX : Nat) : ℚ) + 1) * map.tileWidth ≤
    (groupPosition map g).x + (groupBox map g).x + (groupBox map g).width ∧
  (groupPosition map g).y + (groupBox map g).y ≤ ((t / map.sizeX : Nat) : ℚ) * map.tileHeight ∧
  (((t / map.sizeX : Nat) : ℚ) + 1) * map.tileHeight ≤
    (groupPosition map g).y + (groupBox map g).y + (groupBox map g).height

/-- The processor `sampleProc 10` with both movables in horizontal motion before the
frame. -/
def sampleMoving : PhysicsProcessor :=
  ⟨{ (sampleProc 10).manager with
    Movable := [(1, ⟨200, 7, 0, 0, 1, true, 1, true⟩), (2, ⟨0, -3, 0, 0, 0, false, 0, true⟩)] },
    [], true⟩

/-! ## Lemmas on component tables -/

theorem Table.lookup_set {α : Type} (t : Table α) (id k : Nat) (v : α) :
    (t.set id v).lookup k = if k = id then (t.lookup k).map (fun _ => v) else t.lookup k := by
  induction t with
  | nil => simp [Table.set]
  | cons e t ih =>
    obtain ⟨a, b⟩ := e
    simp only [Table.set, List.map_cons] at ih ⊢
    by_cases ha : a = id
    · subst ha
      by_cases hk : k = a
      · subst hk
        simp [List.lookup_cons]
      · have hk2 : (k == a) = false := by simpa using hk
        simp [List.lookup_cons, hk2, ih, hk]
    · by_cases hk : k = a
      · subst hk
        simp [List.lookup_cons, ha]
      · have hk2 : (k == a) = false := by simpa using hk
        simp [List.lookup_cons, hk2, ih, ha]

theorem Table.has_set {α : Type} (t : Table α) (id k : Nat) (v : α) :
    (t.set id v).has k = t.has k := by
  unfold Table.has
  rw [Table.lookup_set]
  split <;> simp

theorem Table.keys_set {α : Type} (t : Table α) (id : Nat) (v : α) :
    (t.set id v).keys = t.keys := by
  unfold Table.keys Table.set
  rw [List.map_map]
  apply List.map_congr_left
  intro e _
  by_cases h : e.1 = id <;> simp [h]

theorem Table.lookup_set_self {α : Type} (t : Table α) (id : Nat) (v w : α)
    (h : t.lookup id = some w) : (t.set id v).lookup id = some v := by
  rw [Table.lookup_set]
  simp [h]

theorem Table.lookup_set_ne {α : Type} (t : Table α) (id k : Nat) (v : α) (h : k ≠ id) :
    (t.set id v).lookup k = t.lookup k := by
  rw [Table.lookup_set]
  simp [h]

theorem Table.lookup_mapVal {α : Type} (t : Table α) (f : Nat → α → α) (k : Nat) :
    List.lookup k (t.map fun e => (e.1, f e.1 e.2)) = (t.lookup k).map (f k) := by
  induction t with
  | nil => simp
  | cons e t ih =>
    obtain ⟨a, b⟩ := e
    by_cases hk : k = a
    · subst hk
      simp [List.lookup_cons]
    · have hk2 : (k == a) = false := by simpa using hk
      simp [List.lookup_cons, hk2, ih]

theorem Table.lookup_mem {α : Type} (t : Table α) (k : Nat) (v : α)
    (h : t.lookup k = some v) : (k, v) ∈ t := by
  induction t with
  | nil => simp at h
  | cons e t ih =>
    obtain ⟨a, b⟩ := e
    by_cases hk : k = a
    · subst hk
      simp [List.lookup_cons] at h
      simp [h]
    · have hk2 : (k == a) = false := by simpa using hk
      simp only [List.lookup_cons, hk2] at h
      exact List.mem_cons_of_mem _ (ih h)

theorem Table.has_of_mem {α : Type} (t : Table α) (k : Nat) (v : α)
    (h : (k, v) ∈ t) : t.has k = true := by
  induction t with
  | nil => simp at h
  | cons e t ih =>
    obtain ⟨a, b⟩ := e
    by_cases hk : k = a
    · subst hk
      simp [Table.has, List.lookup_cons]
    · have hk2 : (k == a) = false := by simpa using hk
      have h2 : (k, v) ∈ t := by
        rcases List.mem_cons.1 h with h1 | h1
        · exact absurd (congrArg Prod.fst h1) hk
        · exact h1
      simpa [Table.has, List.lookup_cons, hk2] using ih h2

/-- A step that keeps an invariant keeps it along a fold in `Option`. -/
theorem foldlM_invariant {σ α : Type} (f : σ → α → Option σ) (I : σ → Prop)
    (hf : ∀ s a s', I s → f s a = some s' → I s') :
    ∀ (l : List α) (s s' : σ), I s → l.foldlM f s = some s' → I s' := by
  intro l
  induction l with
  | nil =>
    intro s s' hs h
    simp [List.foldlM] at h
    exact h ▸ hs
  | cons a l ih =>
    intro s s' hs h
    simp only [List.foldlM_cons] at h
    cases hfa : f s a with
    | none => simp [hfa] at h
    | some s1 =>
      simp only [hfa, Option.some_bind, Option.bind_eq_bind] at h
      exact ih s1 s' (hf s a s1 hs hfa) h

/-! ## Effect of `activateFx` -/

theorem Table.has_eq_true {α : Type} (t : Table α) (k : Nat) :
    t.has k = true ↔ ∃ v, t.lookup k = some v := by
  unfold Table.has
  cases t.lookup k <;> simp

theorem fxEntity_has (movables : Table MovableData) (fxMov : Nat)
    (h : fxEntity movables = some fxMov) : movables.has fxMov = true := by
  unfold fxEntity Table.keys at h
  have hm : fxMov ∈ movables.map Prod.fst := List.mem_of_getLast?_eq_some h
  obtain ⟨e, he, rfl⟩ := List.mem_map.1 hm
  exact Table.has_of_mem movables e.1 e.2 he

theorem activateFx_spec (m : Manager) (player : Nat) (m' : Manager)
    (h : activateFx m player = some m') :
    ∃ fxMov playerPos playerMovable,
      fxEntity m.Movable = some fxMov ∧ m.Position.lookup player = some playerPos ∧
      m.Movable.lookup player = some playerMovable ∧
      m'.Player = m.Player ∧ m'.BoundingBox = m.BoundingBox ∧ m'.Map = m.Map ∧
      m'.nextId = m.nextId ∧
      m'.Movable.keys = m.Movable.keys ∧ m'.Position.keys = m.Position.keys ∧
      m'.Displayable.keys = m.Displayable.keys ∧ m'.Animated.keys = m.Animated.keys ∧
      (∀ k, m'.Movable.lookup k = (m.Movable.lookup k).map fun mv =>
        if k = fxMov then { mv with goingRight := playerMovable.goingRight } else mv) ∧
      (∀ k, m'.Position.lookup k = (m.Position.lookup k).map fun q =>
        if k = fxMov then ⟨playerPos.x, playerPos.y⟩ else q) := by
  simp only [activateFx, Option.bind_eq_bind, Option.bind_eq_some, Option.pure_def,
    Option.some.injEq] at h
  obtain ⟨fxMov, hfx, playerPos, hpp, playerMovable, hpm, fxPos, hfp, fxPos1, hfp1, fxDisp,
    hfd, fxAnim, hfa, fxMove, hfm, rfl⟩ := h
  refine ⟨fxMov, playerPos, playerMovable, hfx, hpp, hpm, rfl, rfl, rfl, rfl, ?_, ?_, ?_, ?_,
    ?_, ?_⟩
  · simp [Table.keys_set]
  · simp [Table.keys_set]
  · simp [Table.keys_set]
  · simp [Table.keys_set]
  · intro k
    simp only at hfm ⊢
    rw [Table.lookup_set]
    by_cases hk : k = fxMov
    · subst hk
      simp [hfm]
    · simp [hk]
  · intro k
    simp only at hfp1 ⊢
    rw [Table.lookup_set, Table.lookup_set]
    by_cases hk : k = fxMov
    · subst hk
      rw [Table.lookup_set_self _ _ _ _ hfp] at hfp1
      cases hfp1
      simp [hfp]
    · simp [hk]

theorem activateFx_isSome (m : Manager) (player : Nat) :
    (activateFx m player).isSome = fxReady m player := by
  unfold fxReady
  cases hfx : fxEntity m.Movable with
  | none => simp [activateFx, hfx]
  | some fxMov =>
    have hmf := (Table.has_eq_true _ _).1 (fxEntity_has _ _ hfx)
    obtain ⟨fxMove, hfm⟩ := hmf
    simp only [activateFx, hfx, Option.bind_eq_bind, Option.some_bind, Option.pure_def]
    cases hpp : m.Position.lookup player with
    | none => simp [Table.has, hpp]
    | some playerPos =>
      cases hpm : m.Movable.lookup player with
      | none => simp [Table.has, hpm]
      | some playerMovable =>
        cases hfp : m.Position.lookup fxMov with
        | none => simp [Table.has, hfp]
        | some fxPos =>
          cases hfd : m.Displayable.lookup fxMov with
          | none => simp [Table.has, hfd, Table.lookup_set, hfp]
          | some fxDisp =>
            cases hfa : m.Animated.lookup fxMov with
            | none => simp [Table.has, hfa, hfd, Table.lookup_set, hfp]
            | some fxAnim =>
              simp [Table.has, hfa, hfd, Table.lookup_set, hfp, hpp, hpm, hfm]

/-! ## Input handling -/

theorem SameEntities.refl (m : Manager) : SameEntities m m :=
  ⟨rfl, rfl, rfl, rfl, rfl, rfl, rfl, rfl⟩

theorem SameEntities.trans {a b c : Manager} (h1 : SameEntities a b) (h2 : SameEntities b c) :
    SameEntities a c := by
  obtain ⟨h11, h12, h13, h14, h15, h16, h17, h18⟩ := h1
  obtain ⟨h21, h22, h23, h24, h25, h26, h27, h28⟩ := h2
  exact ⟨h21.trans h11, h22.trans h12, h23.trans h13, h24.trans h14, h25.trans h15,
    h26.trans h16, h27.trans h17, h28.trans h18⟩

theorem Table.has_of_keys_eq {α β : Type} (t : Table α) (t' : Table β)
    (h : Table.keys t' = Table.keys t) (k : Nat) : Table.has t' k = Table.has t k := by
  unfold Table.keys at h
  induction t generalizing t' with
  | nil =>
    cases t' with
    | nil => rfl
    | cons e t' => simp at h
  | cons e t ih =>
    cases t' with
    | nil => simp at h
    | cons e' t' =>
      obtain ⟨a, b⟩ := e
      obtain ⟨a', b'⟩ := e'
      simp only [List.map_cons, List.cons.injEq] at h
      obtain ⟨h1, h2⟩ := h
      subst h1
      by_cases hk : k = a'
      · subst hk
        simp [Table.has, List.lookup_cons]
      · have hk2 : (k == a') = false := by simpa using hk
        have := ih t' h2
        simpa [Table.has, List.lookup_cons, hk2] using this

theorem activateFx_same (m : Manager) (player : Nat) (m' : Manager)
    (h : activateFx m player = some m') : SameEntities m m' := by
  obtain ⟨_, _, _, _, _, _, h1, h2, h3, h4, h5, h6, h7, h8, _, _⟩ := activateFx_spec m player m' h
  exact ⟨h1, h2, h3, h4, h5, h6, h7, h8⟩

theorem handleInput_same (dt : ℚ) (m : Manager) (input : InputData) (m' : Manager)
    (h : handleInput dt m input = some m') : SameEntities m m' := by
  unfold handleInput at h
  split at h
  · split at h
    · cases h
      exact SameEntities.refl m
    · rename_i playerId _
      simp only [Option.bind_eq_bind, Option.bind_eq_some] at h
      obtain ⟨moveData, hmv, h⟩ := h
      split at h
      · unfold handleJump at h
        split at h
        · have := activateFx_same _ _ _ h
          obtain ⟨h1, h2, h3, h4, h5, h6, h7, h8⟩ := this
          exact ⟨h1, h2, h3, h4, by simpa [Table.keys_set] using h5, h6, h7, h8⟩
        · cases h
          exact SameEntities.refl m
      · cases h
        exact ⟨rfl, rfl, rfl, rfl, by simp [Table.keys_set], rfl, rfl, rfl⟩
      · cases h
        exact ⟨rfl, rfl, rfl, rfl, by simp [Table.keys_set], rfl, rfl, rfl⟩
      · cases h
        exact SameEntities.refl m
  · cases h
    exact SameEntities.refl m

theorem handleInput_jump (dt : ℚ) (m : Manager) (input : InputData) (pid : Nat)
    (mv : MovableData) (hact : input.active = true) (hj : input.action = Action.JUMP)
    (ht : inputTarget m input = some pid) (hmv : m.Movable.lookup pid = some mv) :
    handleInput dt m input = handleJump m pid mv := by
  simp [handleInput, hact, ht, hmv, hj]

theorem fxReady_set (m : Manager) (pid k : Nat) (v : MovableData) :
    fxReady { m with Movable := m.Movable.set pid v } k = fxReady m k := by
  simp [fxReady, fxEntity, Table.keys_set, Table.has_set]

/-- The movable of `pid` after a granted jump: the three fields are set, and `activateFx`
can only have changed `goingRight`. -/
theorem handleJump_granted (m : Manager) (pid : Nat) (mv : MovableData) (m' : Manager)
    (hmv : m.Movable.lookup pid = some mv) (hja : mv.jumpAllowed = true)
    (hl : mv.lastJump > 3 / 10) (h : handleJump m pid mv = some m') :
    ∃ g, m'.Movable.lookup pid =
      some { mv with speedY := -600, jumpAllowed := false, lastJump := 0, goingRight := g } := by
  unfold handleJump at h
  simp only [hja, hl, decide_True, Bool.and_self, if_true] at h
  obtain ⟨fxMov, _, playerMovable, _, _, _, _, _, _, _, _, _, _, _, hM, _⟩ :=
    activateFx_spec _ _ _ h
  have := hM pid
  simp only at this
  rw [Table.lookup_set_self _ _ _ _ hmv] at this
  by_cases hk : pid = fxMov
  · exact ⟨playerMovable.goingRight, by simpa [hk] using this⟩
  · exact ⟨mv.goingRight, by simpa [hk] using this⟩

theorem handleJump_refused (m : Manager) (pid : Nat) (mv : MovableData)
    (h : ¬ (mv.jumpAllowed = true ∧ mv.lastJump > 3 / 10)) : handleJump m pid mv = some m := by
  unfold handleJump
  have : (mv.jumpAllowed && decide (mv.lastJump > 3 / 10)) = false := by
    cases hja : mv.jumpAllowed
    · simp
    · simp only [Bool.true_and, decide_eq_false_iff_not]
      exact fun hl => h ⟨hja, hl⟩
  simp [this]

theorem inputTarget_congr (m m' : Manager) (input input2 : InputData)
    (hP : m'.Player = m.Player) (hK : m'.Movable.keys = m.Movable.keys)
    (hp : input2.player = input.player) : inputTarget m' input2 = inputTarget m input := by
  unfold inputTarget
  rw [hP, hp]
  cases m.Player.find? (fun e => e.2.number == input.player) with
  | none => rfl
  | some e => simp only [Table.has_of_keys_eq _ _ hK]

/-! ## Jump rule -/

theorem handleJump_isSome (m : Manager) (pid : Nat) (mv : MovableData)
    (hja : mv.jumpAllowed = true) (hl : mv.lastJump > 3 / 10) :
    (handleJump m pid mv).isSome = fxReady m pid := by
  unfold handleJump
  simp only [hja, hl, decide_True, Bool.and_self, if_true]
  rw [activateFx_isSome, fxReady_set]

/-- C4, as stated, fails at the threshold: the player of `sampleManager true (3/10)` has
`jumpAllowed = true` and `lastJump = 0.3 >= 0.3`, and handling an active JUMP input for it
leaves the store unchanged, with `speedY = 0` and `jumpAllowed = true`. -/
theorem jump_at_threshold_refused :
    (sampleInput Action.JUMP).active = true ∧
    inputTarget (sampleManager true (3 / 10)) (sampleInput Action.JUMP) = some 1 ∧
    (sampleManager true (3 / 10)).Movable.lookup 1 =
      some ⟨200, 0, 0, 0, 1, true, 3 / 10, true⟩ ∧
    ((3 : ℚ) / 10 ≥ 3 / 10) ∧
    handleInput 16 (sampleManager true (3 / 10)) (sampleInput Action.JUMP) =
      some (sampleManager true (3 / 10)) ∧
    ((0 : ℚ) ≠ -600) := by
  refine ⟨rfl, rfl, rfl, le_refl _, ?_, by norm_num⟩
  rw [handleInput_jump 16 (sampleManager true (3 / 10)) (sampleInput Action.JUMP) 1
    ⟨200, 0, 0, 0, 1, true, 3 / 10, true⟩ rfl rfl rfl rfl]
  exact handleJump_refused _ _ _ (by norm_num)

/-- C4 (amended): for a player entity `pid` with a Movable whose `jumpAllowed` is true and
whose `lastJump` is strictly greater than 0.3, handling an active JUMP input for that
player returns exactly when the lookups of `activateFx` succeed, and the state it returns
has `speedY = -600` and `jumpAllowed = false` for that player. -/
theorem jump_granted (dt : ℚ) (m : Manager) (input : InputData) (pid : Nat)
    (mv : MovableData) (hact : input.active = true) (hj : input.action = Action.JUMP)
    (ht : inputTarget m input = some pid) (hmv : m.Movable.lookup pid = some mv)
    (hja : mv.jumpAllowed = true) (hl : mv.lastJump > 3 / 10) :
    (handleInput dt m input).isSome = fxReady m pid ∧
    ∀ m', handleInput dt m input = some m' →
      ∃ mv', m'.Movable.lookup pid = some mv' ∧ mv'.speedY = -600 ∧
        mv'.jumpAllowed = false := by
  rw [handleInput_jump dt m input pid mv hact hj ht hmv]
  constructor
  · exact handleJump_isSome m pid mv hja hl
  · intro m' h
    obtain ⟨g, hg⟩ := handleJump_granted m pid mv m' hmv hja hl h
    exact ⟨_, hg, rfl, rfl⟩

theorem jump_granted_witness :
    fxReady (sampleManager true (1 / 2)) 1 = true ∧
    ((handleInput 16 (sampleManager true (1 / 2)) (sampleInput Action.JUMP)).isSome =
        fxReady (sampleManager true (1 / 2)) 1 ∧
      ∀ m', handleInput 16 (sampleManager true (1 / 2)) (sampleInput Action.JUMP) = some m' →
        ∃ mv', m'.Movable.lookup 1 = some mv' ∧ mv'.speedY = -600 ∧
          mv'.jumpAllowed = false) :=
  ⟨by decide,
    jump_granted 16 (sampleManager true (1 / 2)) (sampleInput Action.JUMP) 1
      ⟨200, 0, 0, 0, 1, true, 1 / 2, true⟩ rfl rfl rfl rfl rfl (by norm_num)⟩

/-- C5: handling an active JUMP input for the player `pid` changes its `speedY`,
`jumpAllowed` or `lastJump` only if `jumpAllowed` was true and `lastJump` had passed the
0.3 s threshold; when the jump is granted, `lastJump` becomes 0 and `jumpAllowed` false, and
a second active JUMP input of the same player, handled next, is not granted: it returns
the store unchanged. -/
theorem jump_only_if (dt : ℚ) (m : Manager) (input : InputData) (pid : Nat)
    (mv : MovableData) (m' : Manager) (hact : input.active = true)
    (hj : input.action = Action.JUMP) (ht : inputTarget m input = some pid)
    (hmv : m.Movable.lookup pid = some mv) (h : handleInput dt m input = some m') :
    ∃ mv', m'.Movable.lookup pid = some mv' ∧
      ((mv'.speedY ≠ mv.speedY ∨ mv'.jumpAllowed ≠ mv.jumpAllowed ∨
          mv'.lastJump ≠ mv.lastJump) →
        mv.jumpAllowed = true ∧ 3 / 10 ≤ mv.lastJump ∧ 3 / 10 < mv.lastJump) ∧
      ((mv.jumpAllowed = true ∧ 3 / 10 < mv.lastJump) →
        mv'.lastJump = 0 ∧ mv'.jumpAllowed = false ∧
        ∀ input2 : InputData, input2.active = true → input2.action = Action.JUMP →
          input2.player = input.player → handleInput dt m' input2 = some m') := by
  have hsame := handleInput_same dt m input m' h
  rw [handleInput_jump dt m input pid mv hact hj ht hmv] at h
  by_cases hg : mv.jumpAllowed = true ∧ mv.lastJump > 3 / 10
  · obtain ⟨g, hg2⟩ := handleJump_granted m pid mv m' hmv hg.1 hg.2 h
    refine ⟨_, hg2, fun _ => ⟨hg.1, le_of_lt hg.2, hg.2⟩, fun _ => ⟨rfl, rfl, ?_⟩⟩
    intro input2 hact2 hj2 hp2
    have ht2 : inputTarget m' input2 = some pid := by
      rw [inputTarget_congr m m' input input2 hsame.1 hsame.2.2.2.2.1 hp2]
      exact ht
    rw [handleInput_jump dt m' input2 pid _ hact2 hj2 ht2 hg2]
    exact handleJump_refused _ _ _ (by simp)
  · rw [handleJump_refused m pid mv hg] at h
    cases h
    refine ⟨mv, hmv, ?_, fun hh => absurd hh hg⟩
    intro hch
    rcases hch with hch | hch | hch <;> exact absurd rfl hch

theorem jump_only_if_witness :
    ∃ m', handleInput 16 (sampleManager true (1 / 2)) (sampleInput Action.JUMP) = some m' ∧
    ∃ mv', m'.Movable.lookup 1 = some mv' ∧
      ((mv'.speedY ≠ (0 : ℚ) ∨ mv'.jumpAllowed ≠ true ∨ mv'.lastJump ≠ (1 : ℚ) / 2) →
        true = true ∧ (3 : ℚ) / 10 ≤ 1 / 2 ∧ (3 : ℚ) / 10 < 1 / 2) ∧
      ((true = true ∧ (3 : ℚ) / 10 < 1 / 2) →
        mv'.lastJump = 0 ∧ mv'.jumpAllowed = false ∧
        ∀ input2 : InputData, input2.active = true → input2.action = Action.JUMP →
          input2.player = (sampleInput Action.JUMP).player →
          handleInput 16 m' input2 = some m') := by
  have hs : (handleInput 16 (sampleManager true (1 / 2)) (sampleInput Action.JUMP)).isSome
      = true := by
    rw [handleInput_jump 16 (sampleManager true (1 / 2)) (sampleInput Action.JUMP) 1
      ⟨200, 0, 0, 0, 1, true, 1 / 2, true⟩ rfl rfl rfl rfl,
      handleJump_isSome _ _ _ rfl (by norm_num)]
    decide
  obtain ⟨m', hm'⟩ := Option.isSome_iff_exists.1 hs
  exact ⟨m', hm', jump_only_if 16 (sampleManager true (1 / 2)) (sampleInput Action.JUMP) 1
    ⟨200, 0, 0, 0, 1, true, 1 / 2, true⟩ m' rfl rfl rfl rfl hm'⟩

/-! ## Gravity and horizontal input -/

/-- C6: for an entity with Movable and Player components and every `dt`, the gravity loop
of `update` sets `speedY' = speedY + DECELERATION * gravityScale * dt/1000` with
`DECELERATION = 1000`, then `dy = min (speedY' * dt/1000) GRAVITY` with `GRAVITY = 10`, and
adds `dt/1000` to `lastJump`, in exact rational arithmetic. -/
theorem gravity_step_values (dt : ℚ) (m : Manager) (id : Nat) (mv : MovableData)
    (hp : m.Player.has id = true) (hmv : m.Movable.lookup id = some mv) :
    DECELERATION = 1000 ∧ GRAVITY = 10 ∧
    ∃ mv', (applyGravity dt m).Movable.lookup id = some mv' ∧
      mv'.speedY = mv.speedY + DECELERATION * mv.gravityScale * dt / 1000 ∧
      mv'.dy = min (mv'.speedY * dt / 1000) GRAVITY ∧
      mv'.lastJump = mv.lastJump + dt / 1000 := by
  refine ⟨rfl, rfl, gravityStep dt mv, ?_, ?_, ?_, rfl⟩
  · have h := Table.lookup_mapVal m.Movable
      (fun k v => if m.Player.has k then gravityStep dt v else v) id
    have he : (fun e : Nat × MovableData =>
        if m.Player.has e.1 then (e.1, gravityStep dt e.2) else e) =
        fun e => (e.1, if m.Player.has e.1 then gravityStep dt e.2 else e.2) := by
      funext e
      split <;> rfl
    simp only [applyGravity, he]
    rw [h, hmv]
    simp [hp]
  · simp only [gravityStep]
    ring
  · simp only [gravityStep]
    rw [mul_div_assoc]
    by_cases hgt : (mv.speedY + DECELERATION * mv.gravityScale * (dt / 1000)) * (dt / 1000)
        > GRAVITY
    · rw [if_pos hgt, min_eq_right (le_of_lt hgt)]
    · rw [if_neg hgt, min_eq_left (not_lt.1 hgt)]

theorem gravity_step_values_witness :
    DECELERATION = 1000 ∧ GRAVITY = 10 ∧
    ∃ mv', (applyGravity 16 (sampleManager true (1 / 2))).Movable.lookup 1 = some mv' ∧
      mv'.speedY = (0 : ℚ) + DECELERATION * (1 : ℚ) * 16 / 1000 ∧
      mv'.dy = min (mv'.speedY * 16 / 1000) GRAVITY ∧
      mv'.lastJump = (1 : ℚ) / 2 + 16 / 1000 :=
  gravity_step_values 16 (sampleManager true (1 / 2)) 1 ⟨200, 0, 0, 0, 1, true, 1 / 2, true⟩
    rfl rfl

/-- C8: for a player `pid` with a Movable `mv`, every `dt` and every value of the vertical
fields, handling an active LEFT input returns the store in which the Movable of `pid` is
`mv` with `dx = -(dt/1000) * speed` and `goingRight = false`, and an active RIGHT input the
one with `dx = (dt/1000) * speed` and `goingRight = true`; `speedY`, `dy`, `jumpAllowed` and
`lastJump` are those of `mv`, and the new `dx` is a function of `dt` and `speed` alone. -/
theorem horizontal_input (dt : ℚ) (m : Manager) (input : InputData) (pid : Nat)
    (mv : MovableData) (hact : input.active = true) (ht : inputTarget m input = some pid)
    (hmv : m.Movable.lookup pid = some mv) :
    (input.action = Action.LEFT →
      ∃ m', handleInput dt m input = some m' ∧
        m'.Movable.lookup pid =
          some { mv with dx := -(dt / 1000) * mv.speed, goingRight := false }) ∧
    (input.action = Action.RIGHT →
      ∃ m', handleInput dt m input = some m' ∧
        m'.Movable.lookup pid =
          some { mv with dx := (dt / 1000) * mv.speed, goingRight := true }) := by
  constructor
  · intro ha
    refine ⟨{ m with Movable := m.Movable.set pid (handleLeft dt mv) }, ?_, ?_⟩
    · simp [handleInput, hact, ht, hmv, ha]
    · simp only
      rw [Table.lookup_set_self _ _ _ _ hmv]
      rfl
  · intro ha
    refine ⟨{ m with Movable := m.Movable.set pid (handleRight dt mv) }, ?_, ?_⟩
    · simp [handleInput, hact, ht, hmv, ha]
    · simp only
      rw [Table.lookup_set_self _ _ _ _ hmv]
      rfl

theorem horizontal_input_witness :
    ((sampleInput Action.LEFT).action = Action.LEFT →
      ∃ m', handleInput 16 (sampleManager true (1 / 2)) (sampleInput Action.LEFT) = some m' ∧
        m'.Movable.lookup 1 =
          some { (⟨200, 0, 0, 0, 1, true, 1 / 2, true⟩ : MovableData) with
            dx := -(16 / 1000) * (200 : ℚ), goingRight := false }) ∧
    ((sampleInput Action.LEFT).action = Action.RIGHT →
      ∃ m', handleInput 16 (sampleManager true (1 / 2)) (sampleInput Action.LEFT) = some m' ∧
        m'.Movable.lookup 1 =
          some { (⟨200, 0, 0, 0, 1, true, 1 / 2, true⟩ : MovableData) with
            dx := (16 / 1000) * (200 : ℚ), goingRight := true }) :=
  horizontal_input 16 (sampleManager true (1 / 2)) (sampleInput Action.LEFT) 1
    ⟨200, 0, 0, 0, 1, true, 1 / 2, true⟩ rfl rfl rfl

/-! ## Collision resolution -/

/-- What `resolve` returns: the position of the movable is moved back by the overlap
vector and one more pixel on `y`; when the overlap has a vertical part, `speedY` becomes
100 and, when that part is positive, `jumpAllowed` becomes true. -/
theorem resolve_spec {R : Type} (sat : SatLib R) (movableId : Nat)
    (movableBoxData : BoundingBoxData) (st : CollisionState R) (boxes : Table Polygon)
    (r : R) (st' : CollisionState R)
    (h : resolve sat movableId movableBoxData st boxes r = some st') :
    ∃ posData, st.proc.manager.Position.lookup movableId = some posData ∧
      st'.proc.manager.Position = st.proc.manager.Position.set movableId
        ⟨posData.x - (sat.overlapV r).1, posData.y - ((sat.overlapV r).2 + 1)⟩ ∧
      st'.proc._boxes = boxes ∧ st'.proc.mapIsLoaded = st.proc.mapIsLoaded ∧
      st'.proc.manager.Player = st.proc.manager.Player ∧
      st'.proc.manager.BoundingBox = st.proc.manager.BoundingBox ∧
      st'.proc.manager.Map = st.proc.manager.Map ∧
      st'.proc.manager.nextId = st.proc.manager.nextId ∧
      st'.proc.manager.Displayable = st.proc.manager.Displayable ∧
      st'.proc.manager.Animated = st.proc.manager.Animated ∧
      (((sat.overlapV r).2 = 0 ∧ st'.proc.manager.Movable = st.proc.manager.Movable) ∨
        ((sat.overlapV r).2 ≠ 0 ∧ ∃ moveData,
          st.proc.manager.Movable.lookup movableId = some moveData ∧
          st'.proc.manager.Movable = st.proc.manager.Movable.set movableId
            { moveData with
              speedY := 100
              jumpAllowed := if (sat.overlapV r).2 > 0 then true
                else moveData.jumpAllowed })) := by
  unfold resolve at h
  cases hpos : st.proc.manager.Position.lookup movableId with
  | none => simp [hpos] at h
  | some posData =>
    refine ⟨posData, rfl, ?_⟩
    by_cases hy : (sat.overlapV r).2 = 0
    · simp [hpos, hy] at h
      subst h
      simp [hy]
    · cases hmv : st.proc.manager.Movable.lookup movableId with
      | none => simp [hpos, hy, hmv] at h
      | some moveData =>
        simp [hpos, hy, hmv] at h
        subst h
        refine ⟨rfl, rfl, rfl, rfl, rfl, rfl, rfl, rfl, rfl, Or.inr ⟨hy, moveData, rfl, ?_⟩⟩
        simp only
        congr 1
        split <;> rfl

theorem resolve_isSome {R : Type} (sat : SatLib R) (movableId : Nat)
    (movableBoxData : BoundingBoxData) (st : CollisionState R) (boxes : Table Polygon)
    (r : R) (hp : st.proc.manager.Position.has movableId = true)
    (hm : st.proc.manager.Movable.has movableId = true) :
    ∃ st', resolve sat movableId movableBoxData st boxes r = some st' := by
  obtain ⟨posData, hpos⟩ := (Table.has_eq_true _ _).1 hp
  obtain ⟨moveData, hmv⟩ := (Table.has_eq_true _ _).1 hm
  by_cases hy : (sat.overlapV r).2 = 0
  · simp [resolve, hpos, hy]
  · simp [resolve, hpos, hy, hmv]

/-- Every outcome of one iteration of the loop of `checkCollision`. -/
theorem collisionStep_cases {R : Type} (sat : SatLib R) (movableId : Nat)
    (movableBoxData : BoundingBoxData) (st : CollisionState R)
    (entry : Nat × BoundingBoxData) (st' : CollisionState R)
    (h : collisionStep sat movableId movableBoxData st entry = some st') :
    (entry.1 = movableId ∧ st' = st) ∨
    (entry.1 ≠ movableId ∧ ∃ boxes r, probe sat st entry = some (boxes, true, r) ∧
      resolve sat movableId movableBoxData st boxes r = some st') ∨
    (entry.1 ≠ movableId ∧ ∃ boxes r, probe sat st entry = some (boxes, false, r) ∧
      st' = { st with proc := { st.proc with _boxes := boxes }, collisionResponse := r }) := by
  unfold collisionStep at h
  split at h
  · rename_i he
    cases h
    exact Or.inl ⟨he, rfl⟩
  · rename_i he
    simp only [Option.bind_eq_bind, Option.bind_eq_some] at h
    obtain ⟨⟨boxes, c, r⟩, hpr, h⟩ := h
    cases c
    · simp only [Bool.false_eq_true, if_false, Option.pure_def, Option.some.injEq] at h
      exact Or.inr (Or.inr ⟨he, boxes, r, hpr, h.symm⟩)
    · simp only [if_true] at h
      exact Or.inr (Or.inl ⟨he, boxes, r, hpr, h⟩)

theorem collisionStep_same {R : Type} (sat : SatLib R) (movableId : Nat)
    (movableBoxData : BoundingBoxData) (st : CollisionState R)
    (entry : Nat × BoundingBoxData) (st' : CollisionState R)
    (h : collisionStep sat movableId movableBoxData st entry = some st') :
    SameEntities st.proc.manager st'.proc.manager ∧
      st'.proc.mapIsLoaded = st.proc.mapIsLoaded := by
  rcases collisionStep_cases sat movableId movableBoxData st entry st' h with
    ⟨_, rfl⟩ | ⟨_, boxes, r, _, hr⟩ | ⟨_, boxes, r, _, rfl⟩
  · exact ⟨SameEntities.refl _, rfl⟩
  · obtain ⟨posData, _, hP, _, hL, h1, h2, h3, h4, h5, h6, hM⟩ :=
      resolve_spec sat movableId movableBoxData st boxes r st' hr
    refine ⟨⟨h1, h2, h3, h4, ?_, ?_, by rw [h5], by rw [h6]⟩, hL⟩
    · rcases hM with ⟨_, hM⟩ | ⟨_, moveData, _, hM⟩
      · rw [hM]
      · rw [hM, Table.keys_set]
    · rw [hP, Table.keys_set]
  · exact ⟨SameEntities.refl _, rfl⟩

theorem probe_isSome {R : Type} (sat : SatLib R) (st : CollisionState R)
    (entry : Nat × BoundingBoxData) (hp : st.proc.manager.Position.has entry.1 = true) :
    ∃ r, probe sat st entry = some r := by
  obtain ⟨posData, hpos⟩ := (Table.has_eq_true _ _).1 hp
  simp [probe, hpos]

theorem collisionStep_isSome {R : Type} (sat : SatLib R) (movableId : Nat)
    (movableBoxData : BoundingBoxData) (st : CollisionState R)
    (entry : Nat × BoundingBoxData)
    (he : entry.1 ≠ movableId → st.proc.manager.Position.has entry.1 = true)
    (hp : st.proc.manager.Position.has movableId = true)
    (hm : st.proc.manager.Movable.has movableId = true) :
    ∃ st', collisionStep sat movableId movableBoxData st entry = some st' := by
  unfold collisionStep
  by_cases hid : entry.1 = movableId
  · simp [hid]
  · obtain ⟨⟨boxes, c, r⟩, hpr⟩ := probe_isSome sat st entry (he hid)
    cases c
    · simp [hid, hpr]
    · obtain ⟨st', hst'⟩ := resolve_isSome sat movableId movableBoxData st boxes r hp hm
      exact ⟨st', by simp [hid, hpr, hst']⟩

/-- The loop of `checkCollision` runs to its end when the entities it reads have a
position and the movable has a `Movable`. -/
theorem collisionFold_isSome {R : Type} (sat : SatLib R) (movableId : Nat)
    (movableBoxData : BoundingBoxData) :
    ∀ (entries : Table BoundingBoxData) (st : CollisionState R),
      (∀ x ∈ entries, x.1 ≠ movableId → st.proc.manager.Position.has x.1 = true) →
      st.proc.manager.Position.has movableId = true →
      st.proc.manager.Movable.has movableId = true →
      ∃ st', entries.foldlM (collisionStep sat movableId movableBoxData) st = some st' := by
  intro entries
  induction entries with
  | nil => intro st _ _ _; exact ⟨st, rfl⟩
  | cons e entries ih =>
    intro st he hp hm
    obtain ⟨st1, h1⟩ := collisionStep_isSome sat movableId movableBoxData st e
      (he e (List.mem_cons_self _ _)) hp hm
    obtain ⟨hs, _⟩ := collisionStep_same sat movableId movableBoxData st e st1 h1
    have hkP := Table.has_of_keys_eq _ _ hs.2.2.2.2.2.1
    have hkM := Table.has_of_keys_eq _ _ hs.2.2.2.2.1
    obtain ⟨st', h'⟩ := ih st1
      (fun x hx hne => by rw [hkP]; exact he x (List.mem_cons_of_mem _ hx) hne)
      (by rw [hkP]; exact hp) (by rw [hkM]; exact hm)
    exact ⟨st', by simp [List.foldlM_cons, h1, h']⟩

theorem collisionFold_same {R : Type} (sat : SatLib R) (movableId : Nat)
    (movableBoxData : BoundingBoxData) (entries : Table BoundingBoxData)
    (st st' : CollisionState R)
    (h : entries.foldlM (collisionStep sat movableId movableBoxData) st = some st') :
    SameEntities st.proc.manager st'.proc.manager ∧
      st'.proc.mapIsLoaded = st.proc.mapIsLoaded := by
  have := foldlM_invariant (collisionStep sat movableId movableBoxData)
    (fun s => SameEntities st.proc.manager s.proc.manager ∧
      s.proc.mapIsLoaded = st.proc.mapIsLoaded)
    (fun s a s' hs hstep => by
      obtain ⟨h1, h2⟩ := collisionStep_same sat movableId movableBoxData s a s' hstep
      exact ⟨hs.1.trans h1, h2.trans hs.2⟩)
    entries st st' ⟨SameEntities.refl _, rfl⟩ h
  exact this

theorem resolve_grounded {R : Type} (sat : SatLib R) (movableId : Nat)
    (movableBoxData : BoundingBoxData) (st : CollisionState R) (boxes : Table Polygon)
    (r : R) (st' : CollisionState R)
    (h : resolve sat movableId movableBoxData st boxes r = some st')
    (hg : (sat.overlapV r).2 > 0 ∨ Grounded st.proc.manager movableId) :
    Grounded st'.proc.manager movableId := by
  obtain ⟨_, _, _, _, _, _, _, _, _, _, _, hM⟩ :=
    resolve_spec sat movableId movableBoxData st boxes r st' h
  rcases hM with ⟨hy, hM⟩ | ⟨_, moveData, hmv, hM⟩
  · rcases hg with hg | hg
    · rw [hy] at hg
      exact absurd hg (lt_irrefl _)
    · unfold Grounded
      rw [hM]
      exact hg
  · unfold Grounded
    rw [hM, Table.lookup_set_self _ _ _ _ hmv]
    refine ⟨_, rfl, ?_, rfl⟩
    rcases hg with hg | ⟨mv, hmv2, hja, _⟩
    · simp [hg]
    · rw [hmv] at hmv2
      cases hmv2
      simp [hja]

theorem collisionStep_grounded {R : Type} (sat : SatLib R) (movableId : Nat)
    (movableBoxData : BoundingBoxData) (st : CollisionState R)
    (entry : Nat × BoundingBoxData) (st' : CollisionState R)
    (hg : Grounded st.proc.manager movableId)
    (h : collisionStep sat movableId movableBoxData st entry = some st') :
    Grounded st'.proc.manager movableId := by
  rcases collisionStep_cases sat movableId movableBoxData st entry st' h with
    ⟨_, rfl⟩ | ⟨_, boxes, r, _, hr⟩ | ⟨_, boxes, r, _, rfl⟩
  · exact hg
  · exact resolve_grounded sat movableId movableBoxData st boxes r st' hr (Or.inr hg)
  · exact hg

theorem collisionStep_detected {R : Type} (sat : SatLib R) (movableId : Nat)
    (movableBoxData : BoundingBoxData) (st : CollisionState R)
    (entry : Nat × BoundingBoxData) (boxes : Table Polygon) (r : R)
    (hne : entry.1 ≠ movableId) (hdet : probe sat st entry = some (boxes, true, r)) :
    collisionStep sat movableId movableBoxData st entry =
      resolve sat movableId movableBoxData st boxes r := by
  simp [collisionStep, hne, hdet]

theorem checkCollision_eq {R : Type} (sat : SatLib R) (p : PhysicsProcessor)
    (movableId : Nat) (box : BoundingBoxData) (pos : PositionData)
    (hPl : p.manager.Player.has movableId = true)
    (hbox : p.manager.BoundingBox.lookup movableId = some box)
    (hpos : p.manager.Position.lookup movableId = some pos) :
    checkCollision sat p movableId =
      (collisionLoop sat p movableId box pos p.manager.BoundingBox).map fun st => st.proc := by
  simp only [checkCollision, hPl, hbox, hpos, Bool.not_true, Bool.false_eq_true, if_false,
    Option.bind_eq_bind, Option.some_bind, Option.pure_def]
  cases collisionLoop sat p movableId box pos p.manager.BoundingBox <;> rfl

/-- C9: if the loop of `checkCollision` for the player `movableId` detects, at the entry `e`
of the bounding boxes, an overlap whose response has `overlapV.y > 0`, then
`checkCollision` returns (the entities after `e` having a position) and, when it returns,
the Movable of `movableId` has `jumpAllowed = true` and `speedY = 100`, whatever overlaps
are resolved after `e`. -/
theorem grounding_overlap {R : Type} (sat : SatLib R) (p : PhysicsProcessor)
    (movableId : Nat) (box : BoundingBoxData) (pos : PositionData)
    (pre : Table BoundingBoxData) (e : Nat × BoundingBoxData) (post : Table BoundingBoxData)
    (st : CollisionState R) (boxes : Table Polygon) (r : R)
    (hPl : p.manager.Player.has movableId = true)
    (hbox : p.manager.BoundingBox.lookup movableId = some box)
    (hpos : p.manager.Position.lookup movableId = some pos)
    (hmov : p.manager.Movable.has movableId = true)
    (hB : p.manager.BoundingBox = pre ++ e :: post)
    (hpost : ∀ x ∈ post, p.manager.Position.has x.1 = true)
    (hpre : collisionLoop sat p movableId box pos pre = some st)
    (hne : e.1 ≠ movableId)
    (hdet : probe sat st e = some (boxes, true, r))
    (hy : (sat.overlapV r).2 > 0) :
    ∃ p', checkCollision sat p movableId = some p' ∧
      ∃ mv, p'.manager.Movable.lookup movableId = some mv ∧ mv.jumpAllowed = true ∧
        mv.speedY = 100 := by
  obtain ⟨hs, _⟩ := collisionFold_same sat movableId box pre _ st hpre
  have hkP := Table.has_of_keys_eq _ _ hs.2.2.2.2.2.1
  have hkM := Table.has_of_keys_eq _ _ hs.2.2.2.2.1
  simp only at hkP hkM
  have hposId : st.proc.manager.Position.has movableId = true := by
    rw [hkP]; exact (Table.has_eq_true _ _).2 ⟨pos, hpos⟩
  obtain ⟨st1, h1⟩ := resolve_isSome sat movableId box st boxes r hposId
    (by rw [hkM]; exact hmov)
  have hg1 := resolve_grounded sat movableId box st boxes r st1 h1 (Or.inl hy)
  have hstep : collisionStep sat movableId box st e = some st1 := by
    rw [collisionStep_detected sat movableId box st e boxes r hne hdet]; exact h1
  obtain ⟨hs1, _⟩ := collisionStep_same sat movableId box st e st1 hstep
  have hkP1 := Table.has_of_keys_eq _ _ hs1.2.2.2.2.2.1
  have hkM1 := Table.has_of_keys_eq _ _ hs1.2.2.2.2.1
  obtain ⟨st', h'⟩ := collisionFold_isSome sat movableId box post st1
    (fun x hx _ => by rw [hkP1, hkP]; exact hpost x hx)
    (by rw [hkP1]; exact hposId) (by rw [hkM1, hkM]; exact hmov)
  have hg' := foldlM_invariant (collisionStep sat movableId box)
    (fun s => Grounded s.proc.manager movableId)
    (fun s a s' hs hstep => collisionStep_grounded sat movableId box s a s' hs hstep)
    post st1 st' hg1 h'
  refine ⟨st'.proc, ?_, hg'⟩
  rw [checkCollision_eq sat p movableId box pos hPl hbox hpos]
  unfold collisionLoop at hpre ⊢
  rw [hB, List.foldlM_append, hpre]
  simp [List.foldlM_cons, hstep, h']

/-- C10: when the loop of `checkCollision` reaches the entry `e` with the player at
`(x, y)` and detects an overlap with overlap vector `(ox, oy)`, the iteration returns and
the player's Position is `(x - ox, y - (oy + 1))`; in particular `y - 1` when `oy = 0`. -/
theorem overlap_moves_position {R : Type} (sat : SatLib R) (p : PhysicsProcessor)
    (movableId : Nat) (box : BoundingBoxData) (pos : PositionData)
    (pre : Table BoundingBoxData) (e : Nat × BoundingBoxData)
    (st : CollisionState R) (boxes : Table Polygon) (r : R) (x y : ℚ)
    (hpre : collisionLoop sat p movableId box pos pre = some st)
    (hne : e.1 ≠ movableId)
    (hdet : probe sat st e = some (boxes, true, r))
    (hxy : st.proc.manager.Position.lookup movableId = some ⟨x, y⟩)
    (hm : st.proc.manager.Movable.has movableId = true) :
    ∃ st', collisionLoop sat p movableId box pos (pre ++ [e]) = some st' ∧
      st'.proc.manager.Position.lookup movableId =
        some ⟨x - (sat.overlapV r).1, y - ((sat.overlapV r).2 + 1)⟩ ∧
      ((sat.overlapV r).2 = 0 →
        st'.proc.manager.Position.lookup movableId = some ⟨x - (sat.overlapV r).1, y - 1⟩) := by
  obtain ⟨st1, h1⟩ := resolve_isSome sat movableId box st boxes r
    ((Table.has_eq_true _ _).2 ⟨_, hxy⟩) hm
  have hstep : collisionStep sat movableId box st e = some st1 := by
    rw [collisionStep_detected sat movableId box st e boxes r hne hdet]; exact h1
  obtain ⟨posData, hpd, hP, _⟩ := resolve_spec sat movableId box st boxes r st1 h1
  rw [hxy] at hpd
  cases hpd
  have hl : st1.proc.manager.Position.lookup movableId =
      some ⟨x - (sat.overlapV r).1, y - ((sat.overlapV r).2 + 1)⟩ := by
    rw [hP, Table.lookup_set_self _ _ _ _ hxy]
  refine ⟨st1, ?_, hl, ?_⟩
  · unfold collisionLoop at hpre ⊢
    rw [List.foldlM_append, hpre]
    simp [List.foldlM_cons, hstep]
  · intro h0
    rw [hl, h0, zero_add]

/-- The loop state of `checkCollision` for player 1 of `sampleProc 25` when it reaches the
static box 5: the player's own box was skipped. -/
theorem sample_probe :
    collisionLoop sampleSat (sampleProc 25) 1 ⟨0, 0, 10, 10⟩ ⟨10, 25⟩ [(1, ⟨0, 0, 10, 10⟩)] =
      some ⟨sampleProc 25, toPolygon ⟨0, 0, 10, 10⟩ ⟨10, 25⟩, (0, 0)⟩ ∧
    probe sampleSat ⟨sampleProc 25, toPolygon ⟨0, 0, 10, 10⟩ ⟨10, 25⟩, (0, 0)⟩
        (5, ⟨0, 0, 96, 32⟩) =
      some ([(5, toPolygon ⟨0, 0, 96, 32⟩ ⟨0, 32⟩)], true, ((0 : ℚ), (3 : ℚ))) := by
  constructor
  · rfl
  · simp [probe, sampleProc, sampleManager, sampleSat, toPolygon, Table.put, Table.has,
      List.lookup]
    norm_num

theorem grounding_overlap_witness :
    ∃ p', checkCollision sampleSat (sampleProc 25) 1 = some p' ∧
      ∃ mv, p'.manager.Movable.lookup 1 = some mv ∧ mv.jumpAllowed = true ∧
        mv.speedY = 100 :=
  grounding_overlap sampleSat (sampleProc 25) 1 ⟨0, 0, 10, 10⟩ ⟨10, 25⟩
    [(1, ⟨0, 0, 10, 10⟩)] (5, ⟨0, 0, 96, 32⟩) []
    ⟨sampleProc 25, toPolygon ⟨0, 0, 10, 10⟩ ⟨10, 25⟩, (0, 0)⟩
    [(5, toPolygon ⟨0, 0, 96, 32⟩ ⟨0, 32⟩)] (0, 3)
    rfl rfl rfl rfl rfl (by simp) sample_probe.1 (by decide) sample_probe.2
    (by simp [sampleSat])

theorem overlap_moves_position_witness :
    ∃ st', collisionLoop sampleSat (sampleProc 25) 1 ⟨0, 0, 10, 10⟩ ⟨10, 25⟩
        ([(1, ⟨0, 0, 10, 10⟩)] ++ [(5, ⟨0, 0, 96, 32⟩)]) = some st' ∧
      st'.proc.manager.Position.lookup 1 =
        some ⟨10 - (sampleSat.overlapV ((0 : ℚ), (3 : ℚ))).1,
          25 - ((sampleSat.overlapV ((0 : ℚ), (3 : ℚ))).2 + 1)⟩ ∧
      ((sampleSat.overlapV ((0 : ℚ), (3 : ℚ))).2 = 0 →
        st'.proc.manager.Position.lookup 1 =
          some ⟨10 - (sampleSat.overlapV ((0 : ℚ), (3 : ℚ))).1, 25 - 1⟩) :=
  overlap_moves_position sampleSat (sampleProc 25) 1 ⟨0, 0, 10, 10⟩ ⟨10, 25⟩
    [(1, ⟨0, 0, 10, 10⟩)] (5, ⟨0, 0, 96, 32⟩)
    ⟨sampleProc 25, toPolygon ⟨0, 0, 10, 10⟩ ⟨10, 25⟩, (0, 0)⟩
    [(5, toPolygon ⟨0, 0, 96, 32⟩ ⟨0, 32⟩)] (0, 3) 10 25
    sample_probe.1 (by decide) sample_probe.2 rfl rfl

/-! ## The frame as a whole -/

theorem Table.mem_set {α : Type} (t : Table α) (id : Nat) (v : α) (e : Nat × α)
    (h : e ∈ t.set id v) : e ∈ t ∨ e = (id, v) := by
  unfold Table.set at h
  obtain ⟨a, ha, rfl⟩ := List.mem_map.1 h
  by_cases hid : a.1 = id
  · right
    simp [hid]
  · left
    simpa [hid] using ha

theorem checkCollision_same {R : Type} (sat : SatLib R) (p : PhysicsProcessor) (id : Nat)
    (p' : PhysicsProcessor) (h : checkCollision sat p id = some p') :
    SameEntities p.manager p'.manager ∧ p'.mapIsLoaded = p.mapIsLoaded := by
  unfold checkCollision at h
  split at h
  · cases h
    exact ⟨SameEntities.refl _, rfl⟩
  · simp only [Option.bind_eq_bind, Option.bind_eq_some, Option.pure_def,
      Option.some.injEq] at h
    obtain ⟨box, _, pos, _, st, hst, rfl⟩ := h
    exact collisionFold_same sat id box _ _ st hst

theorem collisionStep_dy {R : Type} (sat : SatLib R) (movableId : Nat)
    (movableBoxData : BoundingBoxData) (st : CollisionState R)
    (entry : Nat × BoundingBoxData) (st' : CollisionState R)
    (hd : DyBounded st.proc.manager)
    (h : collisionStep sat movableId movableBoxData st entry = some st') :
    DyBounded st'.proc.manager := by
  rcases collisionStep_cases sat movableId movableBoxData st entry st' h with
    ⟨_, rfl⟩ | ⟨_, boxes, r, _, hr⟩ | ⟨_, boxes, r, _, rfl⟩
  · exact hd
  · obtain ⟨_, _, _, _, _, hPl, _, _, _, _, _, hM⟩ :=
      resolve_spec sat movableId movableBoxData st boxes r st' hr
    intro e he hp
    rw [hPl] at hp
    rcases hM with ⟨_, hM⟩ | ⟨_, moveData, hmv, hM⟩
    · rw [hM] at he
      exact hd e he hp
    · rw [hM] at he
      rcases Table.mem_set _ _ _ _ he with he | rfl
      · exact hd e he hp
      · exact hd (movableId, moveData) (Table.lookup_mem _ _ _ hmv) hp
  · exact hd

theorem checkCollision_dy {R : Type} (sat : SatLib R) (p : PhysicsProcessor) (id : Nat)
    (p' : PhysicsProcessor) (hd : DyBounded p.manager)
    (h : checkCollision sat p id = some p') : DyBounded p'.manager := by
  unfold checkCollision at h
  split at h
  · cases h
    exact hd
  · simp only [Option.bind_eq_bind, Option.bind_eq_some, Option.pure_def,
      Option.some.injEq] at h
    obtain ⟨box, _, pos, _, st, hst, rfl⟩ := h
    exact foldlM_invariant (collisionStep sat id box) (fun s => DyBounded s.proc.manager)
      (fun s a s' hs hstep => collisionStep_dy sat id box s a s' hs hstep) _ _ st hd hst

/-- The two halves of the body of the move loop. -/
theorem moveEntity_cases {R : Type} (sat : SatLib R) (p : PhysicsProcessor) (id : Nat)
    (p' : PhysicsProcessor) (h : moveEntity sat p id = some p') :
    p' = p ∨
    ∃ posData posData2 p2,
      checkCollision sat { p with manager := { p.manager with
        Position := p.manager.Position.set id posData } } id = some p2 ∧
      checkCollision sat { p2 with manager := { p2.manager with
        Position := p2.manager.Position.set id posData2 } } id = some p' := by
  unfold moveEntity at h
  split at h
  · cases h
    exact Or.inl rfl
  · simp only [Option.bind_eq_bind, Option.bind_eq_some] at h
    obtain ⟨moveData, _, posData, _, p2, h2, moveData2, _, posData2, _, h3⟩ := h
    exact Or.inr ⟨_, _, p2, h2, h3⟩

theorem moveEntity_same {R : Type} (sat : SatLib R) (p : PhysicsProcessor) (id : Nat)
    (p' : PhysicsProcessor) (h : moveEntity sat p id = some p') :
    SameEntities p.manager p'.manager ∧ p'.mapIsLoaded = p.mapIsLoaded := by
  rcases moveEntity_cases sat p id p' h with rfl | ⟨posData, posData2, p2, h2, h3⟩
  · exact ⟨SameEntities.refl _, rfl⟩
  · obtain ⟨s2, l2⟩ := checkCollision_same sat _ id p2 h2
    obtain ⟨s3, l3⟩ := checkCollision_same sat _ id p' h3
    have a : SameEntities p.manager { p.manager with
        Position := p.manager.Position.set id posData } :=
      ⟨rfl, rfl, rfl, rfl, rfl, by simp [Table.keys_set], rfl, rfl⟩
    have b : SameEntities p2.manager { p2.manager with
        Position := p2.manager.Position.set id posData2 } :=
      ⟨rfl, rfl, rfl, rfl, rfl, by simp [Table.keys_set], rfl, rfl⟩
    exact ⟨(a.trans s2).trans (b.trans s3), l3.trans l2⟩

theorem moveEntity_dy {R : Type} (sat : SatLib R) (p : PhysicsProcessor) (id : Nat)
    (p' : PhysicsProcessor) (hd : DyBounded p.manager)
    (h : moveEntity sat p id = some p') : DyBounded p'.manager := by
  rcases moveEntity_cases sat p id p' h with rfl | ⟨posData, posData2, p2, h2, h3⟩
  · exact hd
  · have d1 : DyBounded ({ p with manager := { p.manager with
        Position := p.manager.Position.set id posData } } : PhysicsProcessor).manager :=
      fun e he hp => hd e he hp
    have d2 : DyBounded p2.manager := checkCollision_dy sat _ id p2 d1 h2
    have d3 : DyBounded ({ p2 with manager := { p2.manager with
        Position := p2.manager.Position.set id posData2 } } : PhysicsProcessor).manager :=
      fun e he hp => d2 e he hp
    exact checkCollision_dy sat _ id p' d3 h3

theorem afterInputs_same (inputs : List InputData) (p : PhysicsProcessor) (dt : ℚ)
    (m1 : Manager) (h : afterInputs inputs p dt = some m1) : SameEntities p.manager m1 := by
  have h0 : SameEntities p.manager { p.manager with Movable := resetDx p.manager.Movable } :=
    ⟨rfl, rfl, rfl, rfl, by simp [resetDx, Table.keys, List.map_map, Function.comp_def],
      rfl, rfl, rfl⟩
  exact foldlM_invariant (handleInput dt) (fun s => SameEntities p.manager s)
    (fun s a s' hs hstep => hs.trans (handleInput_same dt s a s' hstep)) inputs _ m1 h0 h

theorem applyGravity_same (dt : ℚ) (m : Manager) : SameEntities m (applyGravity dt m) := by
  refine ⟨rfl, rfl, rfl, rfl, ?_, rfl, rfl, rfl⟩
  simp only [applyGravity, Table.keys, List.map_map]
  apply List.map_congr_left
  intro e _
  simp only [Function.comp_apply]
  split <;> rfl

theorem gravityStep_dy (dt : ℚ) (mv : MovableData) : (gravityStep dt mv).dy ≤ GRAVITY := by
  simp only [gravityStep]
  split
  · exact le_refl _
  · rename_i hgt
    exact not_lt.1 hgt

theorem applyGravity_dy (dt : ℚ) (m : Manager) : DyBounded (applyGravity dt m) := by
  intro e he hp
  simp only [applyGravity] at he hp
  obtain ⟨a, _, rfl⟩ := List.mem_map.1 he
  by_cases hpa : m.Player.has a.1 = true
  · simp only [hpa, if_true]
    exact gravityStep_dy dt a.2
  · simp only [hpa] at hp
    simp only [Bool.false_eq_true, if_false] at hp
    exact absurd hp hpa

theorem updateMovables_same {R : Type} (sat : SatLib R) (inputs : List InputData)
    (p : PhysicsProcessor) (dt : ℚ) (p' : PhysicsProcessor)
    (h : updateMovables sat inputs p dt = some p') :
    SameEntities p.manager p'.manager ∧ p'.mapIsLoaded = p.mapIsLoaded ∧
      DyBounded p'.manager := by
  simp only [updateMovables, Option.bind_eq_bind, Option.bind_eq_some] at h
  obtain ⟨m1, hm1, h⟩ := h
  have hs1 := (afterInputs_same inputs p dt m1 hm1).trans (applyGravity_same dt m1)
  have := foldlM_invariant (moveEntity sat)
    (fun s => SameEntities p.manager s.manager ∧ s.mapIsLoaded = p.mapIsLoaded ∧
      DyBounded s.manager)
    (fun s a s' hs hstep => by
      obtain ⟨h1, h2⟩ := moveEntity_same sat s a s' hstep
      exact ⟨hs.1.trans h1, h2.trans hs.2.1, moveEntity_dy sat s a s' hs.2.2 hstep⟩)
    (applyGravity dt m1).Movable.keys { p with manager := applyGravity dt m1 } p'
    ⟨hs1, rfl, applyGravity_dy dt m1⟩ h
  exact this

/-! ## `update` returns under the calling convention -/

theorem Table.has_iff_mem_keys {α : Type} (t : Table α) (k : Nat) :
    t.has k = true ↔ k ∈ t.keys := by
  constructor
  · intro h
    obtain ⟨v, hv⟩ := (Table.has_eq_true _ _).1 h
    exact List.mem_map.2 ⟨(k, v), Table.lookup_mem _ _ _ hv, rfl⟩
  · intro h
    obtain ⟨e, he, rfl⟩ := List.mem_map.1 h
    exact Table.has_of_mem t e.1 e.2 he

theorem Ready_congr (m m' : Manager) (hs : SameEntities m m') : Ready m' = Ready m := by
  obtain ⟨h1, h2, _, _, h5, h6, h7, h8⟩ := hs
  have e6 : Table.has m'.Position = Table.has m.Position :=
    funext (Table.has_of_keys_eq _ _ h6)
  have e7 : Table.has m'.Displayable = Table.has m.Displayable :=
    funext (Table.has_of_keys_eq _ _ h7)
  have e8 : Table.has m'.Animated = Table.has m.Animated :=
    funext (Table.has_of_keys_eq _ _ h8)
  simp only [Ready, fxEntity, h1, h2, h5, e6, e7, e8]

theorem Ready_parts (m : Manager) (h : Ready m = true) :
    (∀ k, m.Movable.has k = true → m.Player.has k = true →
      m.Position.has k = true ∧ m.BoundingBox.has k = true) ∧
    (∀ x ∈ m.BoundingBox, m.Position.has x.1 = true) ∧
    (∀ fxMov, fxEntity m.Movable = some fxMov →
      m.Position.has fxMov = true ∧ m.Displayable.has fxMov = true ∧
        m.Animated.has fxMov = true) := by
  simp only [Ready, Bool.and_eq_true, List.all_eq_true, Bool.or_eq_true,
    Bool.not_eq_true'] at h
  obtain ⟨⟨ha, hb⟩, hc⟩ := h
  refine ⟨?_, ?_, ?_⟩
  · intro k hk hp
    rcases ha k ((Table.has_iff_mem_keys _ _).1 hk) with h0 | h0
    · rw [hp] at h0
      cases h0
    · exact h0
  · intro x hx
    exact hb x.1 (List.mem_map.2 ⟨x, hx, rfl⟩)
  · intro fxMov hfx
    rw [hfx] at hc
    simp only [Bool.and_eq_true] at hc
    exact ⟨hc.1.1, hc.1.2, hc.2⟩

theorem inputTarget_has (m : Manager) (input : InputData) (pid : Nat)
    (h : inputTarget m input = some pid) :
    m.Player.has pid = true ∧ m.Movable.has pid = true := by
  unfold inputTarget at h
  split at h
  · rename_i e he
    split at h
    · rename_i hm
      cases h
      exact ⟨Table.has_of_mem _ _ _ (List.mem_of_find?_eq_some he), hm⟩
    · cases h
  · cases h

theorem fxEntity_isSome (movables : Table MovableData) (k : Nat)
    (h : movables.has k = true) : ∃ fxMov, fxEntity movables = some fxMov := by
  have hk := (Table.has_iff_mem_keys _ _).1 h
  unfold fxEntity
  cases hl : movables.keys.getLast? with
  | none =>
    rw [List.getLast?_eq_none_iff] at hl
    rw [hl] at hk
    cases hk
  | some fxMov => exact ⟨fxMov, rfl⟩

theorem handleInput_isSome (dt : ℚ) (m : Manager) (input : InputData)
    (hr : Ready m = true) : ∃ m', handleInput dt m input = some m' := by
  unfold handleInput
  split
  · cases ht : inputTarget m input with
    | none => exact ⟨m, rfl⟩
    | some pid =>
      obtain ⟨hpl, hmo⟩ := inputTarget_has m input pid ht
      obtain ⟨mv, hmv⟩ := (Table.has_eq_true _ _).1 hmo
      simp only [hmv, Option.bind_eq_bind, Option.some_bind]
      cases input.action with
      | JUMP =>
        simp only
        by_cases hg : mv.jumpAllowed = true ∧ mv.lastJump > 3 / 10
        · apply Option.isSome_iff_exists.1
          rw [handleJump_isSome m pid mv hg.1 hg.2]
          obtain ⟨h1, _, h3⟩ := Ready_parts m hr
          obtain ⟨fxMov, hfx⟩ := fxEntity_isSome m.Movable pid hmo
          obtain ⟨f1, f2, f3⟩ := h3 fxMov hfx
          simp [fxReady, hfx, (h1 pid hmo hpl).1, hmo, f1, f2, f3]
        · exact ⟨m, handleJump_refused m pid mv hg⟩
      | LEFT => exact ⟨_, rfl⟩
      | RIGHT => exact ⟨_, rfl⟩
      | other => exact ⟨_, rfl⟩
  · exact ⟨m, rfl⟩

/-- A fold in `Option` returns when each step returns on the states of an invariant that
the steps keep. -/
theorem foldlM_isSome {σ α : Type} (f : σ → α → Option σ) (I : σ → Prop) (Q : α → Prop)
    (hf : ∀ s a, I s → Q a → ∃ s', f s a = some s' ∧ I s') :
    ∀ (l : List α) (s : σ), I s → (∀ a ∈ l, Q a) → ∃ s', l.foldlM f s = some s' ∧ I s' := by
  intro l
  induction l with
  | nil => intro s hs _; exact ⟨s, rfl, hs⟩
  | cons a l ih =>
    intro s hs hq
    obtain ⟨s1, h1, hi1⟩ := hf s a hs (hq a (List.mem_cons_self _ _))
    obtain ⟨s', h', hi'⟩ := ih s1 hi1 (fun b hb => hq b (List.mem_cons_of_mem _ hb))
    exact ⟨s', by simp [List.foldlM_cons, h1, h'], hi'⟩

theorem checkCollision_isSome {R : Type} (sat : SatLib R) (p : PhysicsProcessor) (id : Nat)
    (hr : Ready p.manager = true) (hm : p.manager.Movable.has id = true) :
    ∃ p', checkCollision sat p id = some p' := by
  by_cases hpl : p.manager.Player.has id = true
  · obtain ⟨h1, h2, _⟩ := Ready_parts p.manager hr
    obtain ⟨hpo, hbo⟩ := h1 id hm hpl
    obtain ⟨pos, hpos⟩ := (Table.has_eq_true _ _).1 hpo
    obtain ⟨box, hbox⟩ := (Table.has_eq_true _ _).1 hbo
    rw [checkCollision_eq sat p id box pos hpl hbox hpos]
    obtain ⟨st, hst⟩ := collisionFold_isSome sat id box p.manager.BoundingBox
      ⟨p, toPolygon box pos, sat.newResponse⟩ (fun x hx _ => h2 x hx) hpo hm
    exact ⟨st.proc, by unfold collisionLoop; rw [hst]; rfl⟩
  · exact ⟨p, by simp [checkCollision, hpl]⟩

theorem moveEntity_isSome {R : Type} (sat : SatLib R) (p : PhysicsProcessor) (id : Nat)
    (hr : Ready p.manager = true) (hm : p.manager.Movable.has id = true) :
    ∃ p', moveEntity sat p id = some p' := by
  by_cases hpl : p.manager.Player.has id = true
  · obtain ⟨h1, _, _⟩ := Ready_parts p.manager hr
    obtain ⟨hpo, _⟩ := h1 id hm hpl
    obtain ⟨pos, hpos⟩ := (Table.has_eq_true _ _).1 hpo
    obtain ⟨mv, hmv⟩ := (Table.has_eq_true _ _).1 hm
    have a : SameEntities p.manager { p.manager with
        Position := p.manager.Position.set id { pos with x := pos.x + mv.dx } } :=
      ⟨rfl, rfl, rfl, rfl, rfl, by simp [Table.keys_set], rfl, rfl⟩
    obtain ⟨p2, h2⟩ := checkCollision_isSome sat
      { p with manager := { p.manager with
        Position := p.manager.Position.set id { pos with x := pos.x + mv.dx } } } id
      (by rw [Ready_congr _ _ a]; exact hr) hm
    obtain ⟨s2, _⟩ := checkCollision_same sat _ id p2 h2
    have s02 := a.trans s2
    have hm2 : p2.manager.Movable.has id = true := by
      rw [Table.has_of_keys_eq _ _ s02.2.2.2.2.1]; exact hm
    have hpo2 : p2.manager.Position.has id = true := by
      rw [Table.has_of_keys_eq _ _ s02.2.2.2.2.2.1]; exact hpo
    obtain ⟨pos2, hpos2⟩ := (Table.has_eq_true _ _).1 hpo2
    obtain ⟨mv2, hmv2⟩ := (Table.has_eq_true _ _).1 hm2
    have b : SameEntities p2.manager { p2.manager with
        Position := p2.manager.Position.set id { pos2 with y := pos2.y + mv2.dy } } :=
      ⟨rfl, rfl, rfl, rfl, rfl, by simp [Table.keys_set], rfl, rfl⟩
    obtain ⟨p3, h3⟩ := checkCollision_isSome sat
      { p2 with manager := { p2.manager with
        Position := p2.manager.Position.set id { pos2 with y := pos2.y + mv2.dy } } } id
      (by rw [Ready_congr _ _ (s02.trans b)]; exact hr) hm2
    exact ⟨p3, by simp [moveEntity, hpl, hmv, hpos, h2, hmv2, hpos2, h3]⟩
  · exact ⟨p, by simp [moveEntity, hpl]⟩

/-- Under the calling convention `update` returns. -/
theorem update_isSome {R : Type} (sat : SatLib R) (inputs : List InputData)
    (p : PhysicsProcessor) (dt : ℚ) (hr : Ready p.manager = true) :
    ∃ p', update sat inputs p dt = some p' := by
  have h0 : SameEntities p.manager { p.manager with Movable := resetDx p.manager.Movable } :=
    ⟨rfl, rfl, rfl, rfl, by simp [resetDx, Table.keys, List.map_map, Function.comp_def],
      rfl, rfl, rfl⟩
  obtain ⟨m1, hm1, hr1⟩ := foldlM_isSome (handleInput dt) (fun s => Ready s = true)
    (fun _ => True)
    (fun s a hs _ => by
      obtain ⟨s', hs'⟩ := handleInput_isSome dt s a hs
      exact ⟨s', hs', (Ready_congr _ _ (handleInput_same dt s a s' hs')).trans hs⟩)
    inputs { p.manager with Movable := resetDx p.manager.Movable }
    ((Ready_congr _ _ h0).trans hr) (fun _ _ => trivial)
  have hg := applyGravity_same dt m1
  obtain ⟨p3, hp3, _⟩ := foldlM_isSome (moveEntity sat)
    (fun s : PhysicsProcessor => Ready s.manager = true ∧
      s.manager.Movable.keys = (applyGravity dt m1).Movable.keys)
    (fun k => k ∈ (applyGravity dt m1).Movable.keys)
    (fun s k hs hk => by
      obtain ⟨s', hs'⟩ := moveEntity_isSome sat s k hs.1
        ((Table.has_iff_mem_keys _ _).2 (by rw [hs.2]; exact hk))
      obtain ⟨hse, _⟩ := moveEntity_same sat s k s' hs'
      exact ⟨s', hs', (Ready_congr _ _ hse).trans hs.1, hse.2.2.2.2.1.trans hs.2⟩)
    (applyGravity dt m1).Movable.keys { p with manager := applyGravity dt m1 }
    ⟨(Ready_congr _ _ hg).trans hr1, rfl⟩ (fun _ h => h)
  refine ⟨if !p3.mapIsLoaded then loadMap p3 else p3, ?_⟩
  have hm1' : afterInputs inputs p dt = some m1 := hm1
  simp [update, updateMovables, hm1', hp3]

/-! ## `loadMap` leaves the movables alone -/

theorem createBox_fold_movable (map : TileMap) (groups : List TileGroup) (m : Manager) :
    (groups.foldl (createBox map) m).Movable = m.Movable ∧
      (groups.foldl (createBox map) m).Player = m.Player := by
  induction groups generalizing m with
  | nil => exact ⟨rfl, rfl⟩
  | cons g groups ih =>
    simp only [List.foldl_cons]
    obtain ⟨h1, h2⟩ := ih (createBox map m g)
    exact ⟨h1, h2⟩

theorem loadOneMap_movable (p : PhysicsProcessor) (mapData : MapData) :
    (loadOneMap p mapData).manager.Movable = p.manager.Movable ∧
      (loadOneMap p mapData).manager.Player = p.manager.Player := by
  unfold loadOneMap
  split
  · exact ⟨rfl, rfl⟩
  · exact createBox_fold_movable _ _ _

theorem loadMap_movable (p : PhysicsProcessor) :
    (loadMap p).manager.Movable = p.manager.Movable ∧
      (loadMap p).manager.Player = p.manager.Player := by
  unfold loadMap
  generalize (p.manager.Map.map Prod.snd) = maps
  induction maps generalizing p with
  | nil => exact ⟨rfl, rfl⟩
  | cons a maps ih =>
    simp only [List.foldl_cons]
    obtain ⟨h1, h2⟩ := ih (loadOneMap p a)
    obtain ⟨h3, h4⟩ := loadOneMap_movable p a
    exact ⟨h1.trans h3, h2.trans h4⟩

/-! ## Frames after the map was loaded, and the clamp on `dy` -/

/-- C3: once `mapIsLoaded` is true, a call of `update`, for any `dt` and any inputs, is the
part of `update` before the map check (`loadMap` is not run), and when it returns
`mapIsLoaded` is still true and no entity was created: `createEntity` was not called, the
`BoundingBox` table is the one before the call, and every table has the keys it had. -/
theorem update_after_load {R : Type} (sat : SatLib R) (inputs : List InputData)
    (p : PhysicsProcessor) (dt : ℚ) (hl : p.mapIsLoaded = true) :
    update sat inputs p dt = updateMovables sat inputs p dt ∧
    ∀ p', update sat inputs p dt = some p' →
      p'.mapIsLoaded = true ∧ SameEntities p.manager p'.manager ∧
      p'.manager.BoundingBox.keys = p.manager.BoundingBox.keys ∧
      p'.manager.nextId = p.manager.nextId := by
  have key : update sat inputs p dt = updateMovables sat inputs p dt := by
    unfold update
    cases h : updateMovables sat inputs p dt with
    | none => rfl
    | some p3 =>
      obtain ⟨_, h2, _⟩ := updateMovables_same sat inputs p dt p3 h
      simp [h2, hl]
  refine ⟨key, ?_⟩
  intro p' h
  rw [key] at h
  obtain ⟨h1, h2, _⟩ := updateMovables_same sat inputs p dt p' h
  exact ⟨h2.trans hl, h1, by rw [h1.2.1], h1.2.2.2.1⟩

theorem update_after_load_witness :
    (sampleProc 25).mapIsLoaded = true ∧
    (∃ p', update sampleSat [sampleInput Action.JUMP, sampleInput Action.LEFT] (sampleProc 25)
      16 = some p') ∧
    (update sampleSat [sampleInput Action.JUMP, sampleInput Action.LEFT] (sampleProc 25) 16 =
        updateMovables sampleSat [sampleInput Action.JUMP, sampleInput Action.LEFT]
          (sampleProc 25) 16 ∧
      ∀ p', update sampleSat [sampleInput Action.JUMP, sampleInput Action.LEFT]
          (sampleProc 25) 16 = some p' →
        p'.mapIsLoaded = true ∧ SameEntities (sampleProc 25).manager p'.manager ∧
        p'.manager.BoundingBox.keys = (sampleProc 25).manager.BoundingBox.keys ∧
        p'.manager.nextId = (sampleProc 25).manager.nextId) :=
  ⟨rfl, update_isSome sampleSat _ (sampleProc 25) 16 (by decide),
    update_after_load sampleSat [sampleInput Action.JUMP, sampleInput Action.LEFT]
      (sampleProc 25) 16 rfl⟩

/-- C7: after any call of `update` that returns (any `dt`, any inputs, any collisions
resolved), every entity that has both Movable and Player components has
`dy <= GRAVITY = 10`. -/
theorem dy_never_exceeds_gravity {R : Type} (sat : SatLib R) (inputs : List InputData)
    (p : PhysicsProcessor) (dt : ℚ) (p' : PhysicsProcessor)
    (h : update sat inputs p dt = some p') :
    GRAVITY = 10 ∧
    ∀ id mv, p'.manager.Player.has id = true → p'.manager.Movable.lookup id = some mv →
      mv.dy ≤ 10 := by
  refine ⟨rfl, ?_⟩
  simp only [update, Option.bind_eq_bind, Option.bind_eq_some, Option.pure_def,
    Option.some.injEq] at h
  obtain ⟨p3, h3, rfl⟩ := h
  obtain ⟨_, _, hd⟩ := updateMovables_same sat inputs p dt p3 h3
  intro id mv hp hmv
  have hd' : DyBounded (if (!p3.mapIsLoaded) = true then loadMap p3 else p3).manager := by
    split
    · obtain ⟨e1, e2⟩ := loadMap_movable p3
      intro e he hpe
      rw [e1] at he
      rw [e2] at hpe
      exact hd e he hpe
    · exact hd
  exact hd' (id, mv) (Table.lookup_mem _ _ _ hmv) hp

theorem dy_never_exceeds_gravity_witness :
    ∃ p', update sampleSat [sampleInput Action.JUMP, sampleInput Action.LEFT]
        (sampleProc 25) 16 = some p' ∧
      (GRAVITY = 10 ∧
      ∀ id mv, p'.manager.Player.has id = true → p'.manager.Movable.lookup id = some mv →
        mv.dy ≤ 10) := by
  obtain ⟨p', hp'⟩ := update_isSome sampleSat
    [sampleInput Action.JUMP, sampleInput Action.LEFT] (sampleProc 25) 16 (by decide)
  exact ⟨p', hp', dy_never_exceeds_gravity sampleSat _ (sampleProc 25) 16 p' hp'⟩

/-! ## Tile merging -/

theorem isMarked_cons (markedTiles : List Nat) (j t : Nat) :
    isMarked (j :: markedTiles) t = (t == j || isMarked markedTiles t) := by
  simp only [isMarked, List.contains_cons]

theorem isMarked_iff (markedTiles : List Nat) (t : Nat) :
    isMarked markedTiles t = true ↔ t ∈ markedTiles := by
  simp [isMarked]

/-- The row loop pushes a run of `n` consecutive indices from `j`: all are non-zero and
unmarked, and the run ends at the bound or at a zero or marked tile. -/
theorem rowLoop_spec (platformTiles : List Nat) :
    ∀ (count j : Nat) (markedTiles combinedBox : List Nat),
      ∃ n, n ≤ count ∧
        rowLoop platformTiles count j markedTiles combinedBox =
          ((List.range' j n).reverse ++ markedTiles, combinedBox ++ List.range' j n) ∧
        (∀ t, j ≤ t → t < j + n →
          tileIsZero platformTiles t = false ∧ isMarked markedTiles t = false) ∧
        (n < count →
          tileIsZero platformTiles (j + n) = true ∨ isMarked markedTiles (j + n) = true) := by
  intro count
  induction count with
  | zero =>
    intro j markedTiles combinedBox
    exact ⟨0, le_refl _, by simp [rowLoop], fun t h1 h2 => by omega, fun h => by omega⟩
  | succ count ih =>
    intro j markedTiles combinedBox
    by_cases hstop : (tileIsZero platformTiles j || isMarked markedTiles j) = true
    · refine ⟨0, Nat.zero_le _, by simp [rowLoop, hstop], fun t h1 h2 => by omega, fun _ => ?_⟩
      simpa [Bool.or_eq_true] using hstop
    · obtain ⟨n, hn, hrun, hall, hend⟩ := ih (j + 1) (j :: markedTiles) (combinedBox ++ [j])
      have hj : tileIsZero platformTiles j = false ∧ isMarked markedTiles j = false := by
        simpa [Bool.or_eq_true, not_or] using hstop
      refine ⟨n + 1, Nat.succ_le_succ hn, ?_, ?_, ?_⟩
      · simp only [rowLoop, hstop]
        rw [if_neg (by simp), hrun]
        simp [List.range'_succ]
      · intro t h1 h2
        by_cases ht : t = j
        · subst ht
          exact hj
        · obtain ⟨a, b⟩ := hall t (by omega) (by omega)
          rw [isMarked_cons] at b
          simp only [Bool.or_eq_false_iff] at b
          exact ⟨a, b.2⟩
      · intro hlt
        have := hend (by omega)
        rw [isMarked_cons] at this
        have hne : (j + 1 + n == j) = false := by
          rw [beq_eq_false_iff_ne]
          omega
        rw [hne, Bool.false_or] at this
        have e : j + 1 + n = j + (n + 1) := by omega
        rw [e] at this
        exact this

theorem columnLoop_false (platformTiles : List Nat) (mapWidth : Nat) :
    ∀ (count k : Nat) (markedTiles combinedBox : List Nat),
      (columnLoop platformTiles mapWidth count k markedTiles combinedBox false).2.2 = false := by
  intro count
  induction count with
  | zero => intro k markedTiles combinedBox; rfl
  | succ count ih =>
    intro k markedTiles combinedBox
    simp only [columnLoop]
    split
    · rfl
    · exact ih _ _ _

/-- The column loop leaves `horizontalBox` true only when it pushed nothing. -/
theorem columnLoop_true (platformTiles : List Nat) (mapWidth count k : Nat)
    (markedTiles combinedBox : List Nat)
    (h : (columnLoop platformTiles mapWidth count k markedTiles combinedBox true).2.2 = true) :
    columnLoop platformTiles mapWidth count k markedTiles combinedBox true =
      (markedTiles, combinedBox, true) := by
  cases count with
  | zero => rfl
  | succ count =>
    simp only [columnLoop] at h ⊢
    split
    · rfl
    · rename_i hgo
      rw [if_neg hgo] at h
      rw [columnLoop_false] at h
      cases h

/-- The outer loop passes over indices that are zero or marked. -/
theorem scanLoop_skip (platformTiles : List Nat) (mapWidth mapHeight : Nat)
    (markedTiles : List Nat) :
    ∀ (k count i : Nat),
      (∀ t, i ≤ t → t < i + k →
        tileIsZero platformTiles t = true ∨ isMarked markedTiles t = true) →
      scanLoop platformTiles mapWidth mapHeight (k + count) i markedTiles =
        scanLoop platformTiles mapWidth mapHeight count (i + k) markedTiles := by
  intro k
  induction k with
  | zero => intro count i _; simp
  | succ k ih =>
    intro count i h
    have e : k + 1 + count = (k + count) + 1 := by omega
    rw [e]
    simp only [scanLoop]
    have h0 := h i (le_refl _) (by omega)
    rw [if_pos (by simpa [Bool.or_eq_true] using h0)]
    rw [ih count (i + 1) (fun t h1 h2 => h t (by omega) (by omega))]
    congr 1
    omega

theorem rowLoop_marks (platformTiles : List Nat) (base : List Nat) :
    ∀ (count j : Nat) (markedTiles combinedBox : List Nat),
      (∀ t, t ∈ markedTiles ↔ t ∈ combinedBox ∨ t ∈ base) →
      ∀ t, t ∈ (rowLoop platformTiles count j markedTiles combinedBox).1 ↔
        t ∈ (rowLoop platformTiles count j markedTiles combinedBox).2 ∨ t ∈ base := by
  intro count
  induction count with
  | zero => intro j markedTiles combinedBox h; exact h
  | succ count ih =>
    intro j markedTiles combinedBox h
    simp only [rowLoop]
    split
    · exact h
    · apply ih
      intro t
      simp only [List.mem_cons, List.mem_append, List.mem_singleton, h t]
      tauto

theorem columnLoop_marks (platformTiles : List Nat) (mapWidth : Nat) (base : List Nat) :
    ∀ (count k : Nat) (markedTiles combinedBox : List Nat) (horizontalBox : Bool),
      (∀ t, t ∈ markedTiles ↔ t ∈ combinedBox ∨ t ∈ base) →
      ∀ t,
        t ∈ (columnLoop platformTiles mapWidth count k markedTiles combinedBox horizontalBox).1 ↔
        t ∈ (columnLoop platformTiles mapWidth count k markedTiles combinedBox
          horizontalBox).2.1 ∨ t ∈ base := by
  intro count
  induction count with
  | zero => intro k markedTiles combinedBox horizontalBox h; exact h
  | succ count ih =>
    intro k markedTiles combinedBox horizontalBox h
    simp only [columnLoop]
    split
    · exact h
    · apply ih
      intro t
      simp only [List.mem_cons, List.mem_append, List.mem_singleton, h t]
      tauto

theorem rowLoop_keeps (platformTiles : List Nat) :
    ∀ (count j : Nat) (markedTiles combinedBox : List Nat) (t : Nat),
      t ∈ combinedBox → t ∈ (rowLoop platformTiles count j markedTiles combinedBox).2 := by
  intro count
  induction count with
  | zero => intro j markedTiles combinedBox t h; exact h
  | succ count ih =>
    intro j markedTiles combinedBox t h
    simp only [rowLoop]
    split
    · exact h
    · exact ih _ _ _ t (List.mem_append_left _ h)

theorem columnLoop_keeps (platformTiles : List Nat) (mapWidth : Nat) :
    ∀ (count k : Nat) (markedTiles combinedBox : List Nat) (horizontalBox : Bool) (t : Nat),
      t ∈ combinedBox →
      t ∈ (columnLoop platformTiles mapWidth count k markedTiles combinedBox
        horizontalBox).2.1 := by
  intro count
  induction count with
  | zero => intro k markedTiles combinedBox horizontalBox t h; exact h
  | succ count ih =>
    intro k markedTiles combinedBox horizontalBox t h
    simp only [columnLoop]
    split
    · exact h
    · exact ih _ _ _ _ t (List.mem_append_left _ h)

/-- After `mergeFrom` the marked tiles are those of the new group and those marked
before; the seed is in the group. -/
theorem mergeFrom_marks (platformTiles : List Nat) (mapWidth mapHeight i : Nat)
    (markedTiles : List Nat) :
    (mergeFrom platformTiles mapWidth mapHeight i markedTiles).2.i = i ∧
    i ∈ (mergeFrom platformTiles mapWidth mapHeight i markedTiles).2.combinedBox ∧
    ∀ t, t ∈ (mergeFrom platformTiles mapWidth mapHeight i markedTiles).1 ↔
      t ∈ (mergeFrom platformTiles mapWidth mapHeight i markedTiles).2.combinedBox ∨
        t ∈ markedTiles := by
  have hr := rowLoop_marks platformTiles markedTiles (rowEnd mapWidth i - i) (i + 1)
    (i :: markedTiles) [i] (fun t => by simp)
  have hk := rowLoop_keeps platformTiles (rowEnd mapWidth i - i) (i + 1)
    (i :: markedTiles) [i] i (by simp)
  unfold mergeFrom
  simp only
  split
  · refine ⟨rfl, ?_, ?_⟩
    · exact columnLoop_keeps _ _ _ _ _ _ _ _ hk
    · exact columnLoop_marks _ _ _ _ _ _ _ _ hr
  · exact ⟨rfl, hk, hr⟩

/-- A group that `mergeFrom` returns with `horizontalBox` true is the seed followed by the
run of the row loop. -/
theorem mergeFrom_horizontal (platformTiles : List Nat) (mapWidth mapHeight i : Nat)
    (markedTiles : List Nat)
    (h : (mergeFrom platformTiles mapWidth mapHeight i markedTiles).2.horizontalBox = true) :
    ∃ n, n ≤ rowEnd mapWidth i - i ∧
      mergeFrom platformTiles mapWidth mapHeight i markedTiles =
        ((List.range' (i + 1) n).reverse ++ i :: markedTiles,
          ⟨i, List.range' i (n + 1), true⟩) ∧
      (∀ t, i + 1 ≤ t → t < i + 1 + n →
        tileIsZero platformTiles t = false ∧ isMarked markedTiles t = false) ∧
      (n < rowEnd mapWidth i - i →
        tileIsZero platformTiles (i + 1 + n) = true ∨
          isMarked markedTiles (i + 1 + n) = true) := by
  obtain ⟨n, hn, hrun, hall, hend⟩ := rowLoop_spec platformTiles (rowEnd mapWidth i - i)
    (i + 1) (i :: markedTiles) [i]
  have hbox : [i] ++ List.range' (i + 1) n = List.range' i (n + 1) := by
    simp [List.range'_succ]
  rw [hbox] at hrun
  refine ⟨n, hn, ?_, ?_, ?_⟩
  · unfold mergeFrom at h ⊢
    simp only [hrun] at h ⊢
    split
    · rename_i hlen
      rw [if_pos hlen] at h
      simp only at h
      rw [columnLoop_true _ _ _ _ _ _ h]
    · rfl
  · intro t h1 h2
    obtain ⟨a, b⟩ := hall t h1 h2
    rw [isMarked_cons] at b
    simp only [Bool.or_eq_false_iff] at b
    exact ⟨a, b.2⟩
  · intro hlt
    have := hend hlt
    rw [isMarked_cons] at this
    have hne : (i + 1 + n == i) = false := by
      rw [beq_eq_false_iff_ne]
      omega
    rw [hne, Bool.false_or] at this
    exact this

theorem rowEnd_sub (mapWidth i : Nat) (hw : 0 < mapWidth) :
    rowEnd mapWidth i - i = mapWidth - 1 - i % mapWidth := by
  unfold rowEnd
  have h1 := Nat.div_add_mod i mapWidth
  have h2 := Nat.mod_lt i hw
  have h3 : (i / mapWidth + 1) * mapWidth = mapWidth * (i / mapWidth) + mapWidth := by ring
  rw [h3]
  omega

/-- The group that `mergeFrom` makes at a seed `i`, when horizontal, is a maximal run among
the unmerged tiles, given that every tile before `i` is zero or marked and every marked
tile is in an earlier group. -/
theorem mergeFrom_maximal (platformTiles : List Nat) (mapWidth mapHeight i : Nat)
    (markedTiles : List Nat) (earlier : List TileGroup) (hw : 0 < mapWidth)
    (hseed : tileIsZero platformTiles i = false)
    (hbefore : ∀ t, t < i → tileIsZero platformTiles t = true ∨ t ∈ markedTiles)
    (hmarked : ∀ t ∈ markedTiles, ∃ g' ∈ earlier, t ∈ g'.combinedBox)
    (h : (mergeFrom platformTiles mapWidth mapHeight i markedTiles).2.horizontalBox = true) :
    MaximalUnmergedRun platformTiles mapWidth earlier
      (mergeFrom platformTiles mapWidth mapHeight i markedTiles).2 := by
  obtain ⟨n, hn, hm, hall, hend⟩ :=
    mergeFrom_horizontal platformTiles mapWidth mapHeight i markedTiles h
  rw [rowEnd_sub mapWidth i hw] at hn hend
  have hmod := Nat.mod_lt i hw
  rw [hm]
  refine ⟨n + 1, by omega, rfl, by simp only; omega, ?_, ?_, ?_⟩
  · intro t ht
    simp only [List.mem_range'_1] at ht
    by_cases hti : t = i
    · rw [hti]; exact hseed
    · exact (hall t (by omega) (by omega)).1
  · intro hne
    simp only at hne ⊢
    have hi : 0 < i := by
      rcases Nat.eq_zero_or_pos i with h0 | h0
      · rw [h0] at hne
        simp at hne
      · exact h0
    rcases hbefore (i - 1) (by omega) with hz | hmk
    · exact Or.inl hz
    · exact Or.inr (hmarked _ hmk)
  · intro hlt
    simp only at hlt ⊢
    have e : i + (n + 1) = i + 1 + n := by omega
    rw [e]
    rcases hend (by omega) with hz | hmk
    · exact Or.inl hz
    · exact Or.inr (hmarked _ ((isMarked_iff _ _).1 hmk))

theorem scanLoop_maximal (platformTiles : List Nat) (mapWidth mapHeight : Nat)
    (hw : 0 < mapWidth) :
    ∀ (count i : Nat) (markedTiles : List Nat) (earlier : List TileGroup),
      (∀ t, t < i → tileIsZero platformTiles t = true ∨ t ∈ markedTiles) →
      (∀ t ∈ markedTiles, ∃ g' ∈ earlier, t ∈ g'.combinedBox) →
      ∀ (pre : List TileGroup) (g : TileGroup) (post : List TileGroup),
        scanLoop platformTiles mapWidth mapHeight count i markedTiles = pre ++ g :: post →
        g.horizontalBox = true →
        MaximalUnmergedRun platformTiles mapWidth (earlier ++ pre) g := by
  intro count
  induction count with
  | zero =>
    intro i markedTiles earlier _ _ pre g post hscan _
    simp [scanLoop] at hscan
  | succ count ih =>
    intro i markedTiles earlier hbefore hmarked pre g post hscan hg
    simp only [scanLoop] at hscan
    split at hscan
    · rename_i hskip
      apply ih (i + 1) markedTiles earlier _ hmarked pre g post hscan hg
      intro t ht
      by_cases hti : t = i
      · rw [hti]
        simpa [Bool.or_eq_true, isMarked] using hskip
      · exact hbefore t (by omega)
    · rename_i hskip
      have hseed : tileIsZero platformTiles i = false := by
        simp only [Bool.or_eq_true, not_or, Bool.not_eq_true] at hskip
        exact hskip.1
      obtain ⟨_, hin, hmk⟩ := mergeFrom_marks platformTiles mapWidth mapHeight i markedTiles
      cases pre with
      | nil =>
        simp only [List.nil_append, List.cons.injEq] at hscan
        obtain ⟨rfl, _⟩ := hscan
        rw [List.append_nil]
        exact mergeFrom_maximal platformTiles mapWidth mapHeight i markedTiles earlier hw
          hseed hbefore hmarked hg
      | cons g0 pre =>
        simp only [List.cons_append, List.cons.injEq] at hscan
        obtain ⟨rfl, hrest⟩ := hscan
        have := ih (i + 1) _ (earlier ++
          [(mergeFrom platformTiles mapWidth mapHeight i markedTiles).2]) ?_ ?_ pre g post
          hrest hg
        · simpa [List.append_assoc] using this
        · intro t ht
          by_cases hti : t = i
          · rw [hti]
            exact Or.inr ((hmk i).2 (Or.inl hin))
          · rcases hbefore t (by omega) with hz | hm
            · exact Or.inl hz
            · exact Or.inr ((hmk t).2 (Or.inr hm))
        · intro t ht
          rcases (hmk t).1 ht with hc | hm
          · exact ⟨_, by simp, hc⟩
          · obtain ⟨g', hg', htg⟩ := hmarked t hm
            exact ⟨g', List.mem_append_left _ hg', htg⟩

/-- C2, as stated, fails: on the 3 x 2 grid `[1,0,0, 1,1,1]` the column `[0, 3]` is merged
first, and the horizontal box emitted next covers the tiles `[4, 5]`, whose left-hand
neighbour in the same row, tile 3, is not empty. -/
theorem horizontal_run_not_maximal :
    mergeTiles [1, 0, 0, 1, 1, 1] 3 2 =
      [⟨0, [0, 3], false⟩] ++ (⟨4, [4, 5], true⟩ : TileGroup) :: [] ∧
    (⟨4, [4, 5], true⟩ : TileGroup).horizontalBox = true ∧
    4 % 3 ≠ 0 ∧ 4 / 3 = (4 - 1) / 3 ∧ tileIsZero [1, 0, 0, 1, 1, 1] (4 - 1) = false := by
  decide

/-- C2 (amended): for every collision tile grid of `mapWidth x mapHeight` tiles, every box
that `loadMap` emits with `horizontalBox` true covers a horizontal run of non-empty tiles
of one row that is maximal among the tiles not merged before it: the tile immediately left
of the run's first tile and the tile immediately right of its last tile, whenever they lie
in the same row, are empty (0) or belong to a box emitted earlier. -/
theorem horizontal_run_maximal_unmerged (platformTiles : List Nat)
    (mapWidth mapHeight : Nat) (pre : List TileGroup) (g : TileGroup)
    (post : List TileGroup) (hlen : platformTiles.length = mapWidth * mapHeight)
    (hscan : mergeTiles platformTiles mapWidth mapHeight = pre ++ g :: post)
    (hg : g.horizontalBox = true) :
    MaximalUnmergedRun platformTiles mapWidth pre g := by
  have hw : 0 < mapWidth := by
    rcases Nat.eq_zero_or_pos mapWidth with h0 | h0
    · rw [h0, Nat.zero_mul] at hlen
      rw [mergeTiles, hlen] at hscan
      simp [scanLoop] at hscan
    · exact h0
  have := scanLoop_maximal platformTiles mapWidth mapHeight hw platformTiles.length 0 [] []
    (fun t ht => by omega) (fun t ht => by simp at ht) pre g post hscan hg
  simpa using this

theorem horizontal_run_maximal_unmerged_witness :
    MaximalUnmergedRun [1, 0, 0, 1, 1, 1] 3 [⟨0, [0, 3], false⟩] ⟨4, [4, 5], true⟩ :=
  horizontal_run_maximal_unmerged [1, 0, 0, 1, 1, 1] 3 2 [⟨0, [0, 3], false⟩]
    ⟨4, [4, 5], true⟩ [] (by decide) (by decide) rfl

/-! ## A single row of tiles -/

theorem columnLoop_stop (platformTiles : List Nat) (mapWidth count k : Nat)
    (markedTiles combinedBox : List Nat) (horizontalBox : Bool)
    (h : count = 0 ∨ tileIsZero platformTiles k = true) :
    columnLoop platformTiles mapWidth count k markedTiles combinedBox horizontalBox =
      (markedTiles, combinedBox, horizontalBox) := by
  cases count with
  | zero => rfl
  | succ count =>
    rcases h with h | h
    · omega
    · simp [columnLoop, h]

/-- The groups of a grid whose non-zero tiles are `N >= 1` consecutive tiles of one row:
one horizontal group, seeded at the first tile of the run. -/
theorem mergeTiles_single_row (platformTiles : List Nat) (mapWidth mapHeight : Nat)
    (row col N : Nat) (hlen : platformTiles.length = mapWidth * mapHeight)
    (hN : 1 ≤ N) (hcol : col + N ≤ mapWidth) (hrow : row < mapHeight)
    (htiles : ∀ t, t < mapWidth * mapHeight →
      (tileIsZero platformTiles t = false ↔
        row * mapWidth + col ≤ t ∧ t < row * mapWidth + col + N)) :
    mergeTiles platformTiles mapWidth mapHeight =
      [⟨row * mapWidth + col, List.range' (row * mapWidth + col) N, true⟩] := by
  have hw : 0 < mapWidth := by omega
  have hrows : row * mapWidth + mapWidth ≤ mapWidth * mapHeight := by
    have := Nat.mul_le_mul_right mapWidth (Nat.succ_le_of_lt hrow)
    rw [Nat.mul_comm mapWidth mapHeight]
    calc row * mapWidth + mapWidth = (row + 1) * mapWidth := by ring
      _ ≤ mapHeight * mapWidth := this
  have hmod : (row * mapWidth + col) % mapWidth = col := by
    rw [Nat.mul_comm, Nat.mul_add_mod]
    exact Nat.mod_eq_of_lt (by omega)
  generalize hs : row * mapWidth + col = s at htiles hmod ⊢
  generalize hT : mapWidth * mapHeight = T at hlen htiles hrows
  have hzero : ∀ t, t < T → ¬ (s ≤ t ∧ t < s + N) → tileIsZero platformTiles t = true := by
    intro t ht hnot
    cases hz : tileIsZero platformTiles t with
    | true => rfl
    | false => exact absurd ((htiles t ht).1 hz) hnot
  have hfull : ∀ t, s ≤ t → t < s + N → tileIsZero platformTiles t = false :=
    fun t h1 h2 => (htiles t (by omega)).2 ⟨h1, h2⟩
  -- the row loop from the seed
  obtain ⟨n, hn, hrun, hall, hend⟩ := rowLoop_spec platformTiles (rowEnd mapWidth s - s)
    (s + 1) [s] [s]
  rw [rowEnd_sub mapWidth s hw, hmod] at hn hend
  have hnN : n = N - 1 := by
    by_contra hne
    rcases Nat.lt_or_gt_of_ne hne with hlt | hgt
    · rcases hend (by omega) with hz | hm
      · rw [hfull (s + 1 + n) (by omega) (by omega)] at hz
        cases hz
      · rw [isMarked_iff] at hm
        simp only [List.mem_singleton] at hm
        omega
    · have := (hall (s + N) (by omega) (by omega)).1
      have h2 := (htiles (s + N) (by omega)).1 this
      omega
  subst hnN
  have hbox : [s] ++ List.range' (s + 1) (N - 1) = List.range' s N := by
    have e : N = (N - 1) + 1 := by omega
    conv_rhs => rw [e, List.range'_succ]
    rfl
  rw [hbox] at hrun
  have hmerge : mergeFrom platformTiles mapWidth mapHeight s [] =
      ((List.range' (s + 1) (N - 1)).reverse ++ [s], ⟨s, List.range' s N, true⟩) := by
    unfold mergeFrom
    simp only [hrun, List.length_range']
    split
    · rename_i hN1
      rw [columnLoop_stop]
      by_cases hc : (columnEnd mapWidth mapHeight - s) / mapWidth = 0
      · exact Or.inl hc
      · right
        have h1 : 1 ≤ (columnEnd mapWidth mapHeight - s) / mapWidth := Nat.one_le_iff_ne_zero.2 hc
        rw [Nat.le_div_iff_mul_le hw] at h1
        unfold columnEnd at h1
        rw [hT] at h1
        exact hzero (s + mapWidth) (by omega) (by omega)
    · rfl
  -- the scan
  have hrest : scanLoop platformTiles mapWidth mapHeight (T - s - 1) (s + 1)
      ((List.range' (s + 1) (N - 1)).reverse ++ [s]) = [] := by
    have := scanLoop_skip platformTiles mapWidth mapHeight
      ((List.range' (s + 1) (N - 1)).reverse ++ [s]) (T - s - 1) 0 (s + 1)
      (fun t h1 h2 => by
        by_cases hin : t < s + N
        · right
          rw [isMarked_iff]
          simp only [List.mem_append, List.mem_reverse, List.mem_range'_1,
            List.mem_singleton]
          left
          omega
        · exact Or.inl (hzero t (by omega) (by omega)))
    rw [Nat.add_zero] at this
    rw [this]
    rfl
  have hT2 : T = s + ((T - s - 1) + 1) := by omega
  unfold mergeTiles
  rw [hlen, hT2, scanLoop_skip platformTiles mapWidth mapHeight [] s _ 0
    (fun t h1 h2 => Or.inl (hzero t (by omega) (by omega)))]
  have hseed : (tileIsZero platformTiles s || isMarked [] s) = false := by
    rw [hfull s (le_refl _) (by omega)]
    rfl
  have e0 : 0 + s = s := by omega
  rw [e0]
  simp only [scanLoop, hseed, Bool.false_eq_true, if_false, hmerge, hrest]

/-- C1: for a map of `mapWidth x mapHeight` tiles whose collision layer's non-zero tiles
are exactly `N >= 1` consecutive tiles of one row, from column `col` of row `row`,
`loadMap` creates exactly one entity, with a BoundingBox of offsets (0,0),
width `N * tileWidth` and height `tileHeight`, and Position
`(col * tileWidth, row * tileHeight)`; nothing else changes but `mapIsLoaded`. -/
theorem single_row_one_box (p : PhysicsProcessor) (mid : Nat) (map : TileMap)
    (row col N : Nat) (hmap : p.manager.Map = [(mid, ⟨some map⟩)])
    (hlen : (collisionTiles map.layers).length = map.sizeX * map.sizeY)
    (hN : 1 ≤ N) (hcol : col + N ≤ map.sizeX) (hrow : row < map.sizeY)
    (htiles : ∀ t, t < map.sizeX * map.sizeY →
      (tileIsZero (collisionTiles map.layers) t = false ↔
        row * map.sizeX + col ≤ t ∧ t < row * map.sizeX + col + N)) :
    loadMap p =
      { p with
        mapIsLoaded := true
        manager := { p.manager with
          nextId := p.manager.nextId + 1
          BoundingBox := p.manager.BoundingBox ++
            [(p.manager.nextId, ⟨0, 0, (N : ℚ) * map.tileWidth, map.tileHeight⟩)]
          Position := p.manager.Position ++
            [(p.manager.nextId,
              ⟨(col : ℚ) * map.tileWidth, (row : ℚ) * map.tileHeight⟩)] } } := by
  have hw : 0 < map.sizeX := by omega
  have hmod : (row * map.sizeX + col) % map.sizeX = col := by
    rw [Nat.mul_comm, Nat.mul_add_mod]
    exact Nat.mod_eq_of_lt (by omega)
  have hdiv : (row * map.sizeX + col) / map.sizeX = row := by
    rw [Nat.mul_comm, Nat.mul_add_div hw, Nat.div_eq_of_lt (by omega), Nat.add_zero]
  unfold loadMap
  rw [hmap]
  simp only [List.map_cons, List.map_nil, List.foldl_cons, List.foldl_nil, loadOneMap]
  rw [mergeTiles_single_row _ _ _ row col N hlen hN hcol hrow htiles]
  simp only [List.foldl_cons, List.foldl_nil, createBox, if_true, List.length_range', hmod,
    hdiv, mul_comm map.tileWidth]

theorem single_row_one_box_witness :
    loadMap sampleUnloaded =
      { sampleUnloaded with
        mapIsLoaded := true
        manager := { sampleUnloaded.manager with
          nextId := sampleUnloaded.manager.nextId + 1
          BoundingBox := sampleUnloaded.manager.BoundingBox ++
            [(sampleUnloaded.manager.nextId,
              ⟨0, 0, ((2 : Nat) : ℚ) * sampleMap.tileWidth, sampleMap.tileHeight⟩)]
          Position := sampleUnloaded.manager.Position ++
            [(sampleUnloaded.manager.nextId,
              ⟨((1 : Nat) : ℚ) * sampleMap.tileWidth,
                ((1 : Nat) : ℚ) * sampleMap.tileHeight⟩)] } } :=
  single_row_one_box sampleUnloaded 3 sampleMap 1 1 2 rfl (by decide) (by decide)
    (by decide) (by decide) (by decide)

/-! ## Maps that are not available -/

theorem loadMap_fold_none (maps : List MapData) (p : PhysicsProcessor)
    (h : ∀ d ∈ maps, d._map = none) : maps.foldl loadOneMap p = p := by
  induction maps generalizing p with
  | nil => rfl
  | cons d maps ih =>
    have hd : loadOneMap p d = p := by
      unfold loadOneMap
      rw [h d (List.mem_cons_self _ _)]
    rw [List.foldl_cons, hd]
    exact ih p (fun d' hd' => h d' (List.mem_cons_of_mem _ hd'))

theorem loadMap_fold_loaded (maps : List MapData) (p : PhysicsProcessor)
    (hf : p.mapIsLoaded = false) (ht : (maps.foldl loadOneMap p).mapIsLoaded = true) :
    ∃ d ∈ maps, d._map ≠ none := by
  induction maps generalizing p with
  | nil =>
    simp only [List.foldl_nil] at ht
    rw [hf] at ht
    cases ht
  | cons d maps ih =>
    cases hd : d._map with
    | some map => exact ⟨d, List.mem_cons_self _ _, by rw [hd]; simp⟩
    | none =>
      have hp : loadOneMap p d = p := by
        unfold loadOneMap
        rw [hd]
      rw [List.foldl_cons, hp] at ht
      obtain ⟨d', hd', hne⟩ := ih p hf ht
      exact ⟨d', List.mem_cons_of_mem _ hd', hne⟩

/-- C20: if there is no Map component, or every Map component's `_map` is null, `loadMap`
changes nothing: it creates no entity and leaves `mapIsLoaded` as it was; a call of
`loadMap` that turns `mapIsLoaded` from false to true found a non-null map; and while
`mapIsLoaded` is false every `update` ends with a call of `loadMap`, after which, when no
map is available, `mapIsLoaded` is still false and no entity was created. -/
theorem no_map_no_load {R : Type} (sat : SatLib R) (inputs : List InputData)
    (p : PhysicsProcessor) (dt : ℚ) :
    ((∀ e ∈ p.manager.Map, e.2._map = none) → loadMap p = p) ∧
    (p.mapIsLoaded = false → (loadMap p).mapIsLoaded = true →
      ∃ e ∈ p.manager.Map, e.2._map ≠ none) ∧
    (p.mapIsLoaded = false →
      update sat inputs p dt = (updateMovables sat inputs p dt).map loadMap) ∧
    (p.mapIsLoaded = false → (∀ e ∈ p.manager.Map, e.2._map = none) →
      ∀ p', update sat inputs p dt = some p' →
        p'.mapIsLoaded = false ∧ SameEntities p.manager p'.manager) := by
  have hupd : p.mapIsLoaded = false →
      update sat inputs p dt = (updateMovables sat inputs p dt).map loadMap := by
    intro hf
    unfold update
    cases h : updateMovables sat inputs p dt with
    | none => rfl
    | some p3 =>
      obtain ⟨_, h2, _⟩ := updateMovables_same sat inputs p dt p3 h
      simp [h2, hf]
  refine ⟨?_, ?_, hupd, ?_⟩
  · intro h
    unfold loadMap
    exact loadMap_fold_none _ p (fun d hd => by
      obtain ⟨e, he, rfl⟩ := List.mem_map.1 hd
      exact h e he)
  · intro hf ht
    obtain ⟨d, hd, hne⟩ := loadMap_fold_loaded _ p hf ht
    obtain ⟨e, he, rfl⟩ := List.mem_map.1 hd
    exact ⟨e, he, hne⟩
  · intro hf hnone p' h
    rw [hupd hf] at h
    cases h3 : updateMovables sat inputs p dt with
    | none => rw [h3] at h; cases h
    | some p3 =>
      rw [h3] at h
      simp only [Option.map_some', Option.some.injEq] at h
      obtain ⟨hs, hl, _⟩ := updateMovables_same sat inputs p dt p3 h3
      have hp3 : loadMap p3 = p3 := by
        unfold loadMap
        exact loadMap_fold_none _ p3 (fun d hd => by
          obtain ⟨e, he, rfl⟩ := List.mem_map.1 hd
          rw [hs.2.2.1] at he
          exact hnone e he)
      rw [hp3] at h
      subst h
      exact ⟨hl.trans hf, hs⟩

theorem no_map_no_load_witness :
    (∃ p', update sampleSat [sampleInput Action.LEFT] sampleNoMap 16 = some p') ∧
    ((∀ e ∈ sampleNoMap.manager.Map, e.2._map = none) → loadMap sampleNoMap = sampleNoMap) ∧
    (sampleNoMap.mapIsLoaded = false → (loadMap sampleNoMap).mapIsLoaded = true →
      ∃ e ∈ sampleNoMap.manager.Map, e.2._map ≠ none) ∧
    (sampleNoMap.mapIsLoaded = false →
      update sampleSat [sampleInput Action.LEFT] sampleNoMap 16 =
        (updateMovables sampleSat [sampleInput Action.LEFT] sampleNoMap 16).map loadMap) ∧
    (sampleNoMap.mapIsLoaded = false → (∀ e ∈ sampleNoMap.manager.Map, e.2._map = none) →
      ∀ p', update sampleSat [sampleInput Action.LEFT] sampleNoMap 16 = some p' →
        p'.mapIsLoaded = false ∧ SameEntities sampleNoMap.manager p'.manager) :=
  ⟨update_isSome sampleSat _ sampleNoMap 16 (by decide),
    no_map_no_load sampleSat [sampleInput Action.LEFT] sampleNoMap 16⟩

/-! ## The effect entity and the speed after a vertical overlap -/

/-- C19 (failing input): in `twoPlayers` the effect entity 1 has no `Player`, yet
`activateFx` for player 2 writes to entity 3, the last movable, which has a `Player`:
its position and `goingRight` become those of player 2 and the effect entity keeps its
position. -/
theorem activateFx_writes_player :
    twoPlayers.Movable.has 1 = true ∧ twoPlayers.Player.has 1 = false ∧
    fxEntity twoPlayers.Movable = some 3 ∧ twoPlayers.Player.has 3 = true ∧
    (activateFx twoPlayers 2).map (fun m => (m.Position, m.Movable.lookup 3)) =
      some ([(1, ⟨0, 0⟩), (2, ⟨10, 10⟩), (3, ⟨10, 10⟩)],
        some ⟨200, 0, 0, 0, 1, false, 1, false⟩) := by
  decide!

/-- C14 (failing input): `checkCollision` for player 1 of `sampleProc 25` resolves an
overlap with the static box 5 whose vertical component is 3, and leaves `speedY = 100`,
not 0. -/
theorem vertical_overlap_speedY :
    probe sampleSat ⟨sampleProc 25, toPolygon ⟨0, 0, 10, 10⟩ ⟨10, 25⟩, (0, 0)⟩
        (5, ⟨0, 0, 96, 32⟩) =
      some ([(5, toPolygon ⟨0, 0, 96, 32⟩ ⟨0, 32⟩)], true, ((0 : ℚ), (3 : ℚ))) ∧
    (checkCollision sampleSat (sampleProc 25) 1).map
        (fun p' => (p'.manager.Movable.lookup 1).map (fun mv => mv.speedY)) =
      some (some 100) ∧
    (100 : ℚ) ≠ 0 := by
  decide!

/-! ## Every outcome of one input -/

/-- The outcomes of `handleInput`: nothing changes, or the target's movable gets the
horizontal fields of LEFT or RIGHT, or a jump is granted and `activateFx` runs. -/
theorem handleInput_cases (dt : ℚ) (m : Manager) (input : InputData) (m' : Manager)
    (h : handleInput dt m input = some m') :
    m' = m ∨
    (∃ pid mv, input.active = true ∧ inputTarget m input = some pid ∧
      m.Movable.lookup pid = some mv ∧
      ((input.action = Action.LEFT ∧
          m' = { m with Movable := m.Movable.set pid (handleLeft dt mv) }) ∨
        (input.action = Action.RIGHT ∧
          m' = { m with Movable := m.Movable.set pid (handleRight dt mv) }))) ∨
    (∃ pid mv, input.active = true ∧ inputTarget m input = some pid ∧
      m.Movable.lookup pid = some mv ∧ input.action = Action.JUMP ∧
      mv.jumpAllowed = true ∧ mv.lastJump > 3 / 10 ∧
      activateFx { m with
        Movable := m.Movable.set pid
          { mv with speedY := -600, jumpAllowed := false, lastJump := 0 } } pid = some m') := by
  unfold handleInput at h
  split at h
  · rename_i hact
    split at h
    · cases h
      exact Or.inl rfl
    · rename_i pid ht
      simp only [Option.bind_eq_bind, Option.bind_eq_some] at h
      obtain ⟨mv, hmv, h⟩ := h
      split at h
      · rename_i hj
        by_cases hg : mv.jumpAllowed = true ∧ mv.lastJump > 3 / 10
        · right; right
          refine ⟨pid, mv, hact, ht, hmv, hj, hg.1, hg.2, ?_⟩
          unfold handleJump at h
          simpa [hg.1, hg.2] using h
        · rw [handleJump_refused m pid mv hg] at h
          cases h
          exact Or.inl rfl
      · rename_i hj
        cases h
        exact Or.inr (Or.inl ⟨pid, mv, hact, ht, hmv, Or.inl ⟨hj, rfl⟩⟩)
      · rename_i hj
        cases h
        exact Or.inr (Or.inl ⟨pid, mv, hact, ht, hmv, Or.inr ⟨hj, rfl⟩⟩)
      · cases h
        exact Or.inl rfl
  · cases h
    exact Or.inl rfl

/-- A fold in `Option` keeps an invariant that each step keeps for the elements of the
list. -/
theorem foldlM_invariant_mem {σ α : Type} (f : σ → α → Option σ) (I : σ → Prop) :
    ∀ (l : List α) (s s' : σ),
      (∀ s a s', a ∈ l → I s → f s a = some s' → I s') →
      I s → l.foldlM f s = some s' → I s' := by
  intro l
  induction l with
  | nil =>
    intro s s' _ hs h
    simp [List.foldlM] at h
    exact h ▸ hs
  | cons a l ih =>
    intro s s' hf hs h
    simp only [List.foldlM_cons] at h
    cases hfa : f s a with
    | none => simp [hfa] at h
    | some s1 =>
      simp only [hfa, Option.some_bind, Option.bind_eq_bind] at h
      exact ih s1 s' (fun s a s' ha => hf s a s' (List.mem_cons_of_mem _ ha))
        (hf s a s1 (List.mem_cons_self _ _) hs hfa) h

/-! ## What collision resolution leaves alone -/

theorem collisionKeeps_self (mv : MovableData) : CollisionKeeps mv mv :=
  ⟨rfl, rfl, rfl, rfl, rfl, rfl⟩

theorem collisionKeeps_chain {a b c : MovableData} (h1 : CollisionKeeps a b)
    (h2 : CollisionKeeps b c) : CollisionKeeps a c := by
  obtain ⟨a1, a2, a3, a4, a5, a6⟩ := h1
  obtain ⟨b1, b2, b3, b4, b5, b6⟩ := h2
  exact ⟨b1.trans a1, b2.trans a2, b3.trans a3, b4.trans a4, b5.trans a5, b6.trans a6⟩

/-- One iteration of the loop of `checkCollision` for `k` leaves the movable and the
position of every other entity as they are. -/
theorem collisionStep_other {R : Type} (sat : SatLib R) (k : Nat)
    (movableBoxData : BoundingBoxData) (st : CollisionState R)
    (entry : Nat × BoundingBoxData) (st' : CollisionState R) (id : Nat)
    (h : collisionStep sat k movableBoxData st entry = some st') (hne : id ≠ k) :
    st'.proc.manager.Movable.lookup id = st.proc.manager.Movable.lookup id ∧
      st'.proc.manager.Position.lookup id = st.proc.manager.Position.lookup id := by
  rcases collisionStep_cases sat k movableBoxData st entry st' h with
    ⟨_, rfl⟩ | ⟨_, boxes, r, _, hr⟩ | ⟨_, boxes, r, _, rfl⟩
  · exact ⟨rfl, rfl⟩
  · obtain ⟨_, _, hP, _, _, _, _, _, _, _, _, hM⟩ :=
      resolve_spec sat k movableBoxData st boxes r st' hr
    constructor
    · rcases hM with ⟨_, hM⟩ | ⟨_, moveData, _, hM⟩
      · rw [hM]
      · rw [hM, Table.lookup_set_ne _ _ _ _ hne]
    · rw [hP, Table.lookup_set_ne _ _ _ _ hne]
  · exact ⟨rfl, rfl⟩

/-- One iteration of the loop of `checkCollision` keeps every movable, and writes at most
`speedY` and `jumpAllowed`. -/
theorem collisionStep_keeps {R : Type} (sat : SatLib R) (k : Nat)
    (movableBoxData : BoundingBoxData) (st : CollisionState R)
    (entry : Nat × BoundingBoxData) (st' : CollisionState R) (id : Nat) (mv : MovableData)
    (h : collisionStep sat k movableBoxData st entry = some st')
    (hmv : st.proc.manager.Movable.lookup id = some mv) :
    ∃ mv', st'.proc.manager.Movable.lookup id = some mv' ∧ CollisionKeeps mv mv' := by
  by_cases hne : id = k
  · subst hne
    rcases collisionStep_cases sat id movableBoxData st entry st' h with
      ⟨_, rfl⟩ | ⟨_, boxes, r, _, hr⟩ | ⟨_, boxes, r, _, rfl⟩
    · exact ⟨mv, hmv, collisionKeeps_self mv⟩
    · obtain ⟨_, _, _, _, _, _, _, _, _, _, _, hM⟩ :=
        resolve_spec sat id movableBoxData st boxes r st' hr
      rcases hM with ⟨_, hM⟩ | ⟨_, moveData, hmd, hM⟩
      · rw [hM]
        exact ⟨mv, hmv, collisionKeeps_self mv⟩
      · rw [hmv] at hmd
        cases hmd
        rw [hM, Table.lookup_set_self _ _ _ _ hmv]
        exact ⟨_, rfl, rfl, rfl, rfl, rfl, rfl, rfl⟩
    · exact ⟨mv, hmv, collisionKeeps_self mv⟩
  · obtain ⟨h1, _⟩ := collisionStep_other sat k movableBoxData st entry st' id h hne
    exact ⟨mv, by rw [h1]; exact hmv, collisionKeeps_self mv⟩

/-- The lookups and the loop that a returning `checkCollision` of a player went through. -/
theorem checkCollision_loop {R : Type} (sat : SatLib R) (p : PhysicsProcessor) (k : Nat)
    (p' : PhysicsProcessor) (h : checkCollision sat p k = some p')
    (hpl : p.manager.Player.has k = true) :
    ∃ box pos st, p.manager.BoundingBox.lookup k = some box ∧
      p.manager.Position.lookup k = some pos ∧
      p.manager.BoundingBox.foldlM (collisionStep sat k box)
        ⟨p, toPolygon box pos, sat.newResponse⟩ = some st ∧ st.proc = p' := by
  unfold checkCollision at h
  simp only [hpl, Bool.not_true, Bool.false_eq_true, if_false, Option.bind_eq_bind,
    Option.bind_eq_some, Option.pure_def, Option.some.injEq] at h
  obtain ⟨box, hbox, pos, hpos, st, hst, rfl⟩ := h
  exact ⟨box, pos, st, hbox, hpos, hst, rfl⟩

theorem checkCollision_noPlayer {R : Type} (sat : SatLib R) (p : PhysicsProcessor) (k : Nat)
    (hpl : p.manager.Player.has k = false) : checkCollision sat p k = some p := by
  simp [checkCollision, hpl]

theorem checkCollision_other {R : Type} (sat : SatLib R) (p : PhysicsProcessor) (k : Nat)
    (p' : PhysicsProcessor) (id : Nat) (h : checkCollision sat p k = some p')
    (hne : id ≠ k) :
    p'.manager.Movable.lookup id = p.manager.Movable.lookup id ∧
      p'.manager.Position.lookup id = p.manager.Position.lookup id := by
  cases hpl : p.manager.Player.has k with
  | false =>
    rw [checkCollision_noPlayer sat p k hpl] at h
    cases h
    exact ⟨rfl, rfl⟩
  | true =>
    obtain ⟨box, pos, st, _, _, hst, rfl⟩ := checkCollision_loop sat p k p' h hpl
    exact foldlM_invariant (collisionStep sat k box)
      (fun s => s.proc.manager.Movable.lookup id = p.manager.Movable.lookup id ∧
        s.proc.manager.Position.lookup id = p.manager.Position.lookup id)
      (fun s a s' hs hstep => by
        obtain ⟨h1, h2⟩ := collisionStep_other sat k box s a s' id hstep hne
        exact ⟨h1.trans hs.1, h2.trans hs.2⟩)
      _ _ st ⟨rfl, rfl⟩ hst

theorem checkCollision_keeps {R : Type} (sat : SatLib R) (p : PhysicsProcessor) (k : Nat)
    (p' : PhysicsProcessor) (id : Nat) (mv : MovableData)
    (h : checkCollision sat p k = some p') (hmv : p.manager.Movable.lookup id = some mv) :
    ∃ mv', p'.manager.Movable.lookup id = some mv' ∧ CollisionKeeps mv mv' := by
  cases hpl : p.manager.Player.has k with
  | false =>
    rw [checkCollision_noPlayer sat p k hpl] at h
    cases h
    exact ⟨mv, hmv, collisionKeeps_self mv⟩
  | true =>
    obtain ⟨box, pos, st, _, _, hst, rfl⟩ := checkCollision_loop sat p k p' h hpl
    exact foldlM_invariant (collisionStep sat k box)
      (fun s => ∃ mv', s.proc.manager.Movable.lookup id = some mv' ∧ CollisionKeeps mv mv')
      (fun s a s' hs hstep => by
        obtain ⟨mv1, h1, k1⟩ := hs
        obtain ⟨mv2, h2, k2⟩ := collisionStep_keeps sat k box s a s' id mv1 hstep h1
        exact ⟨mv2, h2, collisionKeeps_chain k1 k2⟩)
      _ _ st ⟨mv, hmv, collisionKeeps_self mv⟩ hst

/-! ## The body of the move loop -/

theorem moveEntity_noPlayer {R : Type} (sat : SatLib R) (p : PhysicsProcessor) (k : Nat)
    (hpl : p.manager.Player.has k = false) : moveEntity sat p k = some p := by
  simp [moveEntity, hpl]

/-- The body of the move loop for a player, as its four steps. -/
theorem moveEntity_eq {R : Type} (sat : SatLib R) (p : PhysicsProcessor) (k : Nat)
    (hpl : p.manager.Player.has k = true) :
    moveEntity sat p k =
      (movedX p k).bind fun p1 => (checkCollision sat p1 k).bind fun p2 =>
        (movedY p2 k).bind fun p3 => checkCollision sat p3 k := by
  unfold moveEntity movedX movedY
  simp only [hpl, Bool.not_true, Bool.false_eq_true, if_false, Option.bind_eq_bind,
    Option.pure_def]
  cases p.manager.Movable.lookup k with
  | none => rfl
  | some moveData =>
    cases p.manager.Position.lookup k with
    | none => rfl
    | some posData =>
      simp only [Option.some_bind]
      cases checkCollision sat _ k with
      | none => rfl
      | some p2 =>
        simp only [Option.some_bind]
        cases p2.manager.Movable.lookup k with
        | none => rfl
        | some moveData2 =>
          cases p2.manager.Position.lookup k with
          | none => rfl
          | some posData2 => rfl

theorem moveEntity_steps {R : Type} (sat : SatLib R) (p : PhysicsProcessor) (k : Nat)
    (p' : PhysicsProcessor) (hpl : p.manager.Player.has k = true)
    (h : moveEntity sat p k = some p') :
    ∃ p1 p2 p3, movedX p k = some p1 ∧ checkCollision sat p1 k = some p2 ∧
      movedY p2 k = some p3 ∧ checkCollision sat p3 k = some p' := by
  rw [moveEntity_eq sat p k hpl] at h
  simp only [Option.bind_eq_some] at h
  obtain ⟨p1, h1, p2, h2, p3, h3, h4⟩ := h
  exact ⟨p1, p2, p3, h1, h2, h3, h4⟩

theorem movedX_spec (p : PhysicsProcessor) (k : Nat) (p1 : PhysicsProcessor)
    (h : movedX p k = some p1) :
    ∃ moveData posData, p.manager.Movable.lookup k = some moveData ∧
      p.manager.Position.lookup k = some posData ∧
      p1 = { p with manager := { p.manager with
        Position := p.manager.Position.set k
          { posData with x := posData.x + moveData.dx } } } := by
  simp only [movedX, Option.bind_eq_bind, Option.bind_eq_some, Option.pure_def,
    Option.some.injEq] at h
  obtain ⟨moveData, h1, posData, h2, rfl⟩ := h
  exact ⟨moveData, posData, h1, h2, rfl⟩

theorem movedY_spec (p : PhysicsProcessor) (k : Nat) (p1 : PhysicsProcessor)
    (h : movedY p k = some p1) :
    ∃ moveData posData, p.manager.Movable.lookup k = some moveData ∧
      p.manager.Position.lookup k = some posData ∧
      p1 = { p with manager := { p.manager with
        Position := p.manager.Position.set k
          { posData with y := posData.y + moveData.dy } } } := by
  simp only [movedY, Option.bind_eq_bind, Option.bind_eq_some, Option.pure_def,
    Option.some.injEq] at h
  obtain ⟨moveData, h1, posData, h2, rfl⟩ := h
  exact ⟨moveData, posData, h1, h2, rfl⟩

theorem moveEntity_other {R : Type} (sat : SatLib R) (p : PhysicsProcessor) (k : Nat)
    (p' : PhysicsProcessor) (id : Nat) (h : moveEntity sat p k = some p')
    (hne : id ≠ k ∨ p.manager.Player.has id = false) :
    p'.manager.Movable.lookup id = p.manager.Movable.lookup id ∧
      p'.manager.Position.lookup id = p.manager.Position.lookup id := by
  cases hpl : p.manager.Player.has k with
  | false =>
    rw [moveEntity_noPlayer sat p k hpl] at h
    cases h
    exact ⟨rfl, rfl⟩
  | true =>
    have hne' : id ≠ k := by
      rcases hne with hne | hne
      · exact hne
      · intro he
        rw [he, hpl] at hne
        cases hne
    obtain ⟨p1, p2, p3, h1, h2, h3, h4⟩ := moveEntity_steps sat p k p' hpl h
    obtain ⟨_, _, _, _, rfl⟩ := movedX_spec p k p1 h1
    obtain ⟨_, _, _, _, rfl⟩ := movedY_spec p2 k p3 h3
    obtain ⟨a1, a2⟩ := checkCollision_other sat _ k p2 id h2 hne'
    obtain ⟨b1, b2⟩ := checkCollision_other sat _ k p' id h4 hne'
    simp only at a1 a2 b1 b2
    rw [Table.lookup_set_ne _ _ _ _ hne'] at a2 b2
    exact ⟨b1.trans a1, b2.trans a2⟩

theorem moveEntity_keeps {R : Type} (sat : SatLib R) (p : PhysicsProcessor) (k : Nat)
    (p' : PhysicsProcessor) (id : Nat) (mv : MovableData)
    (h : moveEntity sat p k = some p') (hmv : p.manager.Movable.lookup id = some mv) :
    ∃ mv', p'.manager.Movable.lookup id = some mv' ∧ CollisionKeeps mv mv' := by
  cases hpl : p.manager.Player.has k with
  | false =>
    rw [moveEntity_noPlayer sat p k hpl] at h
    cases h
    exact ⟨mv, hmv, collisionKeeps_self mv⟩
  | true =>
    obtain ⟨p1, p2, p3, h1, h2, h3, h4⟩ := moveEntity_steps sat p k p' hpl h
    obtain ⟨_, _, _, _, rfl⟩ := movedX_spec p k p1 h1
    obtain ⟨_, _, _, _, rfl⟩ := movedY_spec p2 k p3 h3
    obtain ⟨mv2, a1, a2⟩ := checkCollision_keeps sat _ k p2 id mv h2 hmv
    obtain ⟨mv3, b1, b2⟩ := checkCollision_keeps sat _ k p' id mv2 h4 a1
    exact ⟨mv3, b1, collisionKeeps_chain a2 b2⟩

/-- The move loop keeps every movable and writes at most `speedY` and `jumpAllowed`. -/
theorem moveLoop_keeps {R : Type} (sat : SatLib R) (keys : List Nat)
    (p p' : PhysicsProcessor) (id : Nat) (mv : MovableData)
    (h : keys.foldlM (moveEntity sat) p = some p')
    (hmv : p.manager.Movable.lookup id = some mv) :
    ∃ mv', p'.manager.Movable.lookup id = some mv' ∧ CollisionKeeps mv mv' :=
  foldlM_invariant (moveEntity sat)
    (fun s => ∃ mv', s.manager.Movable.lookup id = some mv' ∧ CollisionKeeps mv mv')
    (fun s a s' hs hstep => by
      obtain ⟨mv1, h1, k1⟩ := hs
      obtain ⟨mv2, h2, k2⟩ := moveEntity_keeps sat s a s' id mv1 hstep h1
      exact ⟨mv2, h2, collisionKeeps_chain k1 k2⟩)
    keys p p' ⟨mv, hmv, collisionKeeps_self mv⟩ h

/-- The move loop leaves the movable and the position of an entity without a `Player` as
they are. -/
theorem moveLoop_noPlayer {R : Type} (sat : SatLib R) (keys : List Nat)
    (p p' : PhysicsProcessor) (id : Nat)
    (h : keys.foldlM (moveEntity sat) p = some p')
    (hpl : p.manager.Player.has id = false) :
    p'.manager.Movable.lookup id = p.manager.Movable.lookup id ∧
      p'.manager.Position.lookup id = p.manager.Position.lookup id := by
  have := foldlM_invariant (moveEntity sat)
    (fun s => s.manager.Player = p.manager.Player ∧
      s.manager.Movable.lookup id = p.manager.Movable.lookup id ∧
      s.manager.Position.lookup id = p.manager.Position.lookup id)
    (fun s a s' hs hstep => by
      obtain ⟨hsame, _⟩ := moveEntity_same sat s a s' hstep
      obtain ⟨h1, h2⟩ := moveEntity_other sat s a s' id hstep
        (Or.inr (by rw [hs.1]; exact hpl))
      exact ⟨hsame.1.trans hs.1, h1.trans hs.2.1, h2.trans hs.2.2⟩)
    keys p p' ⟨rfl, rfl, rfl⟩ h
  exact this.2

/-! ## What one input does to a movable -/

/-- After a granted jump of `pid`, the movable of an entity is the one before, with the
three fields of the jump written when the entity is `pid` and with `goingRight` possibly
written by `activateFx`. -/
theorem jump_effect (m : Manager) (pid : Nat) (v : MovableData) (m' : Manager) (id : Nat)
    (mv0 : MovableData)
    (h : activateFx { m with Movable := m.Movable.set pid v } pid = some m')
    (hmv0 : m.Movable.lookup id = some mv0) :
    ∃ g, m'.Movable.lookup id =
      some { (if id = pid then v else mv0) with goingRight := g } := by
  obtain ⟨fxMov, _, playerMovable, _, _, _, _, _, _, _, _, _, _, _, hM, _⟩ :=
    activateFx_spec _ _ _ h
  have := hM id
  simp only at this
  rw [Table.lookup_set, hmv0] at this
  by_cases hid : id = pid
  · simp only [hid, if_true, Option.map_some'] at this ⊢
    by_cases hfx : pid = fxMov
    · exact ⟨playerMovable.goingRight, by simpa [hfx] using this⟩
    · exact ⟨v.goingRight, by simpa [hfx] using this⟩
  · simp only [hid, if_false, Option.map_some'] at this ⊢
    by_cases hfx : id = fxMov
    · exact ⟨playerMovable.goingRight, by simpa [hfx] using this⟩
    · exact ⟨mv0.goingRight, by simpa [hfx] using this⟩

/-- What `handleInput` does to the movable of an entity `id`: `speed`, `dy` and
`gravityScale` stay; `dx` changes only by an active LEFT or RIGHT input of `id`; the
vertical fields change only by a granted jump of `id`. -/
theorem handleInput_movable (dt : ℚ) (m : Manager) (input : InputData) (m' : Manager)
    (id : Nat) (mv0 : MovableData) (h : handleInput dt m input = some m')
    (hmv0 : m.Movable.lookup id = some mv0) :
    ∃ mv', m'.Movable.lookup id = some mv' ∧
      mv'.speed = mv0.speed ∧ mv'.dy = mv0.dy ∧ mv'.gravityScale = mv0.gravityScale ∧
      (mv'.dx = mv0.dx ∨
        (input.active = true ∧ (input.action = Action.LEFT ∨ input.action = Action.RIGHT) ∧
          inputTarget m input = some id)) ∧
      ((mv'.speedY = mv0.speedY ∧ mv'.jumpAllowed = mv0.jumpAllowed ∧
          mv'.lastJump = mv0.lastJump) ∨
        (input.active = true ∧ input.action = Action.JUMP ∧ inputTarget m input = some id ∧
          mv0.jumpAllowed = true ∧ mv0.lastJump > 3 / 10 ∧
          mv'.speedY = -600 ∧ mv'.jumpAllowed = false ∧ mv'.lastJump = 0)) := by
  rcases handleInput_cases dt m input m' h with rfl | ⟨pid, mv, hact, ht, hmv, hlr⟩ |
    ⟨pid, mv, hact, ht, hmv, hj, hja, hl, hfx⟩
  · exact ⟨mv0, hmv0, rfl, rfl, rfl, Or.inl rfl, Or.inl ⟨rfl, rfl, rfl⟩⟩
  · by_cases hid : id = pid
    · subst hid
      rw [hmv0] at hmv
      cases hmv
      rcases hlr with ⟨ha, rfl⟩ | ⟨ha, rfl⟩
      · exact ⟨handleLeft dt mv0, Table.lookup_set_self _ _ _ _ hmv0, rfl, rfl, rfl,
          Or.inr ⟨hact, Or.inl ha, ht⟩, Or.inl ⟨rfl, rfl, rfl⟩⟩
      · exact ⟨handleRight dt mv0, Table.lookup_set_self _ _ _ _ hmv0, rfl, rfl, rfl,
          Or.inr ⟨hact, Or.inr ha, ht⟩, Or.inl ⟨rfl, rfl, rfl⟩⟩
    · have hl : m'.Movable.lookup id = some mv0 := by
        rcases hlr with ⟨_, rfl⟩ | ⟨_, rfl⟩ <;>
          simpa [Table.lookup_set_ne _ _ _ _ hid] using hmv0
      exact ⟨mv0, hl, rfl, rfl, rfl, Or.inl rfl, Or.inl ⟨rfl, rfl, rfl⟩⟩
  · obtain ⟨g, hg⟩ := jump_effect m pid _ m' id mv0 hfx hmv0
    by_cases hid : id = pid
    · subst hid
      rw [hmv0] at hmv
      cases hmv
      simp only [if_true] at hg
      exact ⟨_, hg, rfl, rfl, rfl, Or.inl rfl,
        Or.inr ⟨hact, hj, ht, hja, hl, rfl, rfl, rfl⟩⟩
    · simp only [hid, if_false] at hg
      exact ⟨_, hg, rfl, rfl, rfl, Or.inl rfl, Or.inl ⟨rfl, rfl, rfl⟩⟩

/-- An input that grants no jump leaves the positions, and the movable of every entity
that has no `Player`, as they are. -/
theorem handleInput_noJump (dt : ℚ) (m : Manager) (input : InputData) (m' : Manager)
    (h : handleInput dt m input = some m')
    (hno : ∀ pid mv, input.active = true → input.action = Action.JUMP →
      inputTarget m input = some pid → m.Movable.lookup pid = some mv →
      ¬ (mv.jumpAllowed = true ∧ mv.lastJump > 3 / 10)) :
    m'.Position = m.Position ∧ m'.Displayable = m.Displayable ∧ m'.Animated = m.Animated ∧
      ∀ id, m.Player.has id = false → m'.Movable.lookup id = m.Movable.lookup id := by
  rcases handleInput_cases dt m input m' h with rfl | ⟨pid, mv, hact, ht, hmv, hlr⟩ |
    ⟨pid, mv, hact, ht, hmv, hj, hja, hl, hfx⟩
  · exact ⟨rfl, rfl, rfl, fun _ _ => rfl⟩
  · have hp := (inputTarget_has m input pid ht).1
    have hne : ∀ id, m.Player.has id = false → id ≠ pid := by
      intro id hid he
      rw [he, hp] at hid
      cases hid
    rcases hlr with ⟨_, rfl⟩ | ⟨_, rfl⟩
    · exact ⟨rfl, rfl, rfl, fun id hid => Table.lookup_set_ne _ _ _ _ (hne id hid)⟩
    · exact ⟨rfl, rfl, rfl, fun id hid => Table.lookup_set_ne _ _ _ _ (hne id hid)⟩
  · exact absurd ⟨hja, hl⟩ (hno pid mv hact hj ht hmv)

/-! ## The frame, step by step -/

/-- The three stages of a returning `update`. -/
theorem update_parts {R : Type} (sat : SatLib R) (inputs : List InputData)
    (p : PhysicsProcessor) (dt : ℚ) (p' : PhysicsProcessor)
    (h : update sat inputs p dt = some p') :
    ∃ m1 p3, afterInputs inputs p dt = some m1 ∧
      (applyGravity dt m1).Movable.keys.foldlM (moveEntity sat)
        { p with manager := applyGravity dt m1 } = some p3 ∧
      p' = (if !p3.mapIsLoaded then loadMap p3 else p3) ∧
      p'.manager.Movable = p3.manager.Movable ∧ p'.manager.Player = p3.manager.Player := by
  simp only [update, updateMovables, Option.bind_eq_bind, Option.bind_eq_some,
    Option.pure_def, Option.some.injEq] at h
  obtain ⟨p3, ⟨m1, hm1, h3⟩, rfl⟩ := h
  refine ⟨m1, p3, hm1, h3, rfl, ?_, ?_⟩
  · split
    · exact (loadMap_movable p3).1
    · rfl
  · split
    · exact (loadMap_movable p3).2
    · rfl

theorem resetDx_lookup (movables : Table MovableData) (id : Nat) :
    (resetDx movables).lookup id = (movables.lookup id).map fun v => { v with dx := 0 } :=
  Table.lookup_mapVal movables (fun _ v => { v with dx := 0 }) id

theorem applyGravity_lookup (dt : ℚ) (m : Manager) (id : Nat) :
    (applyGravity dt m).Movable.lookup id =
      (m.Movable.lookup id).map fun v => if m.Player.has id then gravityStep dt v else v := by
  have h := Table.lookup_mapVal m.Movable
    (fun k v => if m.Player.has k then gravityStep dt v else v) id
  have he : (fun e : Nat × MovableData =>
      if m.Player.has e.1 then (e.1, gravityStep dt e.2) else e) =
      fun e => (e.1, if m.Player.has e.1 then gravityStep dt e.2 else e.2) := by
    funext e
    split <;> rfl
  simp only [applyGravity, he]
  exact h

theorem resetDx_same (m : Manager) :
    SameEntities m { m with Movable := resetDx m.Movable } :=
  ⟨rfl, rfl, rfl, rfl, by simp [resetDx, Table.keys, List.map_map, Function.comp_def],
    rfl, rfl, rfl⟩

/-- C16: `update` resets the horizontal delta of every movable at the start of the frame:
after a call of `update`, a movable entity `id` for which no active LEFT or RIGHT input
was handled in that frame has `dx = 0`, whatever its `dx` was before. -/
theorem dx_reset {R : Type} (sat : SatLib R) (inputs : List InputData)
    (p : PhysicsProcessor) (dt : ℚ) (p' : PhysicsProcessor) (id : Nat) (mv' : MovableData)
    (h : update sat inputs p dt = some p')
    (hmv : p'.manager.Movable.lookup id = some mv')
    (hno : ∀ input ∈ inputs, input.active = true →
      (input.action = Action.LEFT ∨ input.action = Action.RIGHT) →
      inputTarget p.manager input ≠ some id) :
    mv'.dx = 0 := by
  obtain ⟨m1, p3, hm1, h3, _, hM, _⟩ := update_parts sat inputs p dt p' h
  rw [hM] at hmv
  obtain ⟨hs, _, _⟩ := updateMovables_same sat inputs p dt p3 (by
    simp [updateMovables, hm1, h3])
  have hhas : p.manager.Movable.has id = true := by
    rw [← Table.has_of_keys_eq _ _ hs.2.2.2.2.1]
    exact (Table.has_eq_true _ _).2 ⟨mv', hmv⟩
  obtain ⟨mv, hmv0⟩ := (Table.has_eq_true _ _).1 hhas
  -- the input loop
  have hin := foldlM_invariant_mem (handleInput dt)
    (fun s => SameEntities p.manager s ∧ ∃ mv1, s.Movable.lookup id = some mv1 ∧ mv1.dx = 0)
    inputs _ m1
    (fun s a s' ha hs hstep => by
      obtain ⟨hse, mv1, hl1, hd1⟩ := hs
      obtain ⟨mv2, hl2, _, _, _, hdx, _⟩ := handleInput_movable dt s a s' id mv1 hstep hl1
      refine ⟨hse.trans (handleInput_same dt s a s' hstep), mv2, hl2, ?_⟩
      rcases hdx with hdx | ⟨hact, hlr, ht⟩
      · exact hdx.trans hd1
      · rw [inputTarget_congr p.manager s a a hse.1 hse.2.2.2.2.1 rfl] at ht
        exact absurd ht (hno a ha hact hlr))
    ⟨resetDx_same p.manager, { mv with dx := 0 }, by
      simp only
      rw [resetDx_lookup, hmv0]
      rfl, rfl⟩ hm1
  obtain ⟨_, mv1, hl1, hd1⟩ := hin
  -- gravity and the move loop
  have hg := applyGravity_lookup dt m1 id
  rw [hl1] at hg
  obtain ⟨mv3, hl3, hk⟩ := moveLoop_keeps sat _ _ p3 id _ h3 hg
  rw [hmv] at hl3
  cases hl3
  rw [hk.2.1]
  simp only
  split
  · exact hd1
  · exact hd1

theorem dx_reset_witness :
    sampleMoving.manager.Movable.lookup 1 = some ⟨200, 7, 0, 0, 1, true, 1, true⟩ ∧
    ∃ p', update sampleSat [sampleInput Action.JUMP] sampleMoving 16 = some p' ∧
      p'.manager.Movable.lookup 1 =
        some ⟨200, 0, -1168 / 125, -584, 1, false, 2 / 125, true⟩ ∧
      (0 : ℚ) = 0 := by
  obtain ⟨p', hp'⟩ := update_isSome sampleSat [sampleInput Action.JUMP] sampleMoving 16
    (by decide)
  have hl : (update sampleSat [sampleInput Action.JUMP] sampleMoving 16).bind
      (fun q => q.manager.Movable.lookup 1) =
      some ⟨200, 0, -1168 / 125, -584, 1, false, 2 / 125, true⟩ := by decide!
  rw [hp'] at hl
  exact ⟨rfl, p', hp', hl,
    dx_reset sampleSat _ sampleMoving 16 p' 1 _ hp' hl (by
      intro input hin _ hlr
      simp only [List.mem_singleton] at hin
      rw [hin] at hlr
      rcases hlr with h | h <;> cases h)⟩

/-! ## Entities without a `Player` -/

theorem Table.lookup_append_of_some {α : Type} (t t' : Table α) (k : Nat) (v : α)
    (h : t.lookup k = some v) : List.lookup k (t ++ t') = some v := by
  induction t with
  | nil => simp at h
  | cons e t ih =>
    obtain ⟨a, b⟩ := e
    by_cases hk : k = a
    · subst hk
      simp only [List.lookup_cons, beq_self_eq_true] at h
      simp [List.lookup_cons, h]
    · have hk2 : (k == a) = false := by simpa using hk
      simp only [List.lookup_cons, hk2] at h
      simp only [List.cons_append, List.lookup_cons, hk2]
      exact ih h

theorem createBox_fold_position (map : TileMap) (groups : List TileGroup) (m : Manager)
    (id : Nat) (pos : PositionData) (h : m.Position.lookup id = some pos) :
    (groups.foldl (createBox map) m).Position.lookup id = some pos := by
  induction groups generalizing m with
  | nil => exact h
  | cons g groups ih =>
    simp only [List.foldl_cons]
    apply ih
    simp only [createBox]
    exact Table.lookup_append_of_some _ _ _ _ h

/-- The call `loadMap` keeps the position of every entity that has one. -/
theorem loadMap_position (p : PhysicsProcessor) (id : Nat) (pos : PositionData)
    (h : p.manager.Position.lookup id = some pos) :
    (loadMap p).manager.Position.lookup id = some pos := by
  unfold loadMap
  generalize (p.manager.Map.map Prod.snd) = maps
  induction maps generalizing p with
  | nil => exact h
  | cons a maps ih =>
    simp only [List.foldl_cons]
    apply ih
    unfold loadOneMap
    split
    · exact h
    · exact createBox_fold_position _ _ _ id pos h

/-- C18: for an entity `id` that has no Player component, `checkCollision` does nothing:
it returns the processor unchanged, every component and the box cache included; and a
call of `update` in which no jump is granted leaves the Position and the Movable of
`id` unchanged, except that `dx` is reset to 0. -/
theorem non_player_untouched {R : Type} (sat : SatLib R) (inputs : List InputData)
    (p : PhysicsProcessor) (dt : ℚ) (id : Nat) (hpl : p.manager.Player.has id = false) :
    checkCollision sat p id = some p ∧
    ∀ p', update sat inputs p dt = some p' →
      (∀ input ∈ inputs, input.active = true → input.action = Action.JUMP →
        ∀ pid mv, inputTarget p.manager input = some pid →
          p.manager.Movable.lookup pid = some mv →
          ¬ (mv.jumpAllowed = true ∧ mv.lastJump > 3 / 10)) →
      (∀ mv, p.manager.Movable.lookup id = some mv →
        p'.manager.Movable.lookup id = some { mv with dx := 0 }) ∧
      (∀ pos, p.manager.Position.lookup id = some pos →
        p'.manager.Position.lookup id = some pos) := by
  refine ⟨checkCollision_noPlayer sat p id hpl, ?_⟩
  intro p' h hno
  obtain ⟨m1, p3, hm1, h3, hp', hM, _⟩ := update_parts sat inputs p dt p' h
  -- the input loop
  have hin := foldlM_invariant_mem (handleInput dt)
    (fun s => SameEntities p.manager s ∧ s.Position = p.manager.Position ∧
      (∀ k, p.manager.Player.has k = false →
        s.Movable.lookup k = (resetDx p.manager.Movable).lookup k) ∧
      (∀ k mv0, p.manager.Movable.lookup k = some mv0 →
        ∃ mv1, s.Movable.lookup k = some mv1 ∧ mv1.jumpAllowed = mv0.jumpAllowed ∧
          mv1.lastJump = mv0.lastJump))
    inputs _ m1
    (fun s a s' ha hs hstep => by
      obtain ⟨hse, hpos, hnp, hv⟩ := hs
      have hno' : ∀ pid mv, a.active = true → a.action = Action.JUMP →
          inputTarget s a = some pid → s.Movable.lookup pid = some mv →
          ¬ (mv.jumpAllowed = true ∧ mv.lastJump > 3 / 10) := by
        intro pid mv hact hj ht hmv
        rw [inputTarget_congr p.manager s a a hse.1 hse.2.2.2.2.1 rfl] at ht
        have hhas : p.manager.Movable.has pid = true := by
          rw [← Table.has_of_keys_eq _ _ hse.2.2.2.2.1]
          exact (Table.has_eq_true _ _).2 ⟨mv, hmv⟩
        obtain ⟨mv0, hmv0⟩ := (Table.has_eq_true _ _).1 hhas
        obtain ⟨mv1, hl1, hj1, hl2⟩ := hv pid mv0 hmv0
        rw [hmv] at hl1
        cases hl1
        rw [hj1, hl2]
        exact hno a ha hact hj pid mv0 ht hmv0
      obtain ⟨q1, _, _, q2⟩ := handleInput_noJump dt s a s' hstep hno'
      refine ⟨hse.trans (handleInput_same dt s a s' hstep), q1.trans hpos, ?_, ?_⟩
      · intro k hk
        rw [q2 k (by rw [hse.1]; exact hk)]
        exact hnp k hk
      · intro k mv0 hmv0
        obtain ⟨mv1, hl1, hj1, hl2⟩ := hv k mv0 hmv0
        obtain ⟨mv2, hl3, _, _, _, _, hvert⟩ := handleInput_movable dt s a s' k mv1 hstep hl1
        rcases hvert with ⟨_, e2, e3⟩ | ⟨hact, hj, ht, hja, hlj, _⟩
        · exact ⟨mv2, hl3, e2.trans hj1, e3.trans hl2⟩
        · exact absurd ⟨hja, hlj⟩ (hno' k mv1 hact hj ht hl1))
    ⟨resetDx_same p.manager, rfl, fun _ _ => rfl, fun k mv0 hmv0 =>
      ⟨{ mv0 with dx := 0 }, by
        simp only
        rw [resetDx_lookup, hmv0]
        rfl, rfl, rfl⟩⟩ hm1
  obtain ⟨hse, hpos, hnp, _⟩ := hin
  -- gravity and the move loop
  have hpl1 : m1.Player.has id = false := by rw [hse.1]; exact hpl
  obtain ⟨a1, a2⟩ := moveLoop_noPlayer sat _ _ p3 id h3 hpl1
  simp only at a1 a2
  have hg : (applyGravity dt m1).Movable.lookup id = (resetDx p.manager.Movable).lookup id := by
    rw [applyGravity_lookup, hpl1, hnp id hpl]
    cases (resetDx p.manager.Movable).lookup id <;> rfl
  have hgp : (applyGravity dt m1).Position = p.manager.Position := hpos
  constructor
  · intro mv hmv
    rw [hM, a1, hg, resetDx_lookup, hmv]
    rfl
  · intro pos hposl
    have h3p : p3.manager.Position.lookup id = some pos := by
      rw [a2, hgp]
      exact hposl
    rw [hp']
    split
    · exact loadMap_position p3 id pos h3p
    · exact h3p

theorem non_player_untouched_witness :
    checkCollision sampleSat (sampleProc 25) 2 = some (sampleProc 25) ∧
    ∃ p', update sampleSat [sampleInput Action.LEFT] (sampleProc 25) 16 = some p' ∧
      (∀ mv, (sampleProc 25).manager.Movable.lookup 2 = some mv →
        p'.manager.Movable.lookup 2 = some { mv with dx := 0 }) ∧
      (∀ pos, (sampleProc 25).manager.Position.lookup 2 = some pos →
        p'.manager.Position.lookup 2 = some pos) := by
  obtain ⟨p', hp'⟩ := update_isSome sampleSat [sampleInput Action.LEFT] (sampleProc 25) 16
    (by decide)
  have h := non_player_untouched sampleSat [sampleInput Action.LEFT] (sampleProc 25) 16 2 rfl
  exact ⟨h.1, p', hp', h.2 p' hp' (by
    intro input hin hact hj
    simp only [List.mem_singleton] at hin
    rw [hin] at hj
    cases hj)⟩

/-! ## `jumpAllowed` and the overlaps of a frame -/

theorem notRaised_chain {l1 l2 : List (ℚ × ℚ)} {a b c : MovableData}
    (h1 : NotRaised l1 a b) (h2 : NotRaised l2 b c) : NotRaised (l1 ++ l2) a c := by
  intro hc
  rcases h2 hc with hb | ⟨v, hv, hp⟩
  · rcases h1 hb with ha | ⟨v, hv, hp⟩
    · exact Or.inl ha
    · exact Or.inr ⟨v, List.mem_append_left _ hv, hp⟩
  · exact Or.inr ⟨v, List.mem_append_right _ hv, hp⟩

theorem notRaised_self (mv : MovableData) : NotRaised [] mv mv :=
  fun h => Or.inl h

/-- One iteration of the loop of `checkCollision` turns `jumpAllowed` on only when it
detects an overlap with a positive vertical component. -/
theorem collisionStep_notRaised {R : Type} (sat : SatLib R) (k : Nat)
    (movableBoxData : BoundingBoxData) (st : CollisionState R)
    (entry : Nat × BoundingBoxData) (st' : CollisionState R) (mv : MovableData)
    (h : collisionStep sat k movableBoxData st entry = some st')
    (hmv : st.proc.manager.Movable.lookup k = some mv) :
    ∃ mv', st'.proc.manager.Movable.lookup k = some mv' ∧
      NotRaised (stepOverlap sat k st entry).toList mv mv' := by
  rcases collisionStep_cases sat k movableBoxData st entry st' h with
    ⟨_, rfl⟩ | ⟨hne, boxes, r, hpr, hr⟩ | ⟨_, boxes, r, _, rfl⟩
  · exact ⟨mv, hmv, fun h => Or.inl h⟩
  · obtain ⟨_, _, _, _, _, _, _, _, _, _, _, hM⟩ :=
      resolve_spec sat k movableBoxData st boxes r st' hr
    have hso : stepOverlap sat k st entry = some (sat.overlapV r) := by
      simp [stepOverlap, hne, hpr]
    rcases hM with ⟨_, hM⟩ | ⟨_, moveData, hmd, hM⟩
    · rw [hM]
      exact ⟨mv, hmv, fun h => Or.inl h⟩
    · rw [hmv] at hmd
      cases hmd
      rw [hM, Table.lookup_set_self _ _ _ _ hmv]
      refine ⟨_, rfl, ?_⟩
      intro hja
      simp only at hja
      by_cases hy : (sat.overlapV r).2 > 0
      · right
        exact ⟨sat.overlapV r, by simp [hso], hy⟩
      · left
        simpa [hy] using hja
  · exact ⟨mv, hmv, fun h => Or.inl h⟩

/-- The loop of `checkCollision` turns `jumpAllowed` on only when one of the overlaps it
resolves has a positive vertical component. -/
theorem collisionFold_notRaised {R : Type} (sat : SatLib R) (k : Nat)
    (movableBoxData : BoundingBoxData) :
    ∀ (entries : Table BoundingBoxData) (st st' : CollisionState R) (log : List (ℚ × ℚ))
      (mv : MovableData),
      entries.foldlM (collisionStep sat k movableBoxData) st = some st' →
      collisionOverlaps sat k movableBoxData entries st = some log →
      st.proc.manager.Movable.lookup k = some mv →
      ∃ mv', st'.proc.manager.Movable.lookup k = some mv' ∧ NotRaised log mv mv' := by
  intro entries
  induction entries with
  | nil =>
    intro st st' log mv h hlog hmv
    simp only [List.foldlM_nil, Option.pure_def, Option.some.injEq] at h
    simp only [collisionOverlaps, Option.some.injEq] at hlog
    subst h
    subst hlog
    exact ⟨mv, hmv, notRaised_self mv⟩
  | cons e entries ih =>
    intro st st' log mv h hlog hmv
    simp only [List.foldlM_cons, Option.bind_eq_bind, Option.bind_eq_some] at h
    obtain ⟨st1, h1, h2⟩ := h
    simp only [collisionOverlaps, h1, Option.map_eq_some'] at hlog
    obtain ⟨rest, hrest, rfl⟩ := hlog
    obtain ⟨mv1, hl1, n1⟩ := collisionStep_notRaised sat k movableBoxData st e st1 mv h1 hmv
    obtain ⟨mv2, hl2, n2⟩ := ih st1 st' rest mv1 h2 hrest hl1
    exact ⟨mv2, hl2, notRaised_chain n1 n2⟩

theorem checkOverlaps_noPlayer {R : Type} (sat : SatLib R) (p : PhysicsProcessor) (k : Nat)
    (hpl : p.manager.Player.has k = false) : checkOverlaps sat p k = some [] := by
  simp [checkOverlaps, hpl]

theorem checkCollision_notRaised {R : Type} (sat : SatLib R) (p : PhysicsProcessor)
    (k : Nat) (p' : PhysicsProcessor) (log : List (ℚ × ℚ)) (mv : MovableData)
    (h : checkCollision sat p k = some p') (hlog : checkOverlaps sat p k = some log)
    (hmv : p.manager.Movable.lookup k = some mv) :
    ∃ mv', p'.manager.Movable.lookup k = some mv' ∧ NotRaised log mv mv' := by
  cases hpl : p.manager.Player.has k with
  | false =>
    rw [checkCollision_noPlayer sat p k hpl] at h
    rw [checkOverlaps_noPlayer sat p k hpl] at hlog
    cases h
    cases hlog
    exact ⟨mv, hmv, notRaised_self mv⟩
  | true =>
    obtain ⟨box, pos, st, hbox, hpos, hst, rfl⟩ := checkCollision_loop sat p k p' h hpl
    simp only [checkOverlaps, hpl, Bool.not_true, Bool.false_eq_true, if_false, hbox, hpos,
      Option.bind_eq_bind, Option.some_bind] at hlog
    exact collisionFold_notRaised sat k box _ _ st log mv hst hlog hmv

theorem moveOverlaps_noPlayer {R : Type} (sat : SatLib R) (p : PhysicsProcessor) (k : Nat)
    (hpl : p.manager.Player.has k = false) : moveOverlaps sat p k = some [] := by
  simp [moveOverlaps, hpl]

/-- The overlaps of the body of the move loop for a player are those of its two calls of
`checkCollision`. -/
theorem moveOverlaps_steps {R : Type} (sat : SatLib R) (p : PhysicsProcessor) (k : Nat)
    (log : List (ℚ × ℚ)) (p1 p2 p3 : PhysicsProcessor)
    (hpl : p.manager.Player.has k = true) (hlog : moveOverlaps sat p k = some log)
    (h1 : movedX p k = some p1) (h2 : checkCollision sat p1 k = some p2)
    (h3 : movedY p2 k = some p3) :
    ∃ l1 l2, checkOverlaps sat p1 k = some l1 ∧ checkOverlaps sat p3 k = some l2 ∧
      log = l1 ++ l2 := by
  simp only [moveOverlaps, hpl, Bool.not_true, Bool.false_eq_true, if_false, h1, h2, h3,
    Option.bind_eq_bind, Option.some_bind, Option.bind_eq_some, Option.pure_def,
    Option.some.injEq] at hlog
  obtain ⟨l1, hl1, l2, hl2, rfl⟩ := hlog
  exact ⟨l1, l2, hl1, hl2, rfl⟩

theorem moveEntity_notRaised {R : Type} (sat : SatLib R) (p : PhysicsProcessor) (k : Nat)
    (p' : PhysicsProcessor) (log : List (ℚ × ℚ)) (mv : MovableData)
    (h : moveEntity sat p k = some p') (hlog : moveOverlaps sat p k = some log)
    (hmv : p.manager.Movable.lookup k = some mv) :
    ∃ mv', p'.manager.Movable.lookup k = some mv' ∧ NotRaised log mv mv' := by
  cases hpl : p.manager.Player.has k with
  | false =>
    rw [moveEntity_noPlayer sat p k hpl] at h
    rw [moveOverlaps_noPlayer sat p k hpl] at hlog
    cases h
    cases hlog
    exact ⟨mv, hmv, notRaised_self mv⟩
  | true =>
    obtain ⟨p1, p2, p3, h1, h2, h3, h4⟩ := moveEntity_steps sat p k p' hpl h
    obtain ⟨l1, l2, hl1, hl2, rfl⟩ := moveOverlaps_steps sat p k log p1 p2 p3 hpl hlog h1 h2 h3
    obtain ⟨_, _, _, _, rfl⟩ := movedX_spec p k p1 h1
    obtain ⟨_, _, _, _, rfl⟩ := movedY_spec p2 k p3 h3
    obtain ⟨mv2, a1, n1⟩ := checkCollision_notRaised sat _ k p2 l1 mv h2 hl1 hmv
    obtain ⟨mv3, b1, n2⟩ := checkCollision_notRaised sat _ k p' l2 mv2 h4 hl2 a1
    exact ⟨mv3, b1, notRaised_chain n1 n2⟩

/-- The move loop turns the `jumpAllowed` of `id` on only when one of the overlaps
resolved for `id` has a positive vertical component. -/
theorem moveLoop_notRaised {R : Type} (sat : SatLib R) (id : Nat) :
    ∀ (keys : List Nat) (p p' : PhysicsProcessor) (log : List (ℚ × ℚ)) (mv : MovableData),
      keys.foldlM (moveEntity sat) p = some p' →
      moveLoopOverlaps sat id keys p = some log →
      p.manager.Movable.lookup id = some mv →
      ∃ mv', p'.manager.Movable.lookup id = some mv' ∧ NotRaised log mv mv' := by
  intro keys
  induction keys with
  | nil =>
    intro p p' log mv h hlog hmv
    simp only [List.foldlM_nil, Option.pure_def, Option.some.injEq] at h
    simp only [moveLoopOverlaps, Option.some.injEq] at hlog
    subst h
    subst hlog
    exact ⟨mv, hmv, notRaised_self mv⟩
  | cons k keys ih =>
    intro p p' log mv h hlog hmv
    simp only [List.foldlM_cons, Option.bind_eq_bind, Option.bind_eq_some] at h
    obtain ⟨p1, h1, h2⟩ := h
    simp only [moveLoopOverlaps, h1, Option.bind_eq_some, Option.map_eq_some'] at hlog
    obtain ⟨l, hl, rest, hrest, rfl⟩ := hlog
    by_cases hk : k = id
    · subst hk
      simp only [if_true] at hl
      obtain ⟨mv1, hl1, n1⟩ := moveEntity_notRaised sat p k p1 l mv h1 hl hmv
      obtain ⟨mv2, hl2, n2⟩ := ih p1 p' rest mv1 h2 hrest hl1
      exact ⟨mv2, hl2, notRaised_chain n1 n2⟩
    · simp only [hk, if_false, Option.some.injEq] at hl
      subst hl
      obtain ⟨e1, _⟩ := moveEntity_other sat p k p1 id h1 (Or.inl (Ne.symm hk))
      obtain ⟨mv2, hl2, n2⟩ := ih p1 p' rest mv h2 hrest (by rw [e1]; exact hmv)
      exact ⟨mv2, hl2, by simpa using n2⟩

theorem frameOverlaps_loop {R : Type} (sat : SatLib R) (inputs : List InputData)
    (p : PhysicsProcessor) (dt : ℚ) (id : Nat) (log : List (ℚ × ℚ)) (m1 : Manager)
    (hm1 : afterInputs inputs p dt = some m1)
    (hlog : frameOverlaps sat inputs p dt id = some log) :
    moveLoopOverlaps sat id (applyGravity dt m1).Movable.keys
      { p with manager := applyGravity dt m1 } = some log := by
  simpa [frameOverlaps, hm1] using hlog

/-- C11: for a player entity `id` with a Movable: if the `lastJump` that `update` leaves,
which is the value right after `dt/1000` was added, is below 1, and none of the overlaps
resolved for `id` during the frame has `overlapV.y > 0`, then `jumpAllowed` is false when
`update` returns. -/
theorem no_jump_before_one_second {R : Type} (sat : SatLib R) (inputs : List InputData)
    (p : PhysicsProcessor) (dt : ℚ) (p' : PhysicsProcessor) (id : Nat) (mv' : MovableData)
    (log : List (ℚ × ℚ)) (h : update sat inputs p dt = some p')
    (hpl : p.manager.Player.has id = true)
    (hmv : p'.manager.Movable.lookup id = some mv') (hlj : mv'.lastJump < 1)
    (hlog : frameOverlaps sat inputs p dt id = some log) (hno : ∀ v ∈ log, ¬ v.2 > 0) :
    mv'.jumpAllowed = false ∧
    ∃ m1 mv1, afterInputs inputs p dt = some m1 ∧ m1.Movable.lookup id = some mv1 ∧
      mv'.lastJump = mv1.lastJump + dt / 1000 := by
  obtain ⟨m1, p3, hm1, h3, _, hM, _⟩ := update_parts sat inputs p dt p' h
  rw [hM] at hmv
  have hs := afterInputs_same inputs p dt m1 hm1
  obtain ⟨hs3, _, _⟩ := updateMovables_same sat inputs p dt p3 (by
    simp [updateMovables, hm1, h3])
  have hhas : m1.Movable.has id = true := by
    rw [Table.has_of_keys_eq _ _ hs.2.2.2.2.1, ← Table.has_of_keys_eq _ _ hs3.2.2.2.2.1]
    exact (Table.has_eq_true _ _).2 ⟨mv', hmv⟩
  obtain ⟨mv1, hmv1⟩ := (Table.has_eq_true _ _).1 hhas
  have hg := applyGravity_lookup dt m1 id
  rw [hmv1, hs.1, hpl] at hg
  simp only [Option.map_some', if_true] at hg
  obtain ⟨mv3, hl3, hk⟩ := moveLoop_keeps sat _ _ p3 id _ h3 hg
  obtain ⟨mv4, hl4, hn⟩ := moveLoop_notRaised sat id _ _ p3 log _ h3
    (frameOverlaps_loop sat inputs p dt id log m1 hm1 hlog) hg
  rw [hmv] at hl3 hl4
  cases hl3
  cases hl4
  have hlast : mv'.lastJump = mv1.lastJump + dt / 1000 := hk.2.2.2.2.1
  refine ⟨?_, m1, mv1, hm1, hmv1, hlast⟩
  cases hja : mv'.jumpAllowed with
  | false => rfl
  | true =>
    rcases hn hja with hg1 | ⟨v, hv, hp⟩
    · have hlt : mv1.lastJump + dt / 1000 < 1 := by rw [← hlast]; exact hlj
      simp [gravityStep, hlt] at hg1
    · exact absurd hp (hno v hv)

theorem no_jump_before_one_second_witness :
    ∃ p', update sampleSat [sampleInput Action.JUMP] (sampleProc 10) 16 = some p' ∧
      p'.manager.Movable.lookup 1 = some ⟨200, 0, -1168 / 125, -584, 1, false, 2 / 125, true⟩ ∧
      (false = false ∧
        ∃ m1 mv1, afterInputs [sampleInput Action.JUMP] (sampleProc 10) 16 = some m1 ∧
          m1.Movable.lookup 1 = some mv1 ∧ (2 : ℚ) / 125 = mv1.lastJump + 16 / 1000) := by
  obtain ⟨p', hp'⟩ := update_isSome sampleSat [sampleInput Action.JUMP] (sampleProc 10) 16
    (by decide)
  have hl : (update sampleSat [sampleInput Action.JUMP] (sampleProc 10) 16).bind
      (fun q => q.manager.Movable.lookup 1) =
      some ⟨200, 0, -1168 / 125, -584, 1, false, 2 / 125, true⟩ := by decide!
  rw [hp'] at hl
  exact ⟨p', hp', hl, no_jump_before_one_second sampleSat [sampleInput Action.JUMP]
    (sampleProc 10) 16 p' 1 _ [] hp' rfl hl (by norm_num) (by decide!) (by simp)⟩

/-- C15: `update` turns the `jumpAllowed` of a movable from false to true only inside
`checkCollision`, when an overlap with `overlapV.y > 0` is resolved for it: in a frame in
which none of the overlaps resolved for `id` has `overlapV.y > 0`, `jumpAllowed` false
before `update` gives `jumpAllowed` false after it, and no jump is granted to `id` in that
frame: after the input loop its `speedY` and `lastJump` are those before the call. -/
theorem jump_needs_grounding {R : Type} (sat : SatLib R) (inputs : List InputData)
    (p : PhysicsProcessor) (dt : ℚ) (p' : PhysicsProcessor) (id : Nat) (mv : MovableData)
    (log : List (ℚ × ℚ)) (h : update sat inputs p dt = some p')
    (hmv : p.manager.Movable.lookup id = some mv) (hja : mv.jumpAllowed = false)
    (hlog : frameOverlaps sat inputs p dt id = some log) (hno : ∀ v ∈ log, ¬ v.2 > 0) :
    (∃ mv', p'.manager.Movable.lookup id = some mv' ∧ mv'.jumpAllowed = false) ∧
    ∃ m1 mv1, afterInputs inputs p dt = some m1 ∧ m1.Movable.lookup id = some mv1 ∧
      mv1.jumpAllowed = false ∧ mv1.speedY = mv.speedY ∧ mv1.lastJump = mv.lastJump := by
  obtain ⟨m1, p3, hm1, h3, _, hM, _⟩ := update_parts sat inputs p dt p' h
  -- the input loop
  have hin := foldlM_invariant (handleInput dt)
    (fun s => ∃ mv1, s.Movable.lookup id = some mv1 ∧ mv1.jumpAllowed = false ∧
      mv1.speedY = mv.speedY ∧ mv1.lastJump = mv.lastJump)
    (fun s a s' hs hstep => by
      obtain ⟨mv1, hl1, hj1, hs1, hlj1⟩ := hs
      obtain ⟨mv2, hl2, _, _, _, _, hvert⟩ := handleInput_movable dt s a s' id mv1 hstep hl1
      rcases hvert with ⟨e1, e2, e3⟩ | ⟨_, _, _, hgr, _⟩
      · exact ⟨mv2, hl2, e2.trans hj1, e1.trans hs1, e3.trans hlj1⟩
      · rw [hj1] at hgr
        cases hgr)
    inputs _ m1
    ⟨{ mv with dx := 0 }, by
      simp only
      rw [resetDx_lookup, hmv]
      rfl, hja, rfl, rfl⟩ hm1
  obtain ⟨mv1, hl1, hj1, hs1, hlj1⟩ := hin
  refine ⟨?_, m1, mv1, hm1, hl1, hj1, hs1, hlj1⟩
  -- gravity and the move loop
  have hg := applyGravity_lookup dt m1 id
  rw [hl1] at hg
  simp only [Option.map_some'] at hg
  obtain ⟨mv4, hl4, hn⟩ := moveLoop_notRaised sat id _ _ p3 log _ h3
    (frameOverlaps_loop sat inputs p dt id log m1 hm1 hlog) hg
  rw [hM]
  refine ⟨mv4, hl4, ?_⟩
  cases hja4 : mv4.jumpAllowed with
  | false => rfl
  | true =>
    rcases hn hja4 with hg1 | ⟨v, hv, hp⟩
    · split at hg1
      · simp only [gravityStep, hj1] at hg1
        split at hg1 <;> cases hg1
      · rw [hj1] at hg1
        cases hg1
    · exact absurd hp (hno v hv)

theorem jump_needs_grounding_witness :
    ∃ p', update sampleSat [sampleInput Action.JUMP] sampleAirborne 16 = some p' ∧
      ((∃ mv', p'.manager.Movable.lookup 1 = some mv' ∧ mv'.jumpAllowed = false) ∧
      ∃ m1 mv1, afterInputs [sampleInput Action.JUMP] sampleAirborne 16 = some m1 ∧
        m1.Movable.lookup 1 = some mv1 ∧
        mv1.jumpAllowed = false ∧ mv1.speedY = (0 : ℚ) ∧ mv1.lastJump = (5 : ℚ)) := by
  obtain ⟨p', hp'⟩ := update_isSome sampleSat [sampleInput Action.JUMP] sampleAirborne 16
    (by decide)
  exact ⟨p', hp', jump_needs_grounding sampleSat [sampleInput Action.JUMP] sampleAirborne 16
    p' 1 ⟨200, 0, 0, 0, 1, false, 5, true⟩ [] hp' rfl rfl (by decide!) (by simp)⟩

/-! ## Vertical groups -/

theorem columnTiles_succ (i mapWidth n : Nat) :
    columnTiles i mapWidth (n + 1) = i :: columnTiles (i + mapWidth) mapWidth n := by
  unfold columnTiles
  rw [List.range_succ_eq_map, List.map_cons, List.map_map]
  simp only [Nat.zero_mul, Nat.add_zero, List.cons.injEq, true_and]
  apply List.map_congr_left
  intro a _
  simp only [Function.comp_apply, Nat.succ_eq_add_one]
  ring

theorem mem_columnTiles (i mapWidth n t : Nat) :
    t ∈ columnTiles i mapWidth n ↔ ∃ a, a < n ∧ t = i + a * mapWidth := by
  unfold columnTiles
  simp only [List.mem_map, List.mem_range]
  constructor
  · rintro ⟨a, ha, rfl⟩
    exact ⟨a, ha, rfl⟩
  · rintro ⟨a, ha, rfl⟩
    exact ⟨a, ha, rfl⟩

/-- The column loop pushes `n` tiles of the column from `k`: all are non-zero and
unmarked, and the run ends at the bound or at a zero or marked tile. -/
theorem columnLoop_spec (platformTiles : List Nat) (mapWidth : Nat) (hw : 0 < mapWidth) :
    ∀ (count k : Nat) (markedTiles combinedBox : List Nat) (horizontalBox : Bool),
      ∃ n, n ≤ count ∧
        columnLoop platformTiles mapWidth count k markedTiles combinedBox horizontalBox =
          ((columnTiles k mapWidth n).reverse ++ markedTiles,
            combinedBox ++ columnTiles k mapWidth n,
            if n = 0 then horizontalBox else false) ∧
        (∀ t ∈ columnTiles k mapWidth n,
          tileIsZero platformTiles t = false ∧ isMarked markedTiles t = false) ∧
        (n < count →
          tileIsZero platformTiles (k + n * mapWidth) = true ∨
            isMarked markedTiles (k + n * mapWidth) = true) := by
  intro count
  induction count with
  | zero =>
    intro k markedTiles combinedBox horizontalBox
    exact ⟨0, le_refl _, by simp [columnLoop, columnTiles], fun t ht => by
      simp [columnTiles] at ht, fun h => by omega⟩
  | succ count ih =>
    intro k markedTiles combinedBox horizontalBox
    by_cases hstop : (tileIsZero platformTiles k || isMarked markedTiles k) = true
    · refine ⟨0, Nat.zero_le _, by simp [columnLoop, hstop, columnTiles], fun t ht => by
        simp [columnTiles] at ht, fun _ => ?_⟩
      simpa [Bool.or_eq_true] using hstop
    · obtain ⟨n, hn, hrun, hall, hend⟩ := ih (k + mapWidth) (k :: markedTiles)
        (combinedBox ++ [k]) false
      have hk : tileIsZero platformTiles k = false ∧ isMarked markedTiles k = false := by
        simpa [Bool.or_eq_true, not_or] using hstop
      refine ⟨n + 1, Nat.succ_le_succ hn, ?_, ?_, ?_⟩
      · simp only [columnLoop, hstop]
        rw [if_neg (by simp), hrun, columnTiles_succ]
        simp
      · intro t ht
        rw [columnTiles_succ] at ht
        rcases List.mem_cons.1 ht with rfl | ht
        · exact hk
        · obtain ⟨a, b⟩ := hall t ht
          rw [isMarked_cons] at b
          simp only [Bool.or_eq_false_iff] at b
          exact ⟨a, b.2⟩
      · intro hlt
        have := hend (by omega)
        rw [isMarked_cons] at this
        have hpos : 0 < n * mapWidth + mapWidth := by omega
        have hne : (k + mapWidth + n * mapWidth == k) = false := by
          rw [beq_eq_false_iff_ne]
          omega
        rw [hne, Bool.false_or] at this
        have e : k + (n + 1) * mapWidth = k + mapWidth + n * mapWidth := by ring
        rw [e]
        exact this

/-- A group that `mergeFrom` returns with `horizontalBox` false is the seed followed by
at least one tile of its column, and the row loop gave nothing: the seed is at the end of
its row, or the tile on its right is zero or marked. -/
theorem mergeFrom_vertical (platformTiles : List Nat) (mapWidth mapHeight i : Nat)
    (markedTiles : List Nat) (hw : 0 < mapWidth)
    (h : (mergeFrom platformTiles mapWidth mapHeight i markedTiles).2.horizontalBox = false) :
    ∃ n, 1 ≤ n ∧ n ≤ (columnEnd mapWidth mapHeight - i) / mapWidth ∧
      (mergeFrom platformTiles mapWidth mapHeight i markedTiles).2.combinedBox =
        columnTiles i mapWidth (n + 1) ∧
      (∀ a, 1 ≤ a → a ≤ n →
        tileIsZero platformTiles (i + a * mapWidth) = false ∧
          isMarked markedTiles (i + a * mapWidth) = false) ∧
      (rowEnd mapWidth i - i = 0 ∨ tileIsZero platformTiles (i + 1) = true ∨
        isMarked markedTiles (i + 1) = true) := by
  obtain ⟨n0, hn0, hrun, _, hend⟩ := rowLoop_spec platformTiles (rowEnd mapWidth i - i)
    (i + 1) (i :: markedTiles) [i]
  unfold mergeFrom at h ⊢
  simp only [hrun] at h ⊢
  by_cases hlen : ([i] ++ List.range' (i + 1) n0).length = 1
  · have hn00 : n0 = 0 := by
      simp only [List.length_append, List.length_singleton, List.length_range'] at hlen
      omega
    subst hn00
    simp only [List.range'_zero, List.append_nil, List.reverse_nil, List.nil_append,
      List.length_singleton, if_true] at h ⊢
    obtain ⟨n, hn, hcol, hall, _⟩ := columnLoop_spec platformTiles mapWidth hw
      ((columnEnd mapWidth mapHeight - i) / mapWidth) (i + mapWidth) (i :: markedTiles) [i]
      true
    rw [hcol] at h ⊢
    simp only at h ⊢
    have hn1 : n ≠ 0 := by
      intro h0
      rw [h0] at h
      simp at h
    refine ⟨n, Nat.one_le_iff_ne_zero.2 hn1, hn, ?_, ?_, ?_⟩
    · rw [columnTiles_succ]
      rfl
    · intro a ha1 ha2
      have hmem : i + a * mapWidth ∈ columnTiles (i + mapWidth) mapWidth n := by
        rw [mem_columnTiles]
        refine ⟨a - 1, by omega, ?_⟩
        have : a = (a - 1) + 1 := by omega
        conv_lhs => rw [this]
        ring
      obtain ⟨z, mk⟩ := hall _ hmem
      rw [isMarked_cons] at mk
      simp only [Bool.or_eq_false_iff] at mk
      exact ⟨z, mk.2⟩
    · by_cases hc : rowEnd mapWidth i - i = 0
      · exact Or.inl hc
      · right
        rcases hend (by omega) with hz | hm
        · exact Or.inl (by simpa using hz)
        · rw [isMarked_cons] at hm
          have hne : (i + 1 + 0 == i) = false := by
            rw [beq_eq_false_iff_ne]
            omega
          rw [hne, Bool.false_or] at hm
          exact Or.inr (by simpa using hm)
  · rw [if_neg hlen] at h
    simp at h

/-! ## Every emitted group -/

/-- A property of the group made at each seed holds for every group of the scan. The
property may use that the seed is non-zero and unmarked, that every tile before it is zero
or marked, and that the marked tiles are those of the groups emitted earlier. -/
theorem scanLoop_each (platformTiles : List Nat) (mapWidth mapHeight N : Nat)
    (P : List TileGroup → TileGroup → Prop)
    (hP : ∀ (i : Nat) (markedTiles : List Nat) (earlier : List TileGroup),
      i < N → tileIsZero platformTiles i = false → isMarked markedTiles i = false →
      (∀ t, t < i → tileIsZero platformTiles t = true ∨ t ∈ markedTiles) →
      (∀ t, t ∈ markedTiles ↔ ∃ g' ∈ earlier, t ∈ g'.combinedBox) →
      P earlier (mergeFrom platformTiles mapWidth mapHeight i markedTiles).2) :
    ∀ (count i : Nat) (markedTiles : List Nat) (earlier : List TileGroup),
      i + count = N →
      (∀ t, t < i → tileIsZero platformTiles t = true ∨ t ∈ markedTiles) →
      (∀ t, t ∈ markedTiles ↔ ∃ g' ∈ earlier, t ∈ g'.combinedBox) →
      ∀ (pre : List TileGroup) (g : TileGroup) (post : List TileGroup),
        scanLoop platformTiles mapWidth mapHeight count i markedTiles = pre ++ g :: post →
        P (earlier ++ pre) g := by
  intro count
  induction count with
  | zero =>
    intro i markedTiles earlier _ _ _ pre g post hscan
    simp [scanLoop] at hscan
  | succ count ih =>
    intro i markedTiles earlier hN hbefore hmarked pre g post hscan
    simp only [scanLoop] at hscan
    split at hscan
    · rename_i hskip
      apply ih (i + 1) markedTiles earlier (by omega) _ hmarked pre g post hscan
      intro t ht
      by_cases hti : t = i
      · rw [hti]
        simpa [Bool.or_eq_true, isMarked] using hskip
      · exact hbefore t (by omega)
    · rename_i hskip
      have hseed : tileIsZero platformTiles i = false ∧ isMarked markedTiles i = false := by
        simpa [Bool.or_eq_true, not_or] using hskip
      obtain ⟨_, hin, hmk⟩ := mergeFrom_marks platformTiles mapWidth mapHeight i markedTiles
      cases pre with
      | nil =>
        simp only [List.nil_append, List.cons.injEq] at hscan
        obtain ⟨rfl, _⟩ := hscan
        rw [List.append_nil]
        exact hP i markedTiles earlier (by omega) hseed.1 hseed.2 hbefore hmarked
      | cons g0 pre =>
        simp only [List.cons_append, List.cons.injEq] at hscan
        obtain ⟨rfl, hrest⟩ := hscan
        have := ih (i + 1) _ (earlier ++
          [(mergeFrom platformTiles mapWidth mapHeight i markedTiles).2]) (by omega) ?_ ?_
          pre g post hrest
        · simpa [List.append_assoc] using this
        · intro t ht
          by_cases hti : t = i
          · rw [hti]
            exact Or.inr ((hmk i).2 (Or.inl hin))
          · rcases hbefore t (by omega) with hz | hm
            · exact Or.inl hz
            · exact Or.inr ((hmk t).2 (Or.inr hm))
        · intro t
          rw [hmk t, hmarked t]
          simp only [List.mem_append, List.mem_singleton]
          constructor
          · rintro (hc | ⟨g', hg', htg⟩)
            · exact ⟨_, Or.inr rfl, hc⟩
            · exact ⟨g', Or.inl hg', htg⟩
          · rintro ⟨g', hg' | rfl, htg⟩
            · exact Or.inr ⟨g', hg', htg⟩
            · exact Or.inl htg

theorem mergeFrom_seed (platformTiles : List Nat) (mapWidth mapHeight i : Nat)
    (markedTiles : List Nat) :
    (mergeFrom platformTiles mapWidth mapHeight i markedTiles).2.i = i :=
  (mergeFrom_marks platformTiles mapWidth mapHeight i markedTiles).1

theorem mergeFrom_shaped (platformTiles : List Nat) (mapWidth mapHeight i : Nat)
    (markedTiles : List Nat) (earlier : List TileGroup) (hw : 0 < mapWidth)
    (hmarked : ∀ t, t ∈ markedTiles ↔ ∃ g' ∈ earlier, t ∈ g'.combinedBox) :
    ShapedGroup platformTiles mapWidth earlier
      (mergeFrom platformTiles mapWidth mapHeight i markedTiles).2 := by
  constructor
  · intro hv
    obtain ⟨n, hn1, _, hbox, _, hrow⟩ :=
      mergeFrom_vertical platformTiles mapWidth mapHeight i markedTiles hw hv
    rw [mergeFrom_seed, hbox]
    have hlen : (columnTiles i mapWidth (n + 1)).length = n + 1 := by simp [columnTiles]
    rw [hlen]
    refine ⟨by omega, rfl, ?_⟩
    rcases hrow with h0 | hz | hm
    · left
      rw [rowEnd_sub mapWidth i hw] at h0
      have := Nat.mod_lt i hw
      omega
    · exact Or.inr (Or.inl hz)
    · exact Or.inr (Or.inr ((hmarked _).1 ((isMarked_iff _ _).1 hm)))
  · intro hh
    obtain ⟨n, _, hm, _, _⟩ :=
      mergeFrom_horizontal platformTiles mapWidth mapHeight i markedTiles hh
    rw [hm]
    simp

theorem createBox_eq (map : TileMap) (m : Manager) (g : TileGroup) :
    createBox map m g =
      { m with
        nextId := m.nextId + 1
        BoundingBox := m.BoundingBox ++ [(m.nextId, groupBox map g)]
        Position := m.Position ++ [(m.nextId, groupPosition map g)] } := by
  unfold createBox groupBox groupPosition
  split <;> simp_all

/-- The entities that the loop of `loadMap` creates: one per group, in order, with
consecutive identifiers from `nextId`. -/
theorem createBox_fold (map : TileMap) (groups : List TileGroup) (m : Manager) :
    (groups.foldl (createBox map) m).BoundingBox =
      m.BoundingBox ++ (List.enumFrom m.nextId groups).map
        (fun jg => (jg.1, groupBox map jg.2)) ∧
    (groups.foldl (createBox map) m).Position =
      m.Position ++ (List.enumFrom m.nextId groups).map
        (fun jg => (jg.1, groupPosition map jg.2)) := by
  induction groups generalizing m with
  | nil => simp
  | cons g groups ih =>
    simp only [List.foldl_cons]
    obtain ⟨h1, h2⟩ := ih (createBox map m g)
    rw [h1, h2, createBox_eq]
    simp [List.enumFrom_cons]

/-- C13: for a store with one map, `loadMap` creates one entity per group, positioned at the seed tile of the group:
Position `((i mod mapWidth) * tileWidth, floor(i / mapWidth) * tileHeight)`. A vertical
group gets a box of width `tileWidth` and height `tileHeight * run length`, with run
length at least 2, and is emitted only for a seed whose horizontal run has length 1: its
right-hand neighbour in the same row is empty, already merged, or absent. Every other
group is horizontal, with a box of width `tileWidth * run length` and height
`tileHeight`. -/
theorem box_orientation (p : PhysicsProcessor) (mid : Nat) (map : TileMap)
    (hmap : p.manager.Map = [(mid, ⟨some map⟩)]) (hw : 0 < map.sizeX) :
    (loadMap p).manager.BoundingBox =
      p.manager.BoundingBox ++
        (List.enumFrom p.manager.nextId
          (mergeTiles (collisionTiles map.layers) map.sizeX map.sizeY)).map
          (fun jg => (jg.1, groupBox map jg.2)) ∧
    (loadMap p).manager.Position =
      p.manager.Position ++
        (List.enumFrom p.manager.nextId
          (mergeTiles (collisionTiles map.layers) map.sizeX map.sizeY)).map
          (fun jg => (jg.1, groupPosition map jg.2)) ∧
    (∀ g, groupBox map g =
        (if g.horizontalBox then
          ⟨0, 0, map.tileWidth * g.combinedBox.length, map.tileHeight⟩
        else ⟨0, 0, map.tileWidth, map.tileHeight * g.combinedBox.length⟩) ∧
      groupPosition map g =
        ⟨((g.i % map.sizeX : Nat) : ℚ) * map.tileWidth,
          ((g.i / map.sizeX : Nat) : ℚ) * map.tileHeight⟩) ∧
    ∀ pre g post,
      mergeTiles (collisionTiles map.layers) map.sizeX map.sizeY = pre ++ g :: post →
      ShapedGroup (collisionTiles map.layers) map.sizeX pre g := by
  have hload : loadMap p = loadOneMap p ⟨some map⟩ := by
    unfold loadMap
    rw [hmap]
    rfl
  rw [hload]
  refine ⟨(createBox_fold map _ p.manager).1, (createBox_fold map _ p.manager).2,
    fun g => ⟨rfl, rfl⟩, ?_⟩
  intro pre g post hscan
  have := scanLoop_each (collisionTiles map.layers) map.sizeX map.sizeY
    (collisionTiles map.layers).length
    (ShapedGroup (collisionTiles map.layers) map.sizeX)
    (fun i markedTiles earlier _ _ _ _ hmarked =>
      mergeFrom_shaped _ _ _ i markedTiles earlier hw hmarked)
    (collisionTiles map.layers).length 0 [] [] (by omega) (fun t ht => by omega)
    (fun t => by simp) pre g post hscan
  simpa using this

theorem box_orientation_witness :
    (loadMap sampleColumnUnloaded).manager.BoundingBox =
      sampleColumnUnloaded.manager.BoundingBox ++
        (List.enumFrom sampleColumnUnloaded.manager.nextId
          (mergeTiles (collisionTiles sampleColumnMap.layers) sampleColumnMap.sizeX
            sampleColumnMap.sizeY)).map
          (fun jg => (jg.1, groupBox sampleColumnMap jg.2)) ∧
    (loadMap sampleColumnUnloaded).manager.Position =
      sampleColumnUnloaded.manager.Position ++
        (List.enumFrom sampleColumnUnloaded.manager.nextId
          (mergeTiles (collisionTiles sampleColumnMap.layers) sampleColumnMap.sizeX
            sampleColumnMap.sizeY)).map
          (fun jg => (jg.1, groupPosition sampleColumnMap jg.2)) ∧
    (∀ g, groupBox sampleColumnMap g =
        (if g.horizontalBox then
          ⟨0, 0, sampleColumnMap.tileWidth * g.combinedBox.length, sampleColumnMap.tileHeight⟩
        else
          ⟨0, 0, sampleColumnMap.tileWidth,
            sampleColumnMap.tileHeight * g.combinedBox.length⟩) ∧
      groupPosition sampleColumnMap g =
        ⟨((g.i % sampleColumnMap.sizeX : Nat) : ℚ) * sampleColumnMap.tileWidth,
          ((g.i / sampleColumnMap.sizeX : Nat) : ℚ) * sampleColumnMap.tileHeight⟩) ∧
    ∀ pre g post,
      mergeTiles (collisionTiles sampleColumnMap.layers) sampleColumnMap.sizeX
        sampleColumnMap.sizeY = pre ++ g :: post →
      ShapedGroup (collisionTiles sampleColumnMap.layers) sampleColumnMap.sizeX pre g :=
  box_orientation sampleColumnUnloaded 3 sampleColumnMap rfl (by decide)

/-! ## Tiles and boxes -/

theorem row_run_iff (mapWidth i len t : Nat) (hw : 0 < mapWidth)
    (hrow : i % mapWidth + len ≤ mapWidth) :
    (i ≤ t ∧ t < i + len) ↔
      (t / mapWidth = i / mapWidth ∧ i % mapWidth ≤ t % mapWidth ∧
        t % mapWidth < i % mapWidth + len) := by
  have hi := Nat.div_add_mod i mapWidth
  have ht := Nat.div_add_mod t mapWidth
  constructor
  · rintro ⟨h1, h2⟩
    have hx : i % mapWidth + (t - i) < mapWidth := by omega
    have e : t = (i % mapWidth + (t - i)) + mapWidth * (i / mapWidth) := by omega
    have hd : t / mapWidth = i / mapWidth := by
      rw [e, Nat.add_mul_div_left _ _ hw, Nat.div_eq_of_lt hx, Nat.zero_add]
    have hm : t % mapWidth = i % mapWidth + (t - i) := by
      conv_lhs => rw [e]
      rw [Nat.add_mul_mod_self_left, Nat.mod_eq_of_lt hx]
    exact ⟨hd, by omega, by omega⟩
  · rintro ⟨h1, h2, h3⟩
    rw [h1] at ht
    omega

theorem column_run_iff (mapWidth i len t : Nat) (hw : 0 < mapWidth) :
    (∃ a, a < len ∧ t = i + a * mapWidth) ↔
      (t % mapWidth = i % mapWidth ∧ i / mapWidth ≤ t / mapWidth ∧
        t / mapWidth < i / mapWidth + len) := by
  constructor
  · rintro ⟨a, ha, rfl⟩
    rw [Nat.add_mul_mod_self_right, Nat.add_mul_div_right _ _ hw]
    exact ⟨rfl, by omega, by omega⟩
  · rintro ⟨h1, h2, h3⟩
    have hi := Nat.div_add_mod i mapWidth
    have ht := Nat.div_add_mod t mapWidth
    refine ⟨t / mapWidth - i / mapWidth, by omega, ?_⟩
    have e : t / mapWidth = i / mapWidth + (t / mapWidth - i / mapWidth) := by omega
    have e2 : mapWidth * (t / mapWidth) =
        mapWidth * (i / mapWidth) + (t / mapWidth - i / mapWidth) * mapWidth := by
      conv_lhs => rw [e]
      ring
    omega

/-- For a group of the scan, the tiles inside its box are its tiles. -/
theorem covers_iff_mem (platformTiles : List Nat) (mapWidth mapHeight : Nat)
    (earlier : List TileGroup) (g : TileGroup) (t : Nat) (hw : 0 < mapWidth)
    (hs : GroupSound platformTiles mapWidth mapHeight earlier g) :
    GroupCovers mapWidth g t ↔ t ∈ g.combinedBox := by
  obtain ⟨_, hh, hv, _⟩ := hs
  unfold GroupCovers
  cases hb : g.horizontalBox with
  | true =>
    obtain ⟨hbox, _, hrow⟩ := hh hb
    have hmem : t ∈ g.combinedBox ↔ g.i ≤ t ∧ t < g.i + g.combinedBox.length := by
      conv_lhs => rw [hbox]
      exact List.mem_range'_1
    simp only [if_true]
    rw [hmem]
    exact (row_run_iff mapWidth g.i _ t hw hrow).symm
  | false =>
    obtain ⟨hbox, _, _⟩ := hv hb
    have hmem : t ∈ g.combinedBox ↔
        ∃ a, a < g.combinedBox.length ∧ t = g.i + a * mapWidth := by
      conv_lhs => rw [hbox]
      exact mem_columnTiles _ _ _ _
    simp only [Bool.false_eq_true, if_false]
    rw [hmem]
    exact (column_run_iff mapWidth g.i _ t hw).symm

theorem insideMap_of_sound (platformTiles : List Nat) (mapWidth mapHeight : Nat)
    (earlier : List TileGroup) (g : TileGroup) (hw : 0 < mapWidth)
    (hs : GroupSound platformTiles mapWidth mapHeight earlier g) :
    InsideMap mapWidth mapHeight g := by
  obtain ⟨_, hh, hv, hi⟩ := hs
  have hrow : g.i / mapWidth < mapHeight := Nat.div_lt_of_lt_mul hi
  have hcol := Nat.mod_lt g.i hw
  unfold InsideMap
  cases hb : g.horizontalBox with
  | true =>
    simp only [if_true]
    exact ⟨(hh hb).2.2, by omega⟩
  | false =>
    simp only [Bool.false_eq_true, if_false]
    exact ⟨by omega, (hv hb).2.2⟩

/-- The group made at a seed of the grid is sound. -/
theorem mergeFrom_sound (platformTiles : List Nat) (mapWidth mapHeight i : Nat)
    (markedTiles : List Nat) (earlier : List TileGroup) (hw : 0 < mapWidth)
    (hi : i < mapWidth * mapHeight) (hseed : tileIsZero platformTiles i = false)
    (hunmarked : isMarked markedTiles i = false)
    (hmarked : ∀ t, t ∈ markedTiles ↔ ∃ g' ∈ earlier, t ∈ g'.combinedBox) :
    GroupSound platformTiles mapWidth mapHeight earlier
      (mergeFrom platformTiles mapWidth mapHeight i markedTiles).2 := by
  have hfree : ∀ t, isMarked markedTiles t = false → ∀ g' ∈ earlier, t ∉ g'.combinedBox := by
    intro t ht g' hg' hmem
    have : t ∈ markedTiles := (hmarked t).2 ⟨g', hg', hmem⟩
    rw [← isMarked_iff, ht] at this
    cases this
  have hdm := Nat.div_add_mod i mapWidth
  have hmod := Nat.mod_lt i hw
  have hrowlt : i / mapWidth < mapHeight := Nat.div_lt_of_lt_mul hi
  have hq : mapWidth * (i / mapWidth) + mapWidth ≤ mapWidth * mapHeight := by
    have := Nat.mul_le_mul_left mapWidth (Nat.succ_le_of_lt hrowlt)
    rw [Nat.mul_succ] at this
    exact this
  cases hb : (mergeFrom platformTiles mapWidth mapHeight i markedTiles).2.horizontalBox with
  | true =>
    obtain ⟨n, hn, hm, hall, _⟩ :=
      mergeFrom_horizontal platformTiles mapWidth mapHeight i markedTiles hb
    rw [rowEnd_sub mapWidth i hw] at hn
    rw [hm]
    refine ⟨?_, ?_, ?_, hi⟩
    · intro t ht
      simp only [List.mem_range'_1] at ht
      by_cases hti : t = i
      · rw [hti]
        exact ⟨hi, hseed, hfree i hunmarked⟩
      · obtain ⟨hz, hmk⟩ := hall t (by omega) (by omega)
        exact ⟨by omega, hz, hfree t hmk⟩
    · intro _
      simp only [List.length_range']
      exact ⟨trivial, by omega, by omega⟩
    · intro hf
      simp at hf
  | false =>
    obtain ⟨n, hn1, hn, hbox, hall, _⟩ :=
      mergeFrom_vertical platformTiles mapWidth mapHeight i markedTiles hw hb
    have hseedi := mergeFrom_seed platformTiles mapWidth mapHeight i markedTiles
    generalize (mergeFrom platformTiles mapWidth mapHeight i markedTiles).2 = g at *
    have hlen : g.combinedBox.length = n + 1 := by
      rw [hbox]
      simp [columnTiles]
    have hbound : i + n * mapWidth < mapWidth * mapHeight := by
      rw [Nat.le_div_iff_mul_le hw] at hn
      unfold columnEnd at hn
      omega
    refine ⟨?_, ?_, ?_, by rw [hseedi]; exact hi⟩
    · intro t ht
      rw [hbox, mem_columnTiles] at ht
      obtain ⟨a, ha, rfl⟩ := ht
      have hle : a * mapWidth ≤ n * mapWidth := Nat.mul_le_mul_right mapWidth (by omega)
      by_cases ha0 : a = 0
      · subst ha0
        simp only [Nat.zero_mul, Nat.add_zero]
        exact ⟨hi, hseed, hfree i hunmarked⟩
      · obtain ⟨hz, hmk⟩ := hall a (by omega) (by omega)
        exact ⟨by omega, hz, hfree _ hmk⟩
    · intro hf
      rw [hb] at hf
      cases hf
    · intro _
      rw [hseedi, hlen]
      refine ⟨hbox, by omega, ?_⟩
      have hdiv : (i + n * mapWidth) / mapWidth < mapHeight := Nat.div_lt_of_lt_mul hbound
      rw [Nat.add_mul_div_right _ _ hw] at hdiv
      omega

/-- Every non-zero tile that the scan passes is marked before or is put in a group. -/
theorem scanLoop_complete (platformTiles : List Nat) (mapWidth mapHeight : Nat) :
    ∀ (count i : Nat) (markedTiles : List Nat) (t : Nat),
      i ≤ t → t < i + count → tileIsZero platformTiles t = false →
      t ∈ markedTiles ∨
        ∃ g ∈ scanLoop platformTiles mapWidth mapHeight count i markedTiles,
          t ∈ g.combinedBox := by
  intro count
  induction count with
  | zero => intro i markedTiles t h1 h2 _; omega
  | succ count ih =>
    intro i markedTiles t h1 h2 hz
    simp only [scanLoop]
    obtain ⟨_, hin, hmk⟩ := mergeFrom_marks platformTiles mapWidth mapHeight i markedTiles
    split
    · rename_i hskip
      by_cases hti : t = i
      · subst hti
        rw [hz] at hskip
        left
        simpa [isMarked] using hskip
      · exact ih (i + 1) markedTiles t (by omega) (by omega) hz
    · by_cases hti : t = i
      · subst hti
        exact Or.inr ⟨_, List.mem_cons_self _ _, hin⟩
      · rcases ih (i + 1) _ t (by omega) (by omega) hz with hm | ⟨g, hg, htg⟩
        · rcases (hmk t).1 hm with hc | hm0
          · exact Or.inr ⟨_, List.mem_cons_self _ _, hc⟩
          · exact Or.inl hm0
        · exact Or.inr ⟨g, List.mem_cons_of_mem _ hg, htg⟩

theorem pairwise_of_earlier {α : Type} (R : α → α → Prop) :
    ∀ (l : List α),
      (∀ pre g post, l = pre ++ g :: post → ∀ g' ∈ pre, R g' g) → l.Pairwise R := by
  intro l
  induction l with
  | nil => intro _; exact List.Pairwise.nil
  | cons a l ih =>
    intro h
    refine List.Pairwise.cons ?_ (ih ?_)
    · intro b hb
      obtain ⟨l1, l2, rfl⟩ := List.append_of_mem hb
      exact h (a :: l1) b l2 rfl a (List.mem_cons_self _ _)
    · intro pre g post hl g' hg'
      exact h (a :: pre) g post (by rw [hl]; rfl) g' (List.mem_cons_of_mem _ hg')

/-- Every group of the scan of a full grid is sound with respect to the groups emitted
before it. -/
theorem mergeTiles_sound (platformTiles : List Nat) (mapWidth mapHeight : Nat)
    (hw : 0 < mapWidth) (hlen : platformTiles.length = mapWidth * mapHeight)
    (pre : List TileGroup) (g : TileGroup) (post : List TileGroup)
    (hscan : mergeTiles platformTiles mapWidth mapHeight = pre ++ g :: post) :
    GroupSound platformTiles mapWidth mapHeight pre g := by
  have := scanLoop_each platformTiles mapWidth mapHeight (mapWidth * mapHeight)
    (GroupSound platformTiles mapWidth mapHeight)
    (fun i markedTiles earlier hi hseed hunmarked _ hmarked =>
      mergeFrom_sound platformTiles mapWidth mapHeight i markedTiles earlier hw hi hseed
        hunmarked hmarked)
    platformTiles.length 0 [] [] (by omega) (fun t ht => by omega)
    (fun t => by simp) pre g post hscan
  simpa using this

/-- Two groups of the scan of a full grid, one emitted before the other, cover no common
tile. -/
theorem groups_disjoint (platformTiles : List Nat) (mapWidth mapHeight : Nat)
    (hw : 0 < mapWidth) (hlen : platformTiles.length = mapWidth * mapHeight)
    (pre : List TileGroup) (g : TileGroup) (post : List TileGroup)
    (hscan : mergeTiles platformTiles mapWidth mapHeight = pre ++ g :: post)
    (g' : TileGroup) (hg' : g' ∈ pre) (t : Nat) :
    ¬ (GroupCovers mapWidth g' t ∧ GroupCovers mapWidth g t) := by
  rintro ⟨hc', hc⟩
  have hs := mergeTiles_sound platformTiles mapWidth mapHeight hw hlen pre g post hscan
  obtain ⟨p1, p2, rfl⟩ := List.append_of_mem hg'
  have hs' := mergeTiles_sound platformTiles mapWidth mapHeight hw hlen p1 g'
    (p2 ++ g :: post) (by rw [hscan]; simp)
  rw [covers_iff_mem platformTiles mapWidth mapHeight _ g t hw hs] at hc
  rw [covers_iff_mem platformTiles mapWidth mapHeight _ g' t hw hs'] at hc'
  exact (hs.1 t hc).2.2 g' hg' hc'

/-- The groups of a full grid partition its non-zero tiles, in tile units. -/
theorem mergeTiles_partition (platformTiles : List Nat) (mapWidth mapHeight : Nat)
    (hw : 1 ≤ mapWidth) (hlen : platformTiles.length = mapWidth * mapHeight) :
    (∀ t, t < mapWidth * mapHeight → tileIsZero platformTiles t = false →
      ∃ pre g post, mergeTiles platformTiles mapWidth mapHeight = pre ++ g :: post ∧
        GroupCovers mapWidth g t ∧ ∀ g' ∈ pre ++ post, ¬ GroupCovers mapWidth g' t) ∧
    (∀ g ∈ mergeTiles platformTiles mapWidth mapHeight, ∀ t, GroupCovers mapWidth g t →
      t < mapWidth * mapHeight ∧ tileIsZero platformTiles t = false) ∧
    (mergeTiles platformTiles mapWidth mapHeight).Pairwise
      (fun g g' => ∀ t, ¬ (GroupCovers mapWidth g t ∧ GroupCovers mapWidth g' t)) ∧
    (∀ g ∈ mergeTiles platformTiles mapWidth mapHeight, InsideMap mapWidth mapHeight g) := by
  have hw' : 0 < mapWidth := hw
  refine ⟨?_, ?_, ?_, ?_⟩
  · intro t ht hz
    have hc := scanLoop_complete platformTiles mapWidth mapHeight platformTiles.length 0 []
      t (Nat.zero_le _) (by omega) hz
    rcases hc with hc | ⟨g, hg, htg⟩
    · simp at hc
    · obtain ⟨pre, post, hscan⟩ := List.append_of_mem hg
      have hscan' : mergeTiles platformTiles mapWidth mapHeight = pre ++ g :: post := hscan
      have hs := mergeTiles_sound platformTiles mapWidth mapHeight hw' hlen pre g post hscan'
      have hcov : GroupCovers mapWidth g t :=
        (covers_iff_mem platformTiles mapWidth mapHeight _ g t hw' hs).2 htg
      refine ⟨pre, g, post, hscan', hcov, ?_⟩
      intro g' hg' hc'
      rcases List.mem_append.1 hg' with hp | hp
      · exact groups_disjoint platformTiles mapWidth mapHeight hw' hlen pre g post hscan'
          g' hp t ⟨hc', hcov⟩
      · obtain ⟨q1, q2, rfl⟩ := List.append_of_mem hp
        exact groups_disjoint platformTiles mapWidth mapHeight hw' hlen (pre ++ g :: q1) g'
          q2 (by rw [hscan']; simp) g (by simp) t ⟨hcov, hc'⟩
  · intro g hg t hcov
    obtain ⟨pre, post, hscan⟩ := List.append_of_mem hg
    have hs := mergeTiles_sound platformTiles mapWidth mapHeight hw' hlen pre g post hscan
    have htg := (covers_iff_mem platformTiles mapWidth mapHeight _ g t hw' hs).1 hcov
    exact ⟨(hs.1 t htg).1, (hs.1 t htg).2.1⟩
  · apply pairwise_of_earlier
    intro pre g post hscan g' hg' t
    exact groups_disjoint platformTiles mapWidth mapHeight hw' hlen pre g post hscan g' hg' t
  · intro g hg
    obtain ⟨pre, post, hscan⟩ := List.append_of_mem hg
    exact insideMap_of_sound platformTiles mapWidth mapHeight pre g hw'
      (mergeTiles_sound platformTiles mapWidth mapHeight hw' hlen pre g post hscan)

theorem cast_mul_le_iff (a b : Nat) (c : ℚ) (hc : 0 < c) :
    (a : ℚ) * c ≤ (b : ℚ) * c ↔ a ≤ b := by
  rw [mul_le_mul_right hc, Nat.cast_le]

/-- The geometry of the created box, in tile units: a tile's square lies inside the box of
a group exactly when the group covers the tile. -/
theorem tileInBox_iff_covers (map : TileMap) (g : TileGroup) (t : Nat)
    (htw : 0 < map.tileWidth) (hth : 0 < map.tileHeight) :
    TileInBox map g t ↔ GroupCovers map.sizeX g t := by
  unfold TileInBox GroupCovers groupBox groupPosition
  cases hb : g.horizontalBox with
  | true =>
    simp only [if_true, add_zero]
    have c1 := cast_mul_le_iff (g.i % map.sizeX) (t % map.sizeX) map.tileWidth htw
    have c2 := cast_mul_le_iff (t % map.sizeX + 1) (g.i % map.sizeX + g.combinedBox.length)
      map.tileWidth htw
    have c3 := cast_mul_le_iff (g.i / map.sizeX) (t / map.sizeX) map.tileHeight hth
    have c4 := cast_mul_le_iff (t / map.sizeX + 1) (g.i / map.sizeX + 1) map.tileHeight hth
    have e2 : ((g.i % map.sizeX : Nat) : ℚ) * map.tileWidth +
        map.tileWidth * (g.combinedBox.length : ℚ) =
        ((g.i % map.sizeX + g.combinedBox.length : Nat) : ℚ) * map.tileWidth := by
      push_cast
      ring
    have e4 : ((g.i / map.sizeX : Nat) : ℚ) * map.tileHeight + map.tileHeight =
        ((g.i / map.sizeX + 1 : Nat) : ℚ) * map.tileHeight := by
      push_cast
      ring
    have f2 : (((t % map.sizeX : Nat) : ℚ) + 1) = ((t % map.sizeX + 1 : Nat) : ℚ) := by
      push_cast
      rfl
    have f4 : (((t / map.sizeX : Nat) : ℚ) + 1) = ((t / map.sizeX + 1 : Nat) : ℚ) := by
      push_cast
      rfl
    rw [e2, e4, f2, f4, c1, c2, c3, c4]
    omega
  | false =>
    simp only [Bool.false_eq_true, if_false, add_zero]
    have c1 := cast_mul_le_iff (g.i % map.sizeX) (t % map.sizeX) map.tileWidth htw
    have c2 := cast_mul_le_iff (t % map.sizeX + 1) (g.i % map.sizeX + 1) map.tileWidth htw
    have c3 := cast_mul_le_iff (g.i / map.sizeX) (t / map.sizeX) map.tileHeight hth
    have c4 := cast_mul_le_iff (t / map.sizeX + 1) (g.i / map.sizeX + g.combinedBox.length)
      map.tileHeight hth
    have e2 : ((g.i % map.sizeX : Nat) : ℚ) * map.tileWidth + map.tileWidth =
        ((g.i % map.sizeX + 1 : Nat) : ℚ) * map.tileWidth := by
      push_cast
      ring
    have e4 : ((g.i / map.sizeX : Nat) : ℚ) * map.tileHeight +
        map.tileHeight * (g.combinedBox.length : ℚ) =
        ((g.i / map.sizeX + g.combinedBox.length : Nat) : ℚ) * map.tileHeight := by
      push_cast
      ring
    have f2 : (((t % map.sizeX : Nat) : ℚ) + 1) = ((t % map.sizeX + 1 : Nat) : ℚ) := by
      push_cast
      rfl
    have f4 : (((t / map.sizeX : Nat) : ℚ) + 1) = ((t / map.sizeX + 1 : Nat) : ℚ) := by
      push_cast
      rfl
    rw [e2, e4, f2, f4, c1, c2, c3, c4]
    omega

/-- C12: for a map whose collision grid has exactly `mapWidth * mapHeight` tiles,
`mapWidth >= 1`, with tiles of positive size, the boxes that `loadMap` creates (one per
group, see `createBox_fold`) partition the non-empty tiles: every non-zero tile lies
inside exactly one emitted box, an emitted box covers only non-zero tiles of the grid, no
two boxes cover a common tile, and every box lies inside the map rectangle (a horizontal
run ends in its row, a vertical run ends by the last row). -/
theorem tiles_partition (map : TileMap) (hw : 1 ≤ map.sizeX)
    (hlen : (collisionTiles map.layers).length = map.sizeX * map.sizeY)
    (htw : 0 < map.tileWidth) (hth : 0 < map.tileHeight) :
    (∀ t, t < map.sizeX * map.sizeY → tileIsZero (collisionTiles map.layers) t = false →
      ∃ pre g post,
        mergeTiles (collisionTiles map.layers) map.sizeX map.sizeY = pre ++ g :: post ∧
        TileInBox map g t ∧ ∀ g' ∈ pre ++ post, ¬ TileInBox map g' t) ∧
    (∀ g ∈ mergeTiles (collisionTiles map.layers) map.sizeX map.sizeY, ∀ t,
      TileInBox map g t →
        t < map.sizeX * map.sizeY ∧ tileIsZero (collisionTiles map.layers) t = false) ∧
    (mergeTiles (collisionTiles map.layers) map.sizeX map.sizeY).Pairwise
      (fun g g' => ∀ t, ¬ (TileInBox map g t ∧ TileInBox map g' t)) ∧
    (∀ g ∈ mergeTiles (collisionTiles map.layers) map.sizeX map.sizeY,
      InsideMap map.sizeX map.sizeY g) := by
  simp only [tileInBox_iff_covers map _ _ htw hth]
  exact mergeTiles_partition (collisionTiles map.layers) map.sizeX map.sizeY hw hlen

theorem tiles_partition_witness :
    (∀ t, t < sampleColumnMap.sizeX * sampleColumnMap.sizeY →
      tileIsZero (collisionTiles sampleColumnMap.layers) t = false →
      ∃ pre g post,
        mergeTiles (collisionTiles sampleColumnMap.layers) sampleColumnMap.sizeX
          sampleColumnMap.sizeY = pre ++ g :: post ∧
        TileInBox sampleColumnMap g t ∧ ∀ g' ∈ pre ++ post, ¬ TileInBox sampleColumnMap g' t) ∧
    (∀ g ∈ mergeTiles (collisionTiles sampleColumnMap.layers) sampleColumnMap.sizeX
        sampleColumnMap.sizeY, ∀ t,
      TileInBox sampleColumnMap g t →
        t < sampleColumnMap.sizeX * sampleColumnMap.sizeY ∧
          tileIsZero (collisionTiles sampleColumnMap.layers) t = false) ∧
    (mergeTiles (collisionTiles sampleColumnMap.layers) sampleColumnMap.sizeX
        sampleColumnMap.sizeY).Pairwise
      (fun g g' => ∀ t, ¬ (TileInBox sampleColumnMap g t ∧ TileInBox sampleColumnMap g' t)) ∧
    (∀ g ∈ mergeTiles (collisionTiles sampleColumnMap.layers) sampleColumnMap.sizeX
        sampleColumnMap.sizeY, InsideMap sampleColumnMap.sizeX sampleColumnMap.sizeY g) :=
  tiles_partition sampleColumnMap (by decide) (by decide) (by decide!) (by decide!)

/-! ## Integration of the position -/

/-- C17 (failing input): in `twoPlayersProc` player 2 jumps; `activateFx` then writes the
position of player 2 into entity 3, the other player, because entity 3 is the last
movable. No overlap is resolved for entity 3 during the frame, its `dx` is 0 and its `dy`
is 10, and yet its Position goes from (200, 10) to (10, 20), not to (200 + 0, 10 + 10). -/
theorem jump_moves_other_player :
    twoPlayersProc.manager.Player.has 3 = true ∧
    twoPlayersProc.manager.Position.lookup 3 = some ⟨200, 10⟩ ∧
    frameOverlaps sampleSat [⟨true, 1, Action.JUMP⟩] twoPlayersProc 100 3 = some [] ∧
    (update sampleSat [⟨true, 1, Action.JUMP⟩] twoPlayersProc 100).map
        (fun q => (q.manager.Position.lookup 3,
          (q.manager.Movable.lookup 3).map (fun mv => (mv.dx, mv.dy)))) =
      some (some ⟨10, 20⟩, some (0, 10)) ∧
    (⟨10, 20⟩ : PositionData) ≠ ⟨200 + 0, 10 + 10⟩ := by
  decide!

theorem collisionStep_noOverlap {R : Type} (sat : SatLib R) (k : Nat)
    (movableBoxData : BoundingBoxData) (st : CollisionState R)
    (entry : Nat × BoundingBoxData) (st' : CollisionState R)
    (h : collisionStep sat k movableBoxData st entry = some st')
    (hno : stepOverlap sat k st entry = none) : st'.proc.manager = st.proc.manager := by
  rcases collisionStep_cases sat k movableBoxData st entry st' h with
    ⟨_, rfl⟩ | ⟨hne, boxes, r, hpr, _⟩ | ⟨_, boxes, r, _, rfl⟩
  · rfl
  · simp [stepOverlap, hne, hpr] at hno
  · rfl

theorem collisionFold_noOverlap {R : Type} (sat : SatLib R) (k : Nat)
    (movableBoxData : BoundingBoxData) :
    ∀ (entries : Table BoundingBoxData) (st st' : CollisionState R),
      entries.foldlM (collisionStep sat k movableBoxData) st = some st' →
      collisionOverlaps sat k movableBoxData entries st = some [] →
      st'.proc.manager = st.proc.manager := by
  intro entries
  induction entries with
  | nil =>
    intro st st' h _
    simp only [List.foldlM_nil, Option.pure_def, Option.some.injEq] at h
    rw [h]
  | cons e entries ih =>
    intro st st' h hlog
    simp only [List.foldlM_cons, Option.bind_eq_bind, Option.bind_eq_some] at h
    obtain ⟨st1, h1, h2⟩ := h
    simp only [collisionOverlaps, h1, Option.map_eq_some'] at hlog
    obtain ⟨rest, hrest, hnil⟩ := hlog
    rw [List.append_eq_nil] at hnil
    obtain ⟨hs, rfl⟩ := hnil
    have hso : stepOverlap sat k st e = none := by
      cases hc : stepOverlap sat k st e with
      | none => rfl
      | some v => rw [hc] at hs; simp at hs
    rw [ih st1 st' h2 hrest, collisionStep_noOverlap sat k movableBoxData st e st1 h1 hso]

/-- A call of `checkCollision` that resolves no overlap leaves every component as it is. -/
theorem checkCollision_noOverlap {R : Type} (sat : SatLib R) (p : PhysicsProcessor)
    (k : Nat) (p' : PhysicsProcessor) (h : checkCollision sat p k = some p')
    (hlog : checkOverlaps sat p k = some []) : p'.manager = p.manager := by
  cases hpl : p.manager.Player.has k with
  | false =>
    rw [checkCollision_noPlayer sat p k hpl] at h
    cases h
    rfl
  | true =>
    obtain ⟨box, pos, st, hbox, hpos, hst, rfl⟩ := checkCollision_loop sat p k p' h hpl
    simp only [checkOverlaps, hpl, Bool.not_true, Bool.false_eq_true, if_false, hbox, hpos,
      Option.bind_eq_bind, Option.some_bind] at hlog
    exact collisionFold_noOverlap sat k box _ _ st hst hlog

/-- The body of the move loop for a player whose two checks resolve no overlap adds `dx`
and `dy` to its position and changes nothing else. -/
theorem moveEntity_noOverlap {R : Type} (sat : SatLib R) (p : PhysicsProcessor) (k : Nat)
    (p' : PhysicsProcessor) (mv : MovableData) (x y : ℚ)
    (hpl : p.manager.Player.has k = true) (h : moveEntity sat p k = some p')
    (hlog : moveOverlaps sat p k = some [])
    (hmv : p.manager.Movable.lookup k = some mv)
    (hpos : p.manager.Position.lookup k = some ⟨x, y⟩) :
    p'.manager.Position.lookup k = some ⟨x + mv.dx, y + mv.dy⟩ ∧
      p'.manager.Movable = p.manager.Movable := by
  obtain ⟨p1, p2, p3, h1, h2, h3, h4⟩ := moveEntity_steps sat p k p' hpl h
  obtain ⟨l1, l2, hl1, hl2, hnil⟩ := moveOverlaps_steps sat p k [] p1 p2 p3 hpl hlog h1 h2 h3
  have hn := List.append_eq_nil.1 hnil.symm
  rw [hn.1] at hl1
  rw [hn.2] at hl2
  obtain ⟨moveData, posData, e1, e2, rfl⟩ := movedX_spec p k p1 h1
  rw [hmv] at e1
  rw [hpos] at e2
  cases e1
  cases e2
  have q2 := checkCollision_noOverlap sat _ k p2 h2 hl1
  obtain ⟨moveData2, posData2, f1, f2, rfl⟩ := movedY_spec p2 k p3 h3
  have q4 := checkCollision_noOverlap sat _ k p' h4 hl2
  rw [q2] at f1 f2
  simp only at f1 f2
  rw [Table.lookup_set_self _ _ _ _ hpos] at f2
  rw [hmv] at f1
  cases f1
  cases f2
  rw [q4]
  simp only
  have hp2 : p2.manager.Position.lookup k = some ⟨x + mv.dx, y⟩ := by
    rw [q2]
    exact Table.lookup_set_self _ _ _ _ hpos
  constructor
  · rw [Table.lookup_set_self _ _ _ _ hp2]
  · rw [q2]

theorem moveLoop_other {R : Type} (sat : SatLib R) (keys : List Nat)
    (p p' : PhysicsProcessor) (id : Nat)
    (h : keys.foldlM (moveEntity sat) p = some p') (hid : id ∉ keys) :
    p'.manager.Movable.lookup id = p.manager.Movable.lookup id ∧
      p'.manager.Position.lookup id = p.manager.Position.lookup id :=
  foldlM_invariant_mem (moveEntity sat)
    (fun s => s.manager.Movable.lookup id = p.manager.Movable.lookup id ∧
      s.manager.Position.lookup id = p.manager.Position.lookup id)
    keys p p'
    (fun s a s' ha hs hstep => by
      have hne : id ≠ a := fun e => hid (e ▸ ha)
      obtain ⟨h1, h2⟩ := moveEntity_other sat s a s' id hstep (Or.inl hne)
      exact ⟨h1.trans hs.1, h2.trans hs.2⟩)
    ⟨rfl, rfl⟩ h

/-- The move loop over distinct keys adds `dx` and `dy` to the position of a player for
which no overlap is resolved, and leaves its movable as it is. -/
theorem moveLoop_noOverlap {R : Type} (sat : SatLib R) (id : Nat) (mv : MovableData)
    (x y : ℚ) :
    ∀ (keys : List Nat) (p p' : PhysicsProcessor),
      keys.Nodup → id ∈ keys → p.manager.Player.has id = true →
      keys.foldlM (moveEntity sat) p = some p' →
      moveLoopOverlaps sat id keys p = some [] →
      p.manager.Movable.lookup id = some mv →
      p.manager.Position.lookup id = some ⟨x, y⟩ →
      p'.manager.Position.lookup id = some ⟨x + mv.dx, y + mv.dy⟩ ∧
        p'.manager.Movable.lookup id = some mv := by
  intro keys
  induction keys with
  | nil => intro p p' _ hin; cases hin
  | cons k keys ih =>
    intro p p' hnd hin hpl h hlog hmv hpos
    simp only [List.foldlM_cons, Option.bind_eq_bind, Option.bind_eq_some] at h
    obtain ⟨p1, h1, h2⟩ := h
    simp only [moveLoopOverlaps, h1, Option.bind_eq_some, Option.map_eq_some'] at hlog
    obtain ⟨l, hl, rest, hrest, hnil⟩ := hlog
    obtain ⟨rfl, rfl⟩ := List.append_eq_nil.1 hnil
    obtain ⟨hk, hnd'⟩ := List.nodup_cons.1 hnd
    by_cases hki : k = id
    · subst hki
      simp only [if_true] at hl
      obtain ⟨a1, a2⟩ := moveEntity_noOverlap sat p k p1 mv x y hpl h1 hl hmv hpos
      obtain ⟨b1, b2⟩ := moveLoop_other sat keys p1 p' k h2 hk
      exact ⟨by rw [b2]; exact a1, by rw [b1, a2]; exact hmv⟩
    · have hin' : id ∈ keys := by
        rcases List.mem_cons.1 hin with e | e
        · exact absurd e.symm hki
        · exact e
      obtain ⟨c1, c2⟩ := moveEntity_other sat p k p1 id h1 (Or.inl (Ne.symm hki))
      obtain ⟨hs, _⟩ := moveEntity_same sat p k p1 h1
      exact ih p1 p' hnd' hin' (by rw [hs.1]; exact hpl) h2 hrest (by rw [c1]; exact hmv)
        (by rw [c2]; exact hpos)

/-- An input leaves the position of every entity other than the one `activateFx` writes
to. -/
theorem handleInput_position (dt : ℚ) (m : Manager) (input : InputData) (m' : Manager)
    (id : Nat) (h : handleInput dt m input = some m')
    (hfx : fxEntity m.Movable ≠ some id) :
    m'.Position.lookup id = m.Position.lookup id := by
  rcases handleInput_cases dt m input m' h with rfl | ⟨pid, mv, _, _, _, hlr⟩ |
    ⟨pid, mv, _, _, _, _, _, _, hact⟩
  · rfl
  · rcases hlr with ⟨_, rfl⟩ | ⟨_, rfl⟩ <;> rfl
  · obtain ⟨fxMov, _, _, hfx', _, _, _, _, _, _, _, _, _, _, _, hP⟩ :=
      activateFx_spec _ _ _ hact
    have hfxm : fxEntity m.Movable = some fxMov := by
      simpa [fxEntity, Table.keys_set] using hfx'
    have hne : id ≠ fxMov := by
      intro e
      rw [hfxm, e] at hfx
      exact hfx rfl
    rw [hP id]
    simp only [hne, if_false]
    cases m.Position.lookup id <;> rfl

/-- Integration of the position where `activateFx` does not interfere: for a player `id` that is not
the entity `activateFx` writes to, in a store with distinct movable keys, a frame in which
no overlap is resolved for `id` moves its Position from `(x, y)` to `(x + dx, y + dy)`,
`dx` and `dy` being those of its movable after the frame. -/
theorem position_integrated {R : Type} (sat : SatLib R) (inputs : List InputData)
    (p : PhysicsProcessor) (dt : ℚ) (p' : PhysicsProcessor) (id : Nat) (x y : ℚ)
    (h : update sat inputs p dt = some p') (hpl : p.manager.Player.has id = true)
    (hmov : p.manager.Movable.has id = true) (hnd : p.manager.Movable.keys.Nodup)
    (hfx : fxEntity p.manager.Movable ≠ some id)
    (hlog : frameOverlaps sat inputs p dt id = some [])
    (hpos : p.manager.Position.lookup id = some ⟨x, y⟩) :
    ∃ mv', p'.manager.Movable.lookup id = some mv' ∧
      p'.manager.Position.lookup id = some ⟨x + mv'.dx, y + mv'.dy⟩ := by
  obtain ⟨m1, p3, hm1, h3, hp', hM, _⟩ := update_parts sat inputs p dt p' h
  have hin := foldlM_invariant (handleInput dt)
    (fun s => SameEntities p.manager s ∧ s.Position.lookup id = some ⟨x, y⟩)
    (fun s a s' hs hstep => by
      obtain ⟨hse, hps⟩ := hs
      have hfxs : fxEntity s.Movable ≠ some id := by
        unfold fxEntity at hfx ⊢
        rw [hse.2.2.2.2.1]
        exact hfx
      exact ⟨hse.trans (handleInput_same dt s a s' hstep),
        (handleInput_position dt s a s' id hstep hfxs).trans hps⟩)
    inputs _ m1 ⟨resetDx_same p.manager, hpos⟩ hm1
  obtain ⟨hse, hps⟩ := hin
  have hkeys : (applyGravity dt m1).Movable.keys = p.manager.Movable.keys :=
    (applyGravity_same dt m1).2.2.2.2.1.trans hse.2.2.2.2.1
  have hhas : (applyGravity dt m1).Movable.has id = true := by
    rw [Table.has_of_keys_eq _ _ hkeys]
    exact hmov
  obtain ⟨g, hg⟩ := (Table.has_eq_true _ _).1 hhas
  obtain ⟨a1, a2⟩ := moveLoop_noOverlap sat id g x y _ _ p3 (by rw [hkeys]; exact hnd)
    (by rw [hkeys]; exact (Table.has_iff_mem_keys _ _).1 hmov)
    (by
      show (applyGravity dt m1).Player.has id = true
      rw [(applyGravity_same dt m1).1, hse.1]
      exact hpl)
    h3 (frameOverlaps_loop sat inputs p dt id [] m1 hm1 hlog) hg hps
  refine ⟨g, by rw [hM]; exact a2, ?_⟩
  rw [hp']
  split
  · exact loadMap_position p3 id _ a1
  · exact a1

end Physics
